import Mathlib

/-!
# ThorVG Janitor: a shallow embedding of the game core in `tvggame.cpp`

The development follows the source file top to bottom: math utilities, the
launcher, enemies, explosions, the object pools (`GarbageCollector`), the combo
manager and the session (`ThorWar`).

Conventions of the embedding.

* C++ `float`/`double` values are rationals (`ℚ`).  Where a clock value (a
  `uint32_t` count of milliseconds, which grows without bound in a session) is
  converted to `float`, and where two such time stamps are subtracted in
  `float`, the result is rounded to binary32 (`f32`, `sinceF`): from `2^24` ms
  on the conversion is not exact.  The arithmetic on coordinates, scales and
  progress values is exact, and so is the conversion of the screen dimensions,
  random coordinates, angles and enemy lifetimes, which the program keeps far
  below `2^24`.  (The tests `progress <= 1.0f` and `progress > 1.0f` on a
  quotient of two `float`s come out the same on the exact quotient: a `float`
  above the divisor is above it by a unit in the last place, which the rounded
  quotient keeps above 1.)  `sqrtf`, `sin`, `cos` and `M_PI` are parameters of the
  environment `Env`.  A rational has no infinity and no NaN: a division by a
  zero `float` is treated where it occurs (`Enemy.update`); `normalize` and
  `extend` are meant for vectors of non-zero length, as the player direction
  is.
* `uint32_t` and `size_t` values are natural numbers; every subtraction,
  increment and decrement on them is taken modulo `2^32` resp. `2^64`.
* `int` values are integers; the increment of `ComboMgr::counter` wraps in two's
  complement (`i32`), the value the compiled program produces where C++ leaves
  signed overflow undefined.
* Objects that live behind pointers (`Enemy*`, `Explosion*`) are values carrying
  their address in the field `id`; a container of pointers is a list of such
  values.  `std::vector` free lists are stored back first, so `push_back` is
  `::` and `back`/`pop_back` read and drop the head.
* `rand()` reads the next element of a stream (`Rand`).
* Calls into the rendering layer (scene graph, text, canvas) have no effect on
  the simulation state and are left out; the few flags the claims mention
  (`Player.visible`, `Lives.active`) are kept.
-/

namespace Janitor

/-! ## Math utility -/

/-- A 2D point of the rendering library (`tvg::Point`, two floats). -/
structure Point where
  x : ℚ
  y : ℚ
deriving DecidableEq

/-- Source: `operator-(const Point&, const Point&)`. -/
def Point.sub (lhs rhs : Point) : Point := ⟨lhs.x - rhs.x, lhs.y - rhs.y⟩

/-- Source: `operator+(const Point&, const Point&)`. -/
def Point.add (lhs rhs : Point) : Point := ⟨lhs.x + rhs.x, lhs.y + rhs.y⟩

instance : Sub Point := ⟨Point.sub⟩
instance : Add Point := ⟨Point.add⟩

/-- Source: `length2`, the squared length of a vector. -/
def length2 (pt : Point) : ℚ := pt.x * pt.x + pt.y * pt.y

/-- Source: `intersect(a, b, dist)`: `(length2(a - b) < dist) ? true : false`. -/
def intersect (a b : Point) (dist : ℚ) : Bool :=
  if length2 (a - b) < dist then true else false

/-- Source: `lerp(start, end, t) = start + (end - start) * t`. -/
def lerp (start fin t : ℚ) : ℚ := start + (fin - start) * t

/-- The values fixed once at start-up (`main`, `ThorWar::content`) together
with the floating point library functions the game calls. -/
structure Env where
  /-- The scale factor `SCALE`. -/
  SCALE : ℚ
  /-- The scaled resolution `SWIDTH`. -/
  SWIDTH : Nat
  /-- The scaled resolution `SHEIGHT`. -/
  SHEIGHT : Nat
  /-- The library function `sqrtf` / `std::sqrt`. -/
  sqrt : ℚ → ℚ
  /-- The library function `sin`. -/
  sin : ℚ → ℚ
  /-- The library function `cos`. -/
  cos : ℚ → ℚ
  /-- The constant `M_PI`. -/
  PI : ℚ

/-- Source: the scale multiplier `_S(a) = a * SCALE`. -/
def Env.S (env : Env) (a : ℚ) : ℚ := a * env.SCALE

/-- Source: `Enemy::BOUND = _S(80.0f)`, set in `ThorWar::content`. -/
def Env.BOUND (env : Env) : ℚ := env.S 80

/-- Source: `normalize(pt)`. -/
def normalize (env : Env) (pt : Point) : Point :=
  let length := 1 / env.sqrt (length2 pt)
  ⟨pt.x * length, pt.y * length⟩

/-- Source: `extend(pt, length)`. -/
def extend (env : Env) (pt : Point) (length : ℚ) : Point :=
  let mag := env.sqrt (length2 pt)
  ⟨pt.x * (length / mag), pt.y * (length / mag)⟩

/-- Wrap-around of `uint32_t` arithmetic. -/
def u32 (n : Int) : Nat := (n % 2 ^ 32).toNat

/-- Wrap-around of `size_t` arithmetic (64 bit). -/
def usize (n : Int) : Nat := (n % 2 ^ 64).toNat

/-- Two's-complement wrap-around of `int` arithmetic (32 bit).  Signed overflow
is undefined in C++; this is the value the compiled program produces. -/
def i32 (n : Int) : Int := (n + 2 ^ 31) % 2 ^ 32 - 2 ^ 31

/-- Floor of the binary logarithm of `n` (0 for `n < 2`), by halving at most
`fuel` times. -/
def ilog2 : Nat → Nat → Nat
  | 0, _ => 0
  | fuel + 1, n => if n < 2 then 0 else ilog2 fuel (n / 2) + 1

/-- The power of two `2^e` for an integer exponent. -/
def pow2 (e : Int) : ℚ :=
  if 0 ≤ e then ((2 ^ e.toNat : Nat) : ℚ) else 1 / ((2 ^ (-e).toNat : Nat) : ℚ)

/-- The exponent `e` of the binary32 spacing at a positive `a`:
`2^(e+23) ≤ a < 2^(e+24)`, so that `a / 2^e` has a 24-bit integer part. -/
def f32exp (a : ℚ) : Int :=
  let k : Int := (ilog2 a.num.natAbs a.num.natAbs : Int) - (ilog2 a.den a.den : Int)
  (if pow2 k ≤ a then k else k - 1) - 23

/-- Rounding to the nearest integer, ties to the even one. -/
def roundEven (m : ℚ) : Int :=
  let fl : Int := ⌊m⌋
  let r : ℚ := m - fl
  if r < 1 / 2 then fl
  else if 1 / 2 < r then fl + 1
  else if fl % 2 = 0 then fl else fl + 1

/-- Rounding to binary32 (`float`): the nearest value with a 24-bit
significand, ties to even.  The exponent range is not bounded (the values
rounded here are clock values and their differences, far inside it). -/
def f32 (q : ℚ) : ℚ :=
  if q = 0 then 0
  else if q < 0 then -((roundEven (-q / pow2 (f32exp (-q))) : ℚ) * pow2 (f32exp (-q)))
  else (roundEven (q / pow2 (f32exp q)) : ℚ) * pow2 (f32exp q)

/-- The `float` value of `elapsed - time` for a `uint32_t elapsed` and a
`float time`: `elapsed` is converted to `float` and the difference is taken in
`float`. -/
def sinceF (elapsed : Nat) (time : ℚ) : ℚ := f32 (f32 (elapsed : ℚ) - time)

/-- The stream behind `rand()`: `seq` lists the values the generator will
return, `idx` counts the calls made so far. -/
structure Rand where
  seq : Nat → Nat
  idx : Nat

/-- One call of `rand()`: the value returned and the advanced generator. -/
def Rand.next (r : Rand) : Nat × Rand := (r.seq r.idx, { r with idx := r.idx + 1 })

/-! ## Combo manager -/

/-- Source: `ComboMgr::Combo`, one floating "Nx combo!" text. -/
structure Combo where
  /-- The number printed into the text by `init`. -/
  counter : Int
  /-- Where the text is placed. -/
  pos : Point
  /-- The start of the fade (`float time`). -/
  time : ℚ
deriving DecidableEq

/-- Source: `Combo::Combo(ComboMgr*)`; nothing but the text widget is set up. -/
def Combo.new : Combo := ⟨0, ⟨0, 0⟩, 0⟩

/-- Source: `Combo::init(pos, counter, elapsed)`; `time = (float)elapsed`. -/
def Combo.init (_c : Combo) (pos : Point) (counter : Int) (elapsed : Nat) : Combo :=
  ⟨counter, pos, f32 (elapsed : ℚ)⟩

/-- Progress of a combo text, `float(elapsed - time) / COMBO_TIME`. -/
def Combo.update (c : Combo) (elapsed : Nat) : Bool :=
  let progress := sinceF elapsed c.time / 750
  if progress ≤ 1 then false else true

/-- Source: `struct ComboMgr`.  `combos` is the `std::list` in order, `recycle`
the free list (back first). -/
structure ComboMgr where
  combos : List Combo := []
  recycle : List Combo := []
  type : Int := -1
  counter : Int := 0
deriving DecidableEq

/-- Source: `ComboMgr::trigger(type, pos, elapsed)`; returns the counter and
the manager after the call.  `++counter` is an increment of an `int`. -/
def ComboMgr.trigger (m : ComboMgr) (type : Int) (pos : Point) (elapsed : Nat) :
    Int × ComboMgr :=
  if m.type = type then
    let counter := i32 (m.counter + 1)
    let combo := (match m.recycle with
      | [] => Combo.new
      | c :: _ => c).init pos counter elapsed
    (counter, { m with counter := counter, recycle := m.recycle.tail,
                       combos := m.combos ++ [combo] })
  else
    (1, { m with type := type, counter := 1 })

/-- Source: `ComboMgr::update(elapsed)`: finished texts move to `recycle`. -/
def ComboMgr.update (m : ComboMgr) (elapsed : Nat) : ComboMgr :=
  { m with combos := m.combos.filter (fun c => !c.update elapsed),
           recycle := (m.combos.filter (fun c => c.update elapsed)).reverse ++ m.recycle }

/-! ## Launcher -/

/-- Source: `Launcher::Fire`, one projectile slot (`float time`). -/
structure Fire where
  from_ : Point
  to_ : Point
  cur : Point
  time : ℚ
  active : Bool
deriving DecidableEq

/-- Source: `Fire::inactivate`. -/
def Fire.inactivate (f : Fire) : Fire := { f with active := false }

/-- Source: `Fire::hit(target, range)`; the result and the slot afterwards. -/
def Fire.hit (f : Fire) (target : Point) (range : ℚ) : Bool × Fire :=
  if f.active && intersect f.cur target range then (true, f.inactivate) else (false, f)

/-- Source: `struct Launcher` (`size_t actives`, `uint32_t lastshot`,
`float fireRate`). -/
structure Launcher where
  missles : List Fire
  actives : Nat := 0
  lastshot : Nat := 0
  fireRate : ℚ := 150
deriving DecidableEq

/-- Source: `FIRESPEED`. -/
def FIRESPEED : ℚ := 500

/-- Source: `MISSLE_MAX`. -/
def MISSLE_MAX : Nat := 5

/-- Source: `FIREDISTANCE = _S(2700)`. -/
def FIREDISTANCE (env : Env) : ℚ := env.S 2700

/-- Source: `Launcher::init`: `MISSLE_MAX` slots, all members but the model
zero. -/
def Launcher.init : Launcher :=
  { missles := List.replicate MISSLE_MAX ⟨⟨0, 0⟩, ⟨0, 0⟩, ⟨0, 0⟩, 0, false⟩ }

/-- The body of the loop over the slots in `Launcher::update`, for one slot:
the slot, the local `shoot` and `actives` after the iteration.  `fire.time` is
a `float`: `fire.time = elapsed` stores the converted clock value, and
`float(elapsed - fire.time)` is a `float` difference. -/
def Launcher.fireStep (env : Env) (pos direction : Point) (elapsed : Nat)
    (fire : Fire) (shoot : Bool) (actives : Nat) : Fire × Bool × Nat :=
  let fired := shoot && !fire.active
  let fire1 : Fire :=
    if fired then
      { fire with to_ := extend env direction (FIREDISTANCE env) + pos, from_ := pos,
                  time := f32 (elapsed : ℚ), active := true }
    else fire
  let shoot1 := if fired then false else shoot
  let actives1 := if fired then usize ((actives : Int) + 1) else actives
  if fire1.active then
    let progress := (sinceF elapsed fire1.time) / FIRESPEED
    if progress ≤ 1 then
      ({ fire1 with cur := ⟨lerp fire1.from_.x fire1.to_.x progress,
                            lerp fire1.from_.y fire1.to_.y progress⟩ }, shoot1, actives1)
    else
      (fire1.inactivate, shoot1, usize ((actives1 : Int) - 1))
  else (fire1, shoot1, actives1)

/-- The loop `for (auto& fire : missles)` of `Launcher::update`. -/
def Launcher.fireLoop (env : Env) (pos direction : Point) (elapsed : Nat) :
    List Fire → Bool → Nat → List Fire × Nat
  | [], _, actives => ([], actives)
  | fire :: rest, shoot, actives =>
    let r := Launcher.fireStep env pos direction elapsed fire shoot actives
    let t := Launcher.fireLoop env pos direction elapsed rest r.2.1 r.2.2
    (r.1 :: t.1, t.2)

/-- The fire-rate gate of `Launcher::update`:
`shoot && elapsed - lastshot > fireRate` (the difference is `uint32_t` and is
converted to `float` for the comparison). -/
def Launcher.gate (l : Launcher) (elapsed : Nat) (shoot : Bool) : Bool :=
  shoot && decide (l.fireRate < f32 ((u32 ((elapsed : Int) - l.lastshot) : Nat) : ℚ))

/-- Source: `Launcher::update(pos, direction, dir, elapsed, shift, shoot)`; the
angle `dir` and the clip `shift` only reach the renderer. -/
def Launcher.update (env : Env) (l : Launcher) (pos direction : Point) (elapsed : Nat)
    (shoot : Bool) : Launcher :=
  let shoot1 := l.gate elapsed shoot
  let lastshot := if shoot1 then elapsed else l.lastshot
  let r := Launcher.fireLoop env pos direction elapsed l.missles shoot1 l.actives
  { l with missles := r.1, actives := r.2, lastshot := lastshot }

/-! ## Enemies -/

/-- Source: `struct Tween` (`uint32_t at`, `float duration`). -/
structure Tween where
  at_ : Nat
  duration : ℚ
deriving DecidableEq

/-- Source: the member `pos` of `Enemy`. -/
structure EnemyPos where
  from_ : Point
  to_ : Point
  cur : Point
deriving DecidableEq

/-- Source: the member `dir` of `Enemy`. -/
structure EnemyDir where
  from_ : ℚ
  to_ : ℚ
deriving DecidableEq

/-- Source: `struct Enemy`; `id` is the address of the instance, `type` the
variant (`Boxer` 0, `Tripod` 1, `Sander` 2, `Hexen` 3). -/
structure Enemy where
  id : Nat
  type : Nat
  pos : EnemyPos
  dir : EnemyDir
  time : Tween
deriving DecidableEq

/-- Source: `Enemy::BASETIME`. -/
def BASETIME : Nat := 9200

/-- Source: `Enemy::MAX_ROTATION` (the static member, 20). -/
def ENEMY_MAX_ROTATION : Nat := 20

/-- Source: `Enemy::Enemy(int type)`; the members `pos`, `dir`, `time` are
not set by the constructor (zero here). -/
def Enemy.new (id type : Nat) : Enemy :=
  ⟨id, type, ⟨⟨0, 0⟩, ⟨0, 0⟩, ⟨0, 0⟩⟩, ⟨0, 0⟩, ⟨0, 0⟩⟩

/-- Source: `Enemy::init(elayer, shift, elapsed)`.  `DURATION` is the static
`Enemy::DURATION`.  The assignment `pos = {{..}, {..}}` names two of the three
members, so `pos.cur` is value-initialised. -/
def Enemy.init (env : Env) (DURATION : Nat) (e : Enemy) (rng : Rand) (elapsed : Nat) :
    Enemy × Rand :=
  let W : ℚ := (env.SWIDTH : ℚ)
  let H : ℚ := (env.SHEIGHT : ℚ)
  let B : ℚ := env.BOUND
  let a := rng.next
  let b := a.2.next
  let posr : EnemyPos × Rand :=
    if e.type = 0 ∨ e.type = 4 then
      (⟨⟨((a.1 % env.SWIDTH : Nat) : ℚ), -B * 2⟩, ⟨((b.1 % env.SWIDTH : Nat) : ℚ), H + B * 2⟩, ⟨0, 0⟩⟩, b.2)
    else if e.type = 1 then
      (⟨⟨W + B, ((a.1 % env.SHEIGHT : Nat) : ℚ)⟩, ⟨-B, ((b.1 % env.SHEIGHT : Nat) : ℚ)⟩, ⟨0, 0⟩⟩, b.2)
    else if e.type = 2 then
      (⟨⟨((a.1 % env.SWIDTH : Nat) : ℚ), H + B * 2⟩, ⟨((b.1 % env.SWIDTH : Nat) : ℚ), -B * 2⟩, ⟨0, 0⟩⟩, b.2)
    else if e.type = 3 then
      (⟨⟨-B, ((a.1 % env.SHEIGHT : Nat) : ℚ)⟩, ⟨W + B, ((b.1 % env.SHEIGHT : Nat) : ℚ)⟩, ⟨0, 0⟩⟩, b.2)
    else (e.pos, rng)
  let c := posr.2.next
  let d := c.2.next
  let f := d.2.next
  ({ e with pos := posr.1,
            time := ⟨elapsed, ((u32 ((BASETIME : Int) + (c.1 % DURATION : Nat)) : Nat) : ℚ)⟩,
            dir := ⟨((d.1 % 360 : Nat) : ℚ), ((f.1 % (360 * ENEMY_MAX_ROTATION) : Nat) : ℚ)⟩ },
   f.2)

/-- The loop `for (auto& fire : launcher.missles) if (fire.hit(..)) ..` of
`Enemy::update`: whether a slot was hit, and the slots afterwards. -/
def hitLoop (target : Point) (range : ℚ) : List Fire → Bool × List Fire
  | [] => (false, [])
  | fire :: rest =>
    let h := fire.hit target range
    if h.1 then (true, h.2 :: rest)
    else
      let t := hitLoop target range rest
      (t.1, h.2 :: t.2)

/-- Source: `Enemy::update(elapsed, launcher, p2o, target)`; returns the
result code (0 alive, 1 expired, 2 hit), the enemy, the launcher and the
out-parameter `target` after the call.  `float(elapsed - time.at)` converts the
`uint32_t` difference to `float`.  With `time.duration = 0` the `float`
quotient is `+inf` when the difference is positive, so the enemy has expired;
when the difference is 0 as well the quotient is NaN: no comparison with it
holds, so the enemy has not expired, no slot is hit and the result is 0, while
`pos.cur` and `target` are NaN, which the rationals do not have (they are
written as at progress 0 here).  The statements about `Enemy::update` take a
positive duration. -/
def Enemy.update (env : Env) (e : Enemy) (elapsed : Nat) (launcher : Launcher)
    (p2o target : Point) : Nat × Enemy × Launcher × Point :=
  let since : ℚ := f32 ((u32 ((elapsed : Int) - e.time.at_) : Nat) : ℚ)
  let progress := since / e.time.duration
  if (e.time.duration = 0 ∧ 0 < since) ∨ 1 < progress then (1, e, launcher, target)
  else
    let cur : Point := ⟨lerp e.pos.from_.x e.pos.to_.x progress,
                        lerp e.pos.from_.y e.pos.to_.y progress⟩
    let e1 : Enemy := { e with pos := { e.pos with cur := cur } }
    let target1 := cur + p2o
    let range := (env.BOUND + env.BOUND) ^ 2
    if e.time.duration = 0 then (0, e1, launcher, target1)
    else if 0 < launcher.actives then
      let h := hitLoop target1 range launcher.missles
      if h.1 then
        (2, e1, { launcher with missles := h.2, actives := usize ((launcher.actives : Int) - 1) },
          target1)
      else (0, e1, { launcher with missles := h.2 }, target1)
    else (0, e1, launcher, target1)

/-! ## Explosions -/

/-- Source: one entry of `Explosion::particle`. -/
structure Particle where
  to_ : Point
  dirFrom : ℚ
  dirTo : ℚ
deriving DecidableEq

/-- Source: `struct Explosion`; `id` is the address of the instance, `flashes`
holds the targets `flashes[i].to`. -/
structure Explosion where
  id : Nat
  begin : Nat
  pos : Point
  destroy : Bool
  particle : List Particle
  flashes : List Point
deriving DecidableEq

/-- Source: `PARTICLE_TIME`. -/
def PARTICLE_TIME : ℚ := 1000

/-- Source: `PARTICLE_NUM`. -/
def PARTICLE_NUM : Nat := 6

/-- Source: `PARTICLE_EXTRA`. -/
def PARTICLE_EXTRA : Nat := 80

/-- Source: `Explosion::Explosion()`. -/
def Explosion.new (id : Nat) : Explosion :=
  ⟨id, 0, ⟨0, 0⟩, false, List.replicate PARTICLE_NUM ⟨⟨0, 0⟩, 0, 0⟩,
    List.replicate PARTICLE_EXTRA ⟨0, 0⟩⟩

/-- One pass of a flash loop of `Explosion::init(pos, elapsed)`: `n` flashes
whose travel distance is `length * factor`. -/
def flashLoop (env : Env) (pos : Point) (factor : ℚ) : Nat → Rand → List Point × Rand
  | 0, rng => ([], rng)
  | n + 1, rng =>
    let a := rng.next
    let length := env.S (((a.1 % 40 + 40 : Nat) : ℚ))
    let b := a.2.next
    let dir : ℚ := ((b.1 % 360 : Nat) : ℚ)
    let dist := length * factor
    let rad := dir / 180 * env.PI
    let t := flashLoop env pos factor n b.2
    (⟨-dist * env.sin rad + pos.x, dist * env.cos rad + pos.y⟩ :: t.1, t.2)

/-- Source: `Explosion::init(pos, elapsed)`, the Ambient form. -/
def Explosion.init (env : Env) (x : Explosion) (rng : Rand) (pos : Point) (elapsed : Nat) :
    Explosion × Rand :=
  let a := flashLoop env pos 25 (PARTICLE_EXTRA / 2) rng
  let b := flashLoop env pos 30 (PARTICLE_EXTRA - PARTICLE_EXTRA / 2) a.2
  ({ x with flashes := a.1 ++ b.1, destroy := false, pos := pos, begin := elapsed }, b.2)

/-- The particle loop of `Explosion::init(pos, dir, color, elapsed)`. -/
def particleLoop (env : Env) (pos dir : Point) : Nat → Rand → List Particle × Rand
  | 0, rng => ([], rng)
  | n + 1, rng =>
    let a := rng.next
    let b := a.2.next
    let c := b.2.next
    let d := c.2.next
    let t := particleLoop env pos dir n d.2
    (⟨⟨env.S ((a.1 % 1000 : Nat) : ℚ) - env.S 500 + pos.x + dir.x,
       env.S ((b.1 % 1000 : Nat) : ℚ) - env.S 500 + pos.y + dir.y⟩,
      ((c.1 % 360 : Nat) : ℚ), ((d.1 % 10 : Nat) : ℚ)⟩ :: t.1, t.2)

/-- Source: `Explosion::init(pos, dir, color, elapsed)`, the Impact form (the
colour only reaches the renderer). -/
def Explosion.initImpact (env : Env) (x : Explosion) (rng : Rand) (pos dir : Point)
    (elapsed : Nat) : Explosion × Rand :=
  let dir1 := extend env dir (env.S 250)
  let p := particleLoop env pos dir1 PARTICLE_NUM rng
  let r := Explosion.init env { x with particle := p.1 } p.2 pos elapsed
  ({ r.1 with destroy := true }, r.2)

/-! ## Object pools -/

/-- Source: `struct GarbageCollector`.  `enemies` are the four free lists
`enemies[4]`, `explosions` the explosion free list (both back first), `fresh`
the next address `new` hands out. -/
structure GarbageCollector where
  enemies : List (List Enemy)
  explosions : List Explosion
  fresh : Nat
deriving DecidableEq

/-- Source: `GarbageCollector::GarbageCollector()`: four empty enemy free
lists and 300 explosions allocated ahead. -/
def GarbageCollector.new : GarbageCollector :=
  { enemies := [[], [], [], []],
    explosions := ((List.range 300).map Explosion.new).reverse,
    fresh := 300 }

/-- Source: `GarbageCollector::get<T>(bound, elapsed)` with `T::type = type`. -/
def GarbageCollector.getEnemy (env : Env) (DURATION : Nat) (gc : GarbageCollector)
    (type : Nat) (rng : Rand) (elapsed : Nat) : Enemy × GarbageCollector × Rand :=
  match gc.enemies.getD type [] with
  | [] =>
    let r := Enemy.init env DURATION (Enemy.new gc.fresh type) rng elapsed
    (r.1, { gc with fresh := gc.fresh + 1 }, r.2)
  | ret :: rest =>
    let r := Enemy.init env DURATION ret rng elapsed
    (r.1, { gc with enemies := gc.enemies.set type rest }, r.2)

/-- Source: `GarbageCollector::retrieve(Enemy* e)`. -/
def GarbageCollector.retrieveEnemy (gc : GarbageCollector) (e : Enemy) : GarbageCollector :=
  { gc with enemies := gc.enemies.set e.type (e :: gc.enemies.getD e.type []) }

/-- Source: `GarbageCollector::get()`. -/
def GarbageCollector.get (gc : GarbageCollector) : Explosion × GarbageCollector :=
  match gc.explosions with
  | [] => (Explosion.new gc.fresh, { gc with fresh := gc.fresh + 1 })
  | ret :: rest => (ret, { gc with explosions := rest })

/-- Source: `GarbageCollector::retrieve(Explosion* e)`. -/
def GarbageCollector.retrieve (gc : GarbageCollector) (e : Explosion) : GarbageCollector :=
  { gc with explosions := e :: gc.explosions }

/-! ## Session -/

/-- Source: `LIFE_CNT`. -/
def LIFE_CNT : Nat := 3

/-- Source: `RESPAWN_LEVEL`. -/
def RESPAWN_LEVEL : Nat := 100

/-- Source: `ENEMY_DURATION_LEVEL`. -/
def ENEMY_DURATION_LEVEL : Nat := 1000

/-- Source: the base resolution `WIDTH`. -/
def WIDTH : Nat := 3840

/-- Source: the base resolution `HEIGHT`. -/
def HEIGHT : Nat := 2160

/-- Source: `struct Player` (simulation members; `visible` is the visibility
of the player model). -/
structure Player where
  launcher : Launcher
  pos : Point
  direction : Point
  dir : ℚ
  speed : ℚ
  bound : ℚ
  shoot : Bool
  visible : Bool

/-- Source: `Player::init(canvas, pos, clipper)` on a fresh `Player`. -/
def Player.init (env : Env) (pos : Point) : Player :=
  { launcher := Launcher.init, pos := pos, direction := ⟨0, 0⟩, dir := 0, speed := 7 / 10,
    bound := env.S 40, shoot := false, visible := true }

/-- Source: the member `tick` of `ThorWar` (three `uint32_t`). -/
structure Tick where
  respawn : Nat
  last : Nat
  end_ : Nat
deriving DecidableEq

/-- Source: the member `lives` of `ThorWar` (`size_t count`, `uint32_t last`). -/
structure Lives where
  count : Nat
  last : Nat
  active : Bool
deriving DecidableEq

/-- Source: `struct ThorWar` together with the mutable globals it drives:
`LEVEL` (`size_t`), `Enemy::DURATION` (`uint32_t`) and the state of `rand()`. -/
structure ThorWar where
  LEVEL : Nat
  DURATION : Nat
  rng : Rand
  player : Player
  gc : GarbageCollector
  enemies : List Enemy
  explosions : List Explosion
  combo : ComboMgr
  tick : Tick
  lives : Lives
  origin : Point
  respawnTime : Nat
  wipesCnt : Nat
  gameplay : Bool

/-- Source: the initialiser of the global `LEVEL` (`static size_t LEVEL = 4`). -/
def LEVEL_INIT : Nat := 4

/-- The session of a fresh process, before the first `update`: the static
initialisers (`LEVEL`, `Enemy::DURATION`), the member initialisers of
`ThorWar` and `ThorWar::content(canvas, w, h)`. -/
def ThorWar.start (env : Env) (rng : Rand) (w h : Nat) : ThorWar :=
  { LEVEL := LEVEL_INIT,
    DURATION := u32 (usize (9500 - ((LEVEL_INIT * ENEMY_DURATION_LEVEL : Nat) : Int))),
    rng := rng,
    player := Player.init env ⟨(w : ℚ) * (1 / 2), (h : ℚ) * (1 / 2)⟩,
    gc := GarbageCollector.new,
    enemies := [],
    explosions := [],
    combo := {},
    tick := ⟨0, 0, 0⟩,
    lives := ⟨LIFE_CNT, 0, false⟩,
    origin := ⟨env.S ((WIDTH / 2 : Nat) : ℚ), env.S ((HEIGHT / 2 : Nat) : ℚ)⟩,
    respawnTime := usize (1000 - ((LEVEL_INIT * RESPAWN_LEVEL : Nat) : Int)),
    wipesCnt := usize ((LEVEL_INIT * 100 : Nat) : Int),
    gameplay := true }

/-- Source: `ThorWar::destroy(Enemy* e, direction, elapsed)`. -/
def ThorWar.destroyEnemy (env : Env) (s : ThorWar) (e : Enemy) (direction : Point)
    (elapsed : Nat) : ThorWar :=
  let g := s.gc.get
  let r := Explosion.initImpact env g.1 s.rng e.pos.cur direction elapsed
  { s with gc := g.2, rng := r.2, explosions := s.explosions ++ [r.1] }

/-- Source: `ThorWar::destroy(const Point& pos, elapsed)`. -/
def ThorWar.destroy (env : Env) (s : ThorWar) (pos : Point) (elapsed : Nat) : ThorWar :=
  let g := s.gc.get
  let r := Explosion.init env g.1 s.rng pos elapsed
  { s with gc := g.2, rng := r.2, explosions := s.explosions ++ [r.1] }

/-- Source: `ThorWar::gamelevel`. -/
def ThorWar.gamelevel (s : ThorWar) : ThorWar :=
  if s.LEVEL < 9 ∧ s.LEVEL < s.wipesCnt / 100 then
    { s with LEVEL := usize ((s.LEVEL : Int) + 1),
             respawnTime := usize ((s.respawnTime : Int) - RESPAWN_LEVEL),
             DURATION := u32 ((s.DURATION : Int) - ENEMY_DURATION_LEVEL) }
  else s

/-- The loop `for (auto e : enemies) { destroy(e, ..); gc.retrieve(e); }` of
`ThorWar::dead`. -/
def ThorWar.deadEnemies (env : Env) (elapsed : Nat) : List Enemy → ThorWar → ThorWar
  | [], s => s
  | e :: rest, s =>
    let s1 := s.destroyEnemy env e s.player.direction elapsed
    ThorWar.deadEnemies env elapsed rest { s1 with gc := s1.gc.retrieveEnemy e }

/-- The loop `for (auto& fire : missles) { actives = 0; fire.inactivate(); }`
of `ThorWar::dead`. -/
def deadMissles : List Fire → Nat → List Fire × Nat
  | [], actives => ([], actives)
  | fire :: rest, _ =>
    let t := deadMissles rest 0
    (fire.inactivate :: t.1, t.2)

/-- Source: `ThorWar::dead(canvas, elapsed)`. -/
def ThorWar.dead (env : Env) (s : ThorWar) (elapsed : Nat) : ThorWar :=
  let s1 := { s with gameplay := false }
  let s2 := ThorWar.deadEnemies env elapsed s1.enemies s1
  let s3 := { s2 with enemies := [] }
  let s4 :=
    if 0 < s3.lives.count ∧ 1000 < u32 ((elapsed : Int) - s3.lives.last) then
      { s3 with lives := { count := usize ((s3.lives.count : Int) - 1), last := elapsed,
                           active := true } }
    else s3
  let m := deadMissles s4.player.launcher.missles s4.player.launcher.actives
  { s4 with
    player := { s4.player with
      launcher := { s4.player.launcher with missles := m.1, actives := m.2 },
      visible := false },
    tick := { s4.tick with end_ := elapsed } }

/-- Source: `ThorWar::reset(canvas, elapsed)`. -/
def ThorWar.reset (env : Env) (s : ThorWar) (elapsed : Nat) : ThorWar :=
  if u32 ((elapsed : Int) - s.tick.end_) < (if s.lives.count = 0 then 3000 else 1000) then s
  else
    let s1 :=
      if s.lives.count = 0 then
        { s with LEVEL := 0, wipesCnt := 0, respawnTime := 1000, DURATION := 10000,
                 player := { s.player with
                   pos := ⟨(env.SWIDTH : ℚ) / 2, (env.SHEIGHT : ℚ) / 2⟩ },
                 lives := { s.lives with count := LIFE_CNT } }
      else s
    { s1 with player := { s1.player with visible := true }, gameplay := true,
              tick := { s1.tick with end_ := elapsed },
              combo := { s1.combo with type := -1 } }

/-- The enemy loop of `ThorWar::update` (`for (auto it = enemies.begin(); ..)`).
`done` are the enemies the iterator has passed and kept, `todo` the ones from
the iterator on, so the list `enemies` of the source is `done ++ todo`;
`target` is the local the enemy update writes. -/
def ThorWar.enemyLoop (env : Env) (elapsed : Nat) (p2o : Point) (range : ℚ) :
    List Enemy → List Enemy → ThorWar → Point → ThorWar
  | done, [], s, _ => { s with enemies := done }
  | done, e :: rest, s, target =>
    if intersect s.player.pos (e.pos.cur + p2o) range then
      ThorWar.dead env { s with enemies := done ++ e :: rest } elapsed
    else
      let r := e.update env elapsed s.player.launcher p2o target
      let s1 := { s with player := { s.player with launcher := r.2.2.1 } }
      if r.1 ≠ 0 then
        let s2 :=
          if r.1 = 2 then
            let c := s1.combo.trigger (r.2.1.type : Int) r.2.2.2 elapsed
            let s3 := { s1 with wipesCnt := usize ((s1.wipesCnt : Int) + c.1), combo := c.2 }
            (s3.destroyEnemy env r.2.1 s3.player.direction elapsed).gamelevel
          else s1
        ThorWar.enemyLoop env elapsed p2o range done rest
          { s2 with gc := s2.gc.retrieveEnemy r.2.1 } r.2.2.2
      else
        ThorWar.enemyLoop env elapsed p2o range (done ++ [r.2.1]) rest s1 r.2.2.2

/-- The block `//enemies` of `ThorWar::update`: with gameplay on, every active
enemy is tested against the player and then updated. -/
def ThorWar.updateEnemies (env : Env) (s : ThorWar) (elapsed : Nat) : ThorWar :=
  if s.gameplay then
    let p2o := s.origin - s.player.pos
    let range := (s.player.bound + env.BOUND) ^ 2
    ThorWar.enemyLoop env elapsed p2o range [] s.enemies s ⟨0, 0⟩
  else s

/-! ## Concrete inputs -/

/-- A concrete environment: the scale of `main` as the fraction 8/15, the
scaled resolution 2048 x 1152, and constant stand-ins for the library
functions. -/
def Env.sample : Env :=
  { SCALE := 8 / 15, SWIDTH := 2048, SHEIGHT := 1152,
    sqrt := fun _ => 1, sin := fun _ => 0, cos := fun _ => 1, PI := 22 / 7 }

/-- A concrete random stream: the generator returns 0, 1, 2, ... -/
def Rand.sample : Rand := ⟨fun n => n, 0⟩

/-- The session of a fresh process in the concrete environment. -/
def ThorWar.sampleStart : ThorWar := ThorWar.start Env.sample Rand.sample 2048 1152

/-- A session that has just lost its last life at clock 5000, at level 6 with
640 wipes. -/
def ThorWar.sampleOver : ThorWar :=
  { ThorWar.sampleStart with
    LEVEL := 6, wipesCnt := 640, gameplay := false,
    lives := ⟨0, 5000, true⟩, tick := ⟨4000, 4990, 5000⟩ }

/-- A session at level 0 holding 250 wipes. -/
def ThorWar.sample250 : ThorWar :=
  { ThorWar.sampleStart with LEVEL := 0, wipesCnt := 250 }

/-! ## Reading `Launcher::update` -/

/-- The test under which `Launcher::update` drops an active slot: the slot is
active and its `progress` is not `<= 1`. -/
def Fire.expired (elapsed : Nat) (f : Fire) : Bool :=
  f.active && !decide ((sinceF elapsed f.time) / FIRESPEED ≤ 1)

/-- What the loop of `Launcher::update` leaves in a slot that is active when
the loop reaches it. -/
def Fire.advance (elapsed : Nat) (f : Fire) : Fire :=
  if (sinceF elapsed f.time) / FIRESPEED ≤ 1 then
    { f with cur := ⟨lerp f.from_.x f.to_.x ((sinceF elapsed f.time) / FIRESPEED),
                     lerp f.from_.y f.to_.y ((sinceF elapsed f.time) / FIRESPEED)⟩ }
  else f.inactivate

/-- The number of slots one call of the loop activates: one when the request
`shoot` is still set and some slot is inactive. -/
def firedCount (shoot : Bool) (l : List Fire) : Nat :=
  if shoot && l.any (fun f => !f.active) then 1 else 0

/-- A launcher with two shots in flight, fired at 1000 ms and 1400 ms, and
three free slots. -/
def Launcher.sample : Launcher :=
  { missles := [⟨⟨0, 0⟩, ⟨0, 1000⟩, ⟨0, 0⟩, 1000, true⟩,
                ⟨⟨10, 0⟩, ⟨10, 1000⟩, ⟨10, 0⟩, 1400, true⟩,
                ⟨⟨0, 0⟩, ⟨0, 0⟩, ⟨0, 0⟩, 0, false⟩,
                ⟨⟨0, 0⟩, ⟨0, 0⟩, ⟨0, 0⟩, 0, false⟩,
                ⟨⟨0, 0⟩, ⟨0, 0⟩, ⟨0, 0⟩, 0, false⟩],
    actives := 2, lastshot := 1400 }

/-- A Boxer launched at 1000 ms that flies from (0, 0) to (0, 1000) in
10000 ms. -/
def Enemy.sample : Enemy :=
  { id := 300, type := 0, pos := ⟨⟨0, 0⟩, ⟨0, 1000⟩, ⟨0, 0⟩⟩, dir := ⟨0, 0⟩,
    time := ⟨1000, 10000⟩ }

/-- A launcher whose slot 1 holds an active shot at (0, 500). -/
def Launcher.sampleHit : Launcher :=
  { missles := [⟨⟨0, 0⟩, ⟨0, 0⟩, ⟨0, 0⟩, 0, false⟩,
                ⟨⟨0, 2000⟩, ⟨0, -700⟩, ⟨0, 500⟩, 5900, true⟩,
                ⟨⟨0, 2000⟩, ⟨0, -700⟩, ⟨0, 510⟩, 5800, true⟩],
    actives := 2, lastshot := 5900 }

/-! ## Driving the pools -/

/-- One call on the pools of `GarbageCollector`: `get()`, `retrieve(Explosion*)`,
`get<T>(bound, elapsed)` for one of the four variants, `retrieve(Enemy*)`. -/
inductive PoolOp where
  | getExplosion
  | retrieveExplosion (e : Explosion)
  | getEnemy (type : Fin 4) (elapsed : Nat)
  | retrieveEnemy (e : Enemy)

/-- An enemy instance as the pools know it: its address and its variant (the
class it was constructed as), neither of which changes while it lives. -/
structure EnemyRef where
  id : Nat
  type : Nat
deriving DecidableEq

/-- The address and variant of an enemy. -/
def Enemy.ref (e : Enemy) : EnemyRef := ⟨e.id, e.type⟩

/-- The pools together with the instances handed out and not yet returned:
`explosions` are the addresses of the explosions in use, `enemies` the address
and the variant of each enemy in use.  An instance is known by its address;
its other members change while it is in use. -/
structure PoolRun where
  gc : GarbageCollector
  rng : Rand
  explosions : List Nat
  enemies : List EnemyRef

/-- The pools as constructed, nothing in use. -/
def PoolRun.start (rng : Rand) : PoolRun := ⟨GarbageCollector.new, rng, [], []⟩

/-- One call.  A `retrieve` of an instance whose address is not in use (a
double release) has no successor state; the instance is returned in the state
it has at the call, whatever happened to its members since the `get`. -/
def PoolRun.step (env : Env) (D : Nat) (st : PoolRun) : PoolOp → Option PoolRun
  | .getExplosion =>
    some { st with gc := st.gc.get.2, explosions := st.explosions ++ [st.gc.get.1.id] }
  | .retrieveExplosion e =>
    if e.id ∈ st.explosions then
      some { st with gc := st.gc.retrieve e, explosions := st.explosions.erase e.id }
    else none
  | .getEnemy type elapsed =>
    some { st with gc := (st.gc.getEnemy env D type.val st.rng elapsed).2.1,
                   rng := (st.gc.getEnemy env D type.val st.rng elapsed).2.2,
                   enemies := st.enemies ++
                     [(st.gc.getEnemy env D type.val st.rng elapsed).1.ref] }
  | .retrieveEnemy e =>
    if e.ref ∈ st.enemies then
      some { st with gc := st.gc.retrieveEnemy e, enemies := st.enemies.erase e.ref }
    else none

/-- A sequence of calls, in order. -/
def PoolRun.run (env : Env) (D : Nat) : PoolRun → List PoolOp → Option PoolRun
  | st, [] => some st
  | st, op :: ops =>
    match st.step env D op with
    | none => none
    | some st' => PoolRun.run env D st' ops

/-- The addresses on the free lists. -/
def GarbageCollector.freeIds (gc : GarbageCollector) : List Nat :=
  gc.explosions.map (fun e => e.id) ++ gc.enemies.flatten.map (fun e => e.id)

/-- The addresses in use. -/
def PoolRun.usedIds (st : PoolRun) : List Nat :=
  st.explosions ++ st.enemies.map (fun e => e.id)

/-- Is the call a `get()` of an explosion? -/
def PoolOp.isGetExplosion : PoolOp → Bool
  | .getExplosion => true
  | _ => false

/-- Is the call a `retrieve` of an explosion? -/
def PoolOp.isRetrieveExplosion : PoolOp → Bool
  | .retrieveExplosion _ => true
  | _ => false

/-- Is the call a `get<T>` of variant `k`? -/
def PoolOp.isGetEnemy (k : Nat) : PoolOp → Bool
  | .getEnemy type _ => type.val == k
  | _ => false

/-- Is the call a `retrieve` of an enemy of variant `k`? -/
def PoolOp.isRetrieveEnemy (k : Nat) : PoolOp → Bool
  | .retrieveEnemy e => e.type == k
  | _ => false

/-- The well-formedness of the pools the calls maintain: four enemy free
lists, free list `k` holding enemies of variant `k` only, in-use enemies of
the four variants, no address twice among the free and the in-use instances,
and every address below the next fresh one. -/
structure PoolRun.Inv (st : PoolRun) : Prop where
  pools : st.gc.enemies.length = 4
  sorted : ∀ (k : Nat) (l : List Enemy), st.gc.enemies[k]? = some l → ∀ e ∈ l, e.type = k
  types : ∀ e ∈ st.enemies, e.type < 4
  nodup : (st.gc.freeIds ++ st.usedIds).Nodup
  bound : ∀ i ∈ st.gc.freeIds ++ st.usedIds, i < st.gc.fresh

/-- A concrete sequence of calls on the fresh pools: an explosion and a Tripod
are taken, the explosion is returned after `Explosion::init` and the Tripod
after one `Enemy::update` (so both with members changed since the `get`), and
a Tripod is taken again. -/
def PoolOp.sampleOps : List PoolOp :=
  [ .getExplosion,
    .getEnemy 1 100,
    .retrieveExplosion (Explosion.init Env.sample GarbageCollector.new.get.1 Rand.sample
      ⟨10, 20⟩ 120).1,
    .retrieveEnemy ((GarbageCollector.new.get.2.getEnemy Env.sample 5500 1 Rand.sample 100).1.update
      Env.sample 150 Launcher.init ⟨0, 0⟩ ⟨0, 0⟩).2.1,
    .getEnemy 1 200 ]

/-- A fresh session with one active enemy whose current position is the
player position. -/
def ThorWar.sampleCollide : ThorWar :=
  { ThorWar.sampleStart with
    enemies := [{ Enemy.sample with pos := ⟨⟨0, 0⟩, ⟨0, 1000⟩, ⟨1024, 576⟩⟩ }] }

/-! ## The frame -/

/-- Source: `WarZone::min`. -/
def ZONE_MIN : Point := ⟨-2000, -1180⟩

/-- Source: `WarZone::max`. -/
def ZONE_MAX : Point := ⟨2000, 1180⟩

/-- Source: `WarZone::bound = {(WIDTH - max.x) * 0.5f, (HEIGHT - max.y) * 0.5f}`. -/
def ZONE_BOUND : Point :=
  ⟨((WIDTH : ℚ) - ZONE_MAX.x) * (1 / 2), ((HEIGHT : ℚ) - ZONE_MAX.y) * (1 / 2)⟩

/-- The keys `ThorWar::input` reads from the keyboard state: `SDL_SCANCODE_A`,
`_RIGHT`, `_LEFT`, `_UP`. -/
structure Keys where
  a : Bool
  right : Bool
  left : Bool
  up : Bool
deriving DecidableEq

/-- Source: `Player::forward(zone, multiplier)` (the star field shift only
reaches the renderer). -/
def Player.forward (env : Env) (p : Player) (multiplier : ℚ) : Player :=
  let radian := p.dir / 180 * env.PI
  let move := extend env (normalize env ⟨env.S (env.sin radian), env.S (env.cos radian)⟩)
    (env.S (multiplier * (2 / 5)))
  let x0 := p.pos.x + move.x
  let y0 := p.pos.y - move.y
  let x1 :=
    if x0 - p.bound < env.S ZONE_BOUND.x then p.bound + env.S ZONE_BOUND.x
    else if env.S ((WIDTH : ℚ) - ZONE_BOUND.x) < x0 + p.bound then
      env.S ((WIDTH : ℚ) - ZONE_BOUND.x) - p.bound
    else x0
  let y1 :=
    if y0 - p.bound < env.S ZONE_BOUND.y then p.bound + env.S ZONE_BOUND.y
    else if env.S ((HEIGHT : ℚ) - ZONE_BOUND.y) < y0 + p.bound then
      env.S ((HEIGHT : ℚ) - ZONE_BOUND.y) - p.bound
    else y0
  { p with pos := ⟨x1, y1⟩ }

/-- Source: `Player::left(multiplier)`. -/
def Player.left (env : Env) (p : Player) (multiplier : ℚ) : Player :=
  { p with dir := p.dir - env.S p.speed * multiplier }

/-- Source: `Player::right(multiplier)`. -/
def Player.right (env : Env) (p : Player) (multiplier : ℚ) : Player :=
  { p with dir := p.dir + env.S p.speed * multiplier }

/-- Source: `Player::update(elapsed, shift)`. -/
def Player.update (env : Env) (p : Player) (elapsed : Nat) : Player :=
  let radian := p.dir / 180 * env.PI
  let direction := normalize env ⟨env.S (env.sin radian), -env.S (env.cos radian)⟩
  { p with direction := direction,
           launcher := p.launcher.update env p.pos direction elapsed p.shoot }

/-- Source: `ThorWar::input(canvas, elapsed)`; `keys` is the keyboard state,
`none` when `SDL_GetKeyboardState` returns no state. -/
def ThorWar.input (env : Env) (s : ThorWar) (elapsed : Nat) (keys : Option Keys) : ThorWar :=
  let p0 : Player := { s.player with shoot := false }
  match keys with
  | none => { s with player := p0 }
  | some k =>
    let diff : ℚ := f32 ((u32 ((elapsed : Int) - s.tick.last) : Nat) : ℚ)
    let p1 : Player := if k.a then { p0 with shoot := true } else p0
    let p2 := if k.right then p1.right env diff else p1
    let p3 := if k.left then p2.left env diff else p2
    let p4 := if k.up then p3.forward env diff else p3
    { s with player := p4 }

/-- The block `//player dead flash effect` of `ThorWar::update`. -/
def ThorWar.flash (s : ThorWar) (elapsed : Nat) : ThorWar :=
  if s.lives.active then
    if 1 < f32 ((u32 ((elapsed : Int) - s.lives.last) : Nat) : ℚ) / 50 then
      { s with lives := { s.lives with active := false } }
    else s
  else s

/-- The test of the block `//hit walls`: the slot position is outside the
playfield rectangle moved by `shift`. -/
def outsideWalls (env : Env) (shift : Point) (cur : Point) : Bool :=
  decide (cur.x < env.S ZONE_MIN.x + shift.x) || decide (env.S ZONE_MAX.x + shift.x < cur.x) ||
  decide (cur.y < env.S ZONE_MIN.y + shift.y) || decide (env.S ZONE_MAX.y + shift.y < cur.y)

/-- The loop of the block `//hit walls` of `ThorWar::update`: the slots
afterwards and the session with the explosions it started. -/
def ThorWar.wallLoop (env : Env) (elapsed : Nat) (shift p2o : Point) :
    List Fire → ThorWar → List Fire × ThorWar
  | [], s => ([], s)
  | fire :: rest, s =>
    if !fire.active then
      let t := ThorWar.wallLoop env elapsed shift p2o rest s
      (fire :: t.1, t.2)
    else if outsideWalls env shift fire.cur then
      let t := ThorWar.wallLoop env elapsed shift p2o rest
        (s.destroy env (fire.cur - p2o) elapsed)
      (fire.inactivate :: t.1, t.2)
    else
      let t := ThorWar.wallLoop env elapsed shift p2o rest s
      (fire :: t.1, t.2)

/-- The block `//hit walls` of `ThorWar::update`. -/
def ThorWar.hitWalls (env : Env) (s : ThorWar) (elapsed : Nat) (shift p2o : Point) : ThorWar :=
  let r := ThorWar.wallLoop env elapsed shift p2o s.player.launcher.missles s
  { r.2 with player := { r.2.player with
      launcher := { r.2.player.launcher with missles := r.1 } } }

/-- Source: `Explosion::update(elapsed)`: whether the explosion has finished,
and the random stream (an unfinished explosion draws three colours for each of
the `PARTICLE_EXTRA / 2` soft flashes); the other effects are drawing. -/
def Explosion.update (x : Explosion) (rng : Rand) (elapsed : Nat) : Bool × Rand :=
  let progress := f32 ((u32 ((elapsed : Int) - x.begin) : Nat) : ℚ) / PARTICLE_TIME
  if 1 < progress then (true, rng)
  else (false, { rng with idx := rng.idx + 3 * (PARTICLE_EXTRA / 2) })

/-- The block `//explosions` of `ThorWar::update`: the explosions kept, the
pools and the random stream afterwards. -/
def explosionLoop (elapsed : Nat) :
    List Explosion → GarbageCollector → Rand → List Explosion × GarbageCollector × Rand
  | [], gc, rng => ([], gc, rng)
  | e :: rest, gc, rng =>
    let u := e.update rng elapsed
    if u.1 then explosionLoop elapsed rest (gc.retrieve e) u.2
    else
      let t := explosionLoop elapsed rest gc u.2
      (e :: t.1, t.2)

/-- One line `if (rand() % 2) enemies.push_back(gc.get<T>(bound, elapsed))` of
`ThorWar::respawn`, for the variant `type`. -/
def ThorWar.spawn (env : Env) (elapsed : Nat) (type : Nat) (s : ThorWar) : ThorWar :=
  let r := s.rng.next
  if r.1 % 2 ≠ 0 then
    let g := s.gc.getEnemy env s.DURATION type r.2 elapsed
    { s with gc := g.2.1, rng := g.2.2, enemies := s.enemies ++ [g.1] }
  else { s with rng := r.2 }

/-- Source: `ThorWar::respawn(elapsed)`. -/
def ThorWar.respawn (env : Env) (s : ThorWar) (elapsed : Nat) : ThorWar :=
  if !s.gameplay || decide (u32 ((elapsed : Int) - s.tick.respawn) < s.respawnTime) then s
  else
    ThorWar.spawn env elapsed 3 (ThorWar.spawn env elapsed 2 (ThorWar.spawn env elapsed 1
      (ThorWar.spawn env elapsed 0 { s with tick := { s.tick with respawn := elapsed } })))

/-- Source: `ThorWar::update(canvas, elapsed)`, one frame; `keys` is the
keyboard state the frame reads. -/
def ThorWar.update (env : Env) (s : ThorWar) (elapsed : Nat) (keys : Option Keys) : ThorWar :=
  let shift := s.origin - (s.player.pos - s.origin)
  let s1 :=
    if s.gameplay then
      let i := s.input env elapsed keys
      { i with player := i.player.update env elapsed }
    else (s.flash elapsed).reset env elapsed
  let p2o := s1.origin - s1.player.pos
  let s2 := s1.updateEnemies env elapsed
  let s3 := s2.hitWalls env elapsed shift p2o
  let x := explosionLoop elapsed s3.explosions s3.gc s3.rng
  let s4 := { s3 with explosions := x.1, gc := x.2.1, rng := x.2.2 }
  let s5 := { s4 with combo := s4.combo.update elapsed }
  let s6 := s5.respawn env elapsed
  { s6 with tick := { s6.tick with last := elapsed } }

/-- A run of frames: the clock value and the keyboard state of each call of
`update`, in order. -/
def ThorWar.frames (env : Env) : ThorWar → List (Nat × Option Keys) → ThorWar
  | s, [] => s
  | s, f :: fs => ThorWar.frames env (s.update env f.1 f.2) fs

/-- The number of slots whose `active` flag is set. -/
def activeCount (l : List Fire) : Nat := l.countP (fun f => f.active)

/-- A session with two active enemies (a Boxer and a Hexen) and the launcher
`Launcher.sampleHit`. -/
def ThorWar.sampleBusy : ThorWar :=
  { ThorWar.sampleStart with
    enemies := [Enemy.sample, { Enemy.sample with id := 301, type := 3 }],
    player := { ThorWar.sampleStart.player with launcher := Launcher.sampleHit } }

/-! ## Reachability of the difficulty variables -/

/-- The sessions reachable from start-up where `LEVEL`, `respawnTime` and
`Enemy::DURATION` are concerned: the start-up state, a call of `gamelevel`, a
call of `reset`, and any other step, which leaves the three variables alone
(only the initialisers, `gamelevel` and `reset` write them). -/
inductive LevelReach (env : Env) : ThorWar → Prop where
  | start (rng : Rand) (w h : Nat) : LevelReach env (ThorWar.start env rng w h)
  | gamelevel {s : ThorWar} : LevelReach env s → LevelReach env s.gamelevel
  | reset {s : ThorWar} (elapsed : Nat) : LevelReach env s → LevelReach env (s.reset env elapsed)
  | other {s s' : ThorWar} : LevelReach env s → s'.LEVEL = s.LEVEL →
      s'.respawnTime = s.respawnTime → s'.DURATION = s.DURATION → LevelReach env s'

/-- A session in the top left corner of the playfield: the player stands at
(512, 288), and the one active enemy is a Boxer just taken from the pool. -/
def ThorWar.sampleCorner : ThorWar :=
  { ThorWar.sampleStart with
    player := { ThorWar.sampleStart.player with pos := ⟨512, 288⟩ },
    enemies := [(GarbageCollector.new.getEnemy Env.sample 5500 0 Rand.sample 4000).1] }

/-! ## Reading the projectile counter -/

/-- The counter `actives` covers the slots whose `active` flag is set and is
at most `m`. -/
def Launcher.Covered (m : Nat) (l : Launcher) : Prop :=
  activeCount l.missles ≤ l.actives ∧ l.actives ≤ m

/-- A concrete environment for a player that never turns (`dir = 0`): the
scale 8/15, `sin 0 = 0`, `cos 0 = 1`, and a square root that is exact at the
two arguments such a session passes, `sqrt (64/225) = 8/15` (normalising the
aim) and `sqrt 1 = 1` (extending it). -/
def Env.upright : Env :=
  { SCALE := 8 / 15, SWIDTH := 2048, SHEIGHT := 1152,
    sqrt := fun q => if q = 64 / 225 then 8 / 15 else 1,
    sin := fun _ => 0, cos := fun _ => 1, PI := 22 / 7 }

/-- A random stream of zeros: every draw `rand() % 2` of `respawn` is 0, so no
enemy is spawned. -/
def Rand.zero : Rand := ⟨fun _ => 0, 0⟩

/-- Six frames, 300 ms apart, with the fire key held and no other key. -/
def wallShots : List (Nat × Option Keys) :=
  [(200, some ⟨true, false, false, false⟩), (500, some ⟨true, false, false, false⟩),
   (800, some ⟨true, false, false, false⟩), (1100, some ⟨true, false, false, false⟩),
   (1400, some ⟨true, false, false, false⟩), (1700, some ⟨true, false, false, false⟩)]

/-- A launcher as initialised after one call of `Launcher::update` at
16777216 ms (`2^24`) with the fire request set: slot 0 has just been fired. -/
def Launcher.lateShot : Launcher :=
  Launcher.init.update Env.upright ⟨1024, 576⟩ ⟨0, -1⟩ 16777216 true

/-- The start-up session once it holds 500 wipes: the next level check raises
the level. -/
def ThorWar.sample500 : ThorWar := { ThorWar.sampleStart with wipesCnt := 500 }

/-- The session `ThorWar.sample500` after the level check, having lost its last
life at 5000 ms. -/
def ThorWar.sampleLast : ThorWar :=
  { ThorWar.sample500.gamelevel with
    gameplay := false, lives := ⟨0, 5000, true⟩, tick := ⟨4000, 4990, 5000⟩ }

/-! ## Theorems -/

/-! ### Rounding to `float` -/

/-- The halving count is the floor of the binary logarithm. -/
theorem ilog2_spec : ∀ (fuel n : Nat), 0 < n → n ≤ fuel →
    2 ^ ilog2 fuel n ≤ n ∧ n < 2 ^ (ilog2 fuel n + 1) := by
  intro fuel
  induction fuel with
  | zero => intro n h1 h2; omega
  | succ fuel ih =>
    intro n h1 h2
    unfold ilog2
    by_cases h : n < 2
    · rw [if_pos h]; simp; omega
    · rw [if_neg h]
      have := ih (n / 2) (by omega) (by omega)
      rw [pow_succ, pow_succ] at *
      omega

/-- Rounding to the nearest integer leaves an integer. -/
theorem roundEven_intCast (z : Int) : roundEven (z : ℚ) = z := by
  unfold roundEven
  simp

/-- Rounding to the nearest integer does not go below the floor. -/
theorem floor_le_roundEven (m : ℚ) : ⌊m⌋ ≤ roundEven m := by
  unfold roundEven
  simp only []
  split
  · exact le_refl _
  · split
    · omega
    · split <;> omega

/-- Zero is a `float`. -/
theorem f32_zero : f32 0 = 0 := by simp [f32]

/-- The spacing exponent at a positive natural number. -/
theorem f32exp_natCast (n : Nat) (h : 0 < n) : f32exp (n : ℚ) = (ilog2 n n : Int) - 23 := by
  have hs := (ilog2_spec n n h (le_refl _)).1
  have h1 : ilog2 1 1 = 0 := rfl
  have hp : pow2 ((ilog2 n n : Int)) ≤ (n : ℚ) := by
    unfold pow2
    rw [if_pos (by omega)]
    simp only [Int.toNat_ofNat]
    exact_mod_cast hs
  unfold f32exp
  simp only [Rat.num_natCast, Rat.den_natCast, Int.natAbs_ofNat, h1, Nat.cast_zero, sub_zero]
  rw [if_pos hp]

/-- A natural number below `2^24` is converted to `float` exactly. -/
theorem f32_natCast_of_lt (n : Nat) (h : n < 2 ^ 24) : f32 (n : ℚ) = n := by
  rcases Nat.eq_zero_or_pos n with rfl | hpos
  · simp [f32_zero]
  have hs := ilog2_spec n n hpos (le_refl _)
  have hL : ilog2 n n ≤ 23 := by
    by_contra hc
    have : 2 ^ 24 ≤ 2 ^ ilog2 n n := Nat.pow_le_pow_right (by norm_num) (by omega)
    omega
  have hne : (n : ℚ) ≠ 0 := by exact_mod_cast hpos.ne'
  have hnn : ¬ ((n : ℚ) < 0) := by
    have : (0 : ℚ) ≤ n := Nat.cast_nonneg n
    linarith
  have hp : pow2 ((ilog2 n n : Int) - 23) = 1 / ((2 ^ (23 - ilog2 n n) : Nat) : ℚ) := by
    unfold pow2
    by_cases h0 : (0 : Int) ≤ (ilog2 n n : Int) - 23
    · have h23 : ilog2 n n = 23 := by omega
      rw [if_pos h0, h23]; simp
    · rw [if_neg h0]
      have : (-((ilog2 n n : Int) - 23)).toNat = 23 - ilog2 n n := by omega
      rw [this]
  have hm : (n : ℚ) / (1 / ((2 ^ (23 - ilog2 n n) : Nat) : ℚ))
      = (((n * 2 ^ (23 - ilog2 n n) : Nat) : Int) : ℚ) := by
    push_cast
    field_simp
  unfold f32
  rw [if_neg hne, if_neg hnn, f32exp_natCast n hpos, hp, hm, roundEven_intCast]
  push_cast
  field_simp

/-- From `2^24` on, the converted value is at least `2^24`. -/
theorem le_f32_natCast (n : Nat) (h : 2 ^ 24 ≤ n) : (2 ^ 24 : ℚ) ≤ f32 (n : ℚ) := by
  have hpos : 0 < n := by omega
  have hs := ilog2_spec n n hpos (le_refl _)
  have hL : 24 ≤ ilog2 n n := by
    by_contra hc
    have : 2 ^ (ilog2 n n + 1) ≤ 2 ^ 24 := Nat.pow_le_pow_right (by norm_num) (by omega)
    omega
  have hne : (n : ℚ) ≠ 0 := by exact_mod_cast hpos.ne'
  have hnn : ¬ ((n : ℚ) < 0) := by
    have : (0 : ℚ) ≤ n := Nat.cast_nonneg n
    linarith
  obtain ⟨j, hj⟩ : ∃ j : Nat, ilog2 n n = j + 24 := ⟨ilog2 n n - 24, by omega⟩
  have hp : pow2 ((ilog2 n n : Int) - 23) = ((2 ^ (j + 1) : Nat) : ℚ) := by
    unfold pow2
    rw [if_pos (by omega)]
    have : ((ilog2 n n : Int) - 23).toNat = j + 1 := by omega
    rw [this]
  have hfl : ((2 ^ 23 : Nat) : Int) ≤ ⌊(n : ℚ) / ((2 ^ (j + 1) : Nat) : ℚ)⌋ := by
    rw [Int.le_floor]
    rw [le_div_iff₀ (by positivity)]
    have h1 := hs.1
    rw [hj] at h1
    have : 2 ^ 23 * 2 ^ (j + 1) ≤ n := by
      calc 2 ^ 23 * 2 ^ (j + 1) = 2 ^ (j + 24) := by rw [← pow_add]; congr 1; omega
        _ ≤ n := h1
    exact_mod_cast this
  have hr := floor_le_roundEven ((n : ℚ) / ((2 ^ (j + 1) : Nat) : ℚ))
  have hre : ((2 ^ 23 : Nat) : ℚ) ≤ (roundEven ((n : ℚ) / ((2 ^ (j + 1) : Nat) : ℚ)) : ℚ) := by
    exact_mod_cast le_trans hfl hr
  have h2 : (2 : ℚ) ≤ ((2 ^ (j + 1) : Nat) : ℚ) := by
    have : 2 ≤ 2 ^ (j + 1) := by
      calc 2 = 2 ^ 1 := by norm_num
        _ ≤ 2 ^ (j + 1) := Nat.pow_le_pow_right (by norm_num) (by omega)
    exact_mod_cast this
  unfold f32
  rw [if_neg hne, if_neg hnn, f32exp_natCast n hpos, hp]
  calc (2 ^ 24 : ℚ) = ((2 ^ 23 : Nat) : ℚ) * 2 := by norm_num
    _ ≤ (roundEven ((n : ℚ) / ((2 ^ (j + 1) : Nat) : ℚ)) : ℚ) * ((2 ^ (j + 1) : Nat) : ℚ) :=
      mul_le_mul hre h2 (by norm_num) (le_trans (by positivity) hre)

/-- Comparing a converted natural number with a threshold below `2^24` is
comparing the number itself. -/
theorem lt_f32_natCast_iff (F : ℚ) (hF : F < 2 ^ 24) (n : Nat) :
    F < f32 (n : ℚ) ↔ F < (n : ℚ) := by
  by_cases h : n < 2 ^ 24
  · rw [f32_natCast_of_lt n h]
  · have h1 := le_f32_natCast n (by omega)
    have h2 : (2 ^ 24 : ℚ) ≤ (n : ℚ) := by exact_mod_cast (by omega : 2 ^ 24 ≤ n)
    constructor <;> intro _ <;> linarith

/-- The time since the stored conversion of the same clock value is zero. -/
theorem sinceF_self (elapsed : Nat) : sinceF elapsed (f32 (elapsed : ℚ)) = 0 := by
  unfold sinceF
  rw [sub_self, f32_zero]

/-- Below `2^24` ms the time since an earlier clock value is the exact
difference. -/
theorem sinceF_natCast (elapsed t0 : Nat) (h0 : t0 ≤ elapsed) (hE : elapsed < 2 ^ 24) :
    sinceF elapsed (t0 : ℚ) = ((elapsed - t0 : Nat) : ℚ) := by
  unfold sinceF
  rw [f32_natCast_of_lt elapsed hE, ← Nat.cast_sub h0, f32_natCast_of_lt _ (by omega)]

/-- C1: `trigger` returns 1 and remembers the variant when it differs from the
remembered one, returns the previous counter plus one when it is the same (the
counter is an `int`: it is taken inside the range of `int` and below `INT_MAX`,
where the increment does not overflow), and from a fresh manager the kills
Boxer, Boxer, Tripod, Boxer (types 0, 0, 1, 0) return 1, 2, 1, 1 whatever the
positions and clock values. -/
theorem C1_combo_trigger (m : ComboMgr) (v : Int) (pos : Point) (elapsed : Nat)
    (hlo : -2147483648 ≤ m.counter) (hhi : m.counter < 2147483647) :
    ((m.trigger v pos elapsed).1 = (if v = m.type then m.counter + 1 else 1) ∧
      (m.trigger v pos elapsed).2.counter = (m.trigger v pos elapsed).1 ∧
      (m.trigger v pos elapsed).2.type = v) ∧
    (∀ (p1 p2 p3 p4 : Point) (t1 t2 t3 t4 : Nat),
      let fresh : ComboMgr := {}
      let r1 := fresh.trigger 0 p1 t1
      let r2 := r1.2.trigger 0 p2 t2
      let r3 := r2.2.trigger 1 p3 t3
      let r4 := r3.2.trigger 0 p4 t4
      fresh.type = -1 ∧ fresh.counter = 0 ∧ [r1.1, r2.1, r3.1, r4.1] = [1, 2, 1, 1]) := by
  have hw : i32 (m.counter + 1) = m.counter + 1 := by unfold i32; omega
  constructor
  · unfold ComboMgr.trigger
    by_cases h : m.type = v
    · simp [h, hw]
    · have h' : ¬ v = m.type := fun e => h e.symm
      simp [h, h']
  · intro p1 p2 p3 p4 t1 t2 t3 t4
    have h2 : i32 2 = 2 := by decide
    simp [ComboMgr.trigger, h2]

/-- C1 at a concrete input: a manager that remembers the Boxer with counter 1
returns 2 on another Boxer and 1 on a Tripod. -/
theorem C1_combo_trigger_witness :
    (({ type := 0, counter := 1 } : ComboMgr).trigger 0 ⟨0, 0⟩ 100).1 = 2 ∧
    (({ type := 0, counter := 1 } : ComboMgr).trigger 1 ⟨0, 0⟩ 100).1 = 1 := by
  have ha := (C1_combo_trigger { type := 0, counter := 1 } 0 ⟨0, 0⟩ 100
    (by decide) (by decide)).1.1
  have hb := (C1_combo_trigger { type := 0, counter := 1 } 1 ⟨0, 0⟩ 100
    (by decide) (by decide)).1.1
  exact ⟨by simpa using ha, by simpa using hb⟩

/-! ### Leveling -/

/-- A run of `gamelevel` that passes its test raises `LEVEL` by one and keeps
the wipe count. -/
theorem gamelevel_step (s : ThorWar) (h : s.LEVEL < 9 ∧ s.LEVEL < s.wipesCnt / 100) :
    s.gamelevel.LEVEL = s.LEVEL + 1 ∧ s.gamelevel.wipesCnt = s.wipesCnt := by
  have h9 : s.LEVEL < 9 := h.1
  have hu : usize ((s.LEVEL : Int) + 1) = s.LEVEL + 1 := by unfold usize; omega
  simp [ThorWar.gamelevel, h, hu]

/-- Running `gamelevel` `k` times raises `LEVEL` by `k` as long as the target
stays within `min (wipesCnt / 100) 9`. -/
theorem gamelevel_iterate (k : Nat) :
    ∀ s : ThorWar, s.LEVEL + k ≤ min (s.wipesCnt / 100) 9 →
      (ThorWar.gamelevel^[k] s).LEVEL = s.LEVEL + k ∧
      (ThorWar.gamelevel^[k] s).wipesCnt = s.wipesCnt := by
  induction k with
  | zero => intro s _; simp
  | succ k ih =>
    intro s hs
    have hcond : s.LEVEL < 9 ∧ s.LEVEL < s.wipesCnt / 100 := by
      have := le_min_iff.mp hs
      omega
    obtain ⟨hl, hw⟩ := gamelevel_step s hcond
    have hs' : s.gamelevel.LEVEL + k ≤ min (s.gamelevel.wipesCnt / 100) 9 := by
      rw [hl, hw]; omega
    obtain ⟨il, iw⟩ := ih s.gamelevel hs'
    rw [Function.iterate_succ_apply]
    constructor
    · rw [il, hl]; omega
    · rw [iw, hw]

/-- C2 (counterexample): at level 0 with 250 wipes the test of `gamelevel`
passes, and one run of the check leaves the level at 1, not at
`min (250 / 100) 9 = 2`. -/
theorem C2_gamelevel_once_counterexample :
    ThorWar.sample250.LEVEL < 9 ∧
    ThorWar.sample250.LEVEL < ThorWar.sample250.wipesCnt / 100 ∧
    ThorWar.sample250.gamelevel.LEVEL = 1 ∧
    min (ThorWar.sample250.wipesCnt / 100) 9 = 2 ∧
    ThorWar.sample250.gamelevel.LEVEL ≠ min (ThorWar.sample250.wipesCnt / 100) 9 := by
  decide

/-- C2 (amended): with `LEVEL < 9` and `wipesCnt / 100 > LEVEL`, one run of
`gamelevel` raises the level by exactly one, which stays at or below
`min (wipesCnt / 100) 9`; running the check `min (wipesCnt / 100) 9 - LEVEL`
times reaches `min (wipesCnt / 100) 9`. -/
theorem C2_gamelevel_amended (s : ThorWar) (h9 : s.LEVEL < 9)
    (hw : s.LEVEL < s.wipesCnt / 100) :
    s.gamelevel.LEVEL = s.LEVEL + 1 ∧
    s.gamelevel.LEVEL ≤ min (s.wipesCnt / 100) 9 ∧
    (ThorWar.gamelevel^[min (s.wipesCnt / 100) 9 - s.LEVEL] s).LEVEL
      = min (s.wipesCnt / 100) 9 := by
  obtain ⟨hl, _⟩ := gamelevel_step s ⟨h9, hw⟩
  have hmin : s.LEVEL + 1 ≤ min (s.wipesCnt / 100) 9 := le_min (by omega) (by omega)
  refine ⟨hl, by rw [hl]; exact hmin, ?_⟩
  have := (gamelevel_iterate (min (s.wipesCnt / 100) 9 - s.LEVEL) s (by omega)).1
  rw [this]; omega

/-- C2 (amended, at the input of the claim): 250 wipes at level 0 give level 1
after one check and level 2 after two. -/
theorem C2_gamelevel_amended_witness :
    ThorWar.sample250.gamelevel.LEVEL = ThorWar.sample250.LEVEL + 1 ∧
    ThorWar.sample250.gamelevel.LEVEL ≤ min (ThorWar.sample250.wipesCnt / 100) 9 ∧
    (ThorWar.gamelevel^[min (ThorWar.sample250.wipesCnt / 100) 9 - ThorWar.sample250.LEVEL]
      ThorWar.sample250).LEVEL = min (ThorWar.sample250.wipesCnt / 100) 9 :=
  C2_gamelevel_amended ThorWar.sample250 (by decide) (by decide)

/-! ### Death and reset -/

/-- The enemy loop of `dead` touches only the pools, the random stream and the
explosion list. -/
theorem deadEnemies_frame (env : Env) (elapsed : Nat) :
    ∀ (l : List Enemy) (s : ThorWar),
      (ThorWar.deadEnemies env elapsed l s).LEVEL = s.LEVEL ∧
      (ThorWar.deadEnemies env elapsed l s).DURATION = s.DURATION ∧
      (ThorWar.deadEnemies env elapsed l s).player = s.player ∧
      (ThorWar.deadEnemies env elapsed l s).enemies = s.enemies ∧
      (ThorWar.deadEnemies env elapsed l s).combo = s.combo ∧
      (ThorWar.deadEnemies env elapsed l s).tick = s.tick ∧
      (ThorWar.deadEnemies env elapsed l s).lives = s.lives ∧
      (ThorWar.deadEnemies env elapsed l s).origin = s.origin ∧
      (ThorWar.deadEnemies env elapsed l s).respawnTime = s.respawnTime ∧
      (ThorWar.deadEnemies env elapsed l s).wipesCnt = s.wipesCnt ∧
      (ThorWar.deadEnemies env elapsed l s).gameplay = s.gameplay := by
  intro l
  induction l with
  | nil => intro s; simp [ThorWar.deadEnemies]
  | cons e rest ih =>
    intro s
    simp only [ThorWar.deadEnemies]
    have := ih { s.destroyEnemy env e s.player.direction elapsed with
      gc := (s.destroyEnemy env e s.player.direction elapsed).gc.retrieveEnemy e }
    simpa [ThorWar.destroyEnemy] using this

/-- The life counter after `dead`, in terms of the state before. -/
theorem dead_lives (env : Env) (s : ThorWar) (elapsed : Nat) :
    (s.dead env elapsed).lives =
      if 0 < s.lives.count ∧ 1000 < u32 ((elapsed : Int) - s.lives.last) then
        { count := usize ((s.lives.count : Int) - 1), last := elapsed, active := true }
      else s.lives := by
  have h := (deadEnemies_frame env elapsed s.enemies { s with gameplay := false }).2.2.2.2.2.2.1
  simp only [ThorWar.dead]
  rw [h]
  split <;> rfl

/-- C3: a death event lowers `lives.count` by at most one; when the death at
`t1` took a life, `lives.last` is `t1` and a death at `t2` with
`t1 ≤ t2 ≤ t1 + 1000` leaves `lives.count` as it is, from any state whose
`lives.last` is `t1`; so two deaths within 1000 ms take at most one life. -/
theorem C3_dead_cooldown (env : Env) (s : ThorWar) (t1 t2 : Nat)
    (hc : s.lives.count < 2 ^ 64) (h12 : t1 ≤ t2) (hd : t2 - t1 ≤ 1000) :
    ((s.dead env t1).lives.count ≤ s.lives.count ∧
      s.lives.count ≤ (s.dead env t1).lives.count + 1) ∧
    ((s.dead env t1).lives.count < s.lives.count → (s.dead env t1).lives.last = t1) ∧
    (∀ s' : ThorWar, s'.lives.last = t1 → (s'.dead env t2).lives.count = s'.lives.count) ∧
    ((s.dead env t1).lives.count < s.lives.count →
      ((s.dead env t1).dead env t2).lives.count = (s.dead env t1).lives.count) ∧
    s.lives.count ≤ ((s.dead env t1).dead env t2).lives.count + 1 := by
  have hstep : ∀ (s' : ThorWar), s'.lives.last = t1 →
      (s'.dead env t2).lives.count = s'.lives.count := by
    intro s' hl
    rw [dead_lives, hl]
    have : ¬ (1000 < u32 ((t2 : Int) - t1)) := by unfold u32; omega
    simp [this]
  have hone : (s.dead env t1).lives.count ≤ s.lives.count ∧
      s.lives.count ≤ (s.dead env t1).lives.count + 1 := by
    rw [dead_lives]
    split
    · rename_i h
      have hp : 0 < s.lives.count := h.1
      have : usize ((s.lives.count : Int) - 1) = s.lives.count - 1 := by unfold usize; omega
      simp only [this]; omega
    · omega
  have hlast : (s.dead env t1).lives.count < s.lives.count → (s.dead env t1).lives.last = t1 := by
    rw [dead_lives]
    split
    · intro _; rfl
    · intro h; omega
  refine ⟨hone, hlast, hstep, fun h => hstep _ (hlast h), ?_⟩
  by_cases hdec : (s.dead env t1).lives.count < s.lives.count
  · rw [hstep _ (hlast hdec)]; exact hone.2
  · have heq : (s.dead env t1).lives.count = s.lives.count := by omega
    have h2 : (s.dead env t1).lives.count ≤ ((s.dead env t1).dead env t2).lives.count + 1 := by
      have hc' : (s.dead env t1).lives.count < 2 ^ 64 := by omega
      rw [dead_lives env (s.dead env t1) t2]
      split
      · rename_i h
        have hp : 0 < (s.dead env t1).lives.count := h.1
        have : usize (((s.dead env t1).lives.count : Int) - 1)
            = (s.dead env t1).lives.count - 1 := by unfold usize; omega
        simp only [this]; omega
      · omega
    omega

/-- C3 at a concrete input: a fresh session, deaths at 2000 ms and 2800 ms. -/
theorem C3_dead_cooldown_witness :
    (((ThorWar.sampleStart.dead Env.sample 2000).lives.count ≤ ThorWar.sampleStart.lives.count ∧
      ThorWar.sampleStart.lives.count ≤ (ThorWar.sampleStart.dead Env.sample 2000).lives.count + 1) ∧
    ((ThorWar.sampleStart.dead Env.sample 2000).lives.count < ThorWar.sampleStart.lives.count →
      (ThorWar.sampleStart.dead Env.sample 2000).lives.last = 2000) ∧
    (∀ s' : ThorWar, s'.lives.last = 2000 →
      (s'.dead Env.sample 2800).lives.count = s'.lives.count) ∧
    ((ThorWar.sampleStart.dead Env.sample 2000).lives.count < ThorWar.sampleStart.lives.count →
      ((ThorWar.sampleStart.dead Env.sample 2000).dead Env.sample 2800).lives.count
        = (ThorWar.sampleStart.dead Env.sample 2000).lives.count) ∧
    ThorWar.sampleStart.lives.count
      ≤ ((ThorWar.sampleStart.dead Env.sample 2000).dead Env.sample 2800).lives.count + 1) ∧
    (ThorWar.sampleStart.dead Env.sample 2000).lives.count = 2 ∧
    ((ThorWar.sampleStart.dead Env.sample 2000).dead Env.sample 2800).lives.count = 2 :=
  ⟨C3_dead_cooldown Env.sample ThorWar.sampleStart 2000 2800 (by decide) (by decide)
    (by decide), by decide, by decide⟩

/-- C4: with no life left and at least 3000 ms since `tick.end`, `reset` puts
`LEVEL` and `wipesCnt` to 0, `lives.count` to `LIFE_CNT = 3` and turns
gameplay on. -/
theorem C4_full_reset (env : Env) (s : ThorWar) (elapsed : Nat)
    (h0 : s.lives.count = 0) (hd : 3000 ≤ u32 ((elapsed : Int) - s.tick.end_)) :
    (s.reset env elapsed).LEVEL = 0 ∧
    (s.reset env elapsed).wipesCnt = 0 ∧
    (s.reset env elapsed).lives.count = 3 ∧
    LIFE_CNT = 3 ∧
    (s.reset env elapsed).gameplay = true := by
  have hn : ¬ (u32 ((elapsed : Int) - s.tick.end_) < 3000) := by omega
  simp [ThorWar.reset, h0, hn, LIFE_CNT]

/-- C4 at a concrete input: the last life was lost at 5000 ms, `reset` runs at
8000 ms. -/
theorem C4_full_reset_witness :
    ThorWar.sampleOver.lives.count = 0 ∧
    3000 ≤ u32 (((8000 : Nat) : Int) - ThorWar.sampleOver.tick.end_) ∧
    ((ThorWar.sampleOver.reset Env.sample 8000).LEVEL = 0 ∧
     (ThorWar.sampleOver.reset Env.sample 8000).wipesCnt = 0 ∧
     (ThorWar.sampleOver.reset Env.sample 8000).lives.count = 3 ∧
     LIFE_CNT = 3 ∧
     (ThorWar.sampleOver.reset Env.sample 8000).gameplay = true) :=
  ⟨by decide, by decide, C4_full_reset Env.sample ThorWar.sampleOver 8000 (by decide) (by decide)⟩

/-- C5 (the code at start-up): the session of a fresh process has three lives,
but `LEVEL` is 4 and the wipe count is 400 (and the respawn interval and the
enemy lifetime range are those of level 4). -/
theorem C5_start_state (env : Env) (rng : Rand) (w h : Nat) :
    (ThorWar.start env rng w h).LEVEL = 4 ∧
    (ThorWar.start env rng w h).lives.count = 3 ∧
    (ThorWar.start env rng w h).wipesCnt = 400 ∧
    (ThorWar.start env rng w h).respawnTime = 600 ∧
    (ThorWar.start env rng w h).DURATION = 5500 := by
  refine ⟨rfl, rfl, ?_, ?_, ?_⟩ <;> simp only [ThorWar.start] <;> decide

/-! ### Collision test -/

/-- The squared length of a difference, written out. -/
theorem length2_sub (a b : Point) :
    length2 (a - b) = (a.x - b.x) ^ 2 + (a.y - b.y) ^ 2 := by
  show length2 (Point.sub a b) = _
  simp only [length2, Point.sub]
  ring

/-- The test `intersect` is the strict comparison of the squared distance. -/
theorem intersect_iff (a b : Point) (d : ℚ) :
    intersect a b d = true ↔ (a.x - b.x) ^ 2 + (a.y - b.y) ^ 2 < d := by
  unfold intersect
  rw [length2_sub]
  by_cases h : (a.x - b.x) ^ 2 + (a.y - b.y) ^ 2 < d <;> simp [h]

/-- The level check keeps the gameplay flag and the player. -/
theorem gamelevel_frame (s : ThorWar) :
    s.gamelevel.gameplay = s.gameplay ∧ s.gamelevel.player = s.player := by
  unfold ThorWar.gamelevel
  split <;> simp

/-- The death handler turns gameplay off. -/
theorem dead_gameplay (env : Env) (s : ThorWar) (elapsed : Nat) :
    (s.dead env elapsed).gameplay = false := by
  have h := (deadEnemies_frame env elapsed s.enemies { s with gameplay := false }).2.2.2.2.2.2.2.2.2.2
  simp only [ThorWar.dead]
  split <;> simpa using h

/-- The enemy loop ends with gameplay off exactly when one of the enemies it
still has to visit passes the collision test against the player. -/
theorem enemyLoop_gameplay (env : Env) (elapsed : Nat) (p2o : Point) (range : ℚ) (P : Point) :
    ∀ (todo done : List Enemy) (s : ThorWar) (target : Point),
      s.gameplay = true → s.player.pos = P →
      ((ThorWar.enemyLoop env elapsed p2o range done todo s target).gameplay = false ↔
        ∃ e ∈ todo, intersect P (e.pos.cur + p2o) range = true) := by
  intro todo
  induction todo with
  | nil =>
    intro done s target hg _
    simp [ThorWar.enemyLoop, hg]
  | cons e rest ih =>
    intro done s target hg hp
    simp only [ThorWar.enemyLoop]
    by_cases hI : intersect s.player.pos (e.pos.cur + p2o) range = true
    · rw [if_pos hI]
      simp only [dead_gameplay, true_iff]
      exact ⟨e, List.mem_cons_self _ _, hp ▸ hI⟩
    · rw [if_neg hI]
      have hI' : ¬ intersect P (e.pos.cur + p2o) range = true := hp ▸ hI
      have hrest : (∃ e' ∈ e :: rest, intersect P (e'.pos.cur + p2o) range = true) ↔
          ∃ e' ∈ rest, intersect P (e'.pos.cur + p2o) range = true := by
        constructor
        · rintro ⟨e', he', hi⟩
          rcases List.mem_cons.mp he' with rfl | h
          · exact absurd hi hI'
          · exact ⟨e', h, hi⟩
        · rintro ⟨e', he', hi⟩
          exact ⟨e', List.mem_cons_of_mem _ he', hi⟩
      rw [hrest]
      generalize e.update env elapsed s.player.launcher p2o target = r
      split
      · apply ih
        · split
          · simp [(gamelevel_frame _).1, ThorWar.destroyEnemy, hg]
          · simpa using hg
        · split
          · simp [(gamelevel_frame _).2, ThorWar.destroyEnemy, hp]
          · simpa using hp
      · apply ih
        · simpa using hg
        · simpa using hp

/-- C6: `intersect a b d` holds exactly when the squared distance of `a` and
`b` is strictly below `d` (so not when it equals `d`), and the enemy block of
`update`, which tests the player position against each enemy's current
position moved by `p2o` with `d = (player.bound + Enemy::BOUND)^2`, triggers a
death (gameplay goes off) exactly when that squared distance is strictly below
`(player.bound + Enemy::BOUND)^2` for some active enemy. -/
theorem C6_collision_exact :
    (∀ (a b : Point) (d : ℚ),
      (intersect a b d = true ↔ (a.x - b.x) ^ 2 + (a.y - b.y) ^ 2 < d) ∧
      intersect a b ((a.x - b.x) ^ 2 + (a.y - b.y) ^ 2) = false) ∧
    (∀ (env : Env) (s : ThorWar) (elapsed : Nat),
      ((s.updateEnemies env elapsed).gameplay = false ↔
        s.gameplay = false ∨
        ∃ e ∈ s.enemies,
          (s.player.pos.x - (e.pos.cur + (s.origin - s.player.pos)).x) ^ 2 +
          (s.player.pos.y - (e.pos.cur + (s.origin - s.player.pos)).y) ^ 2
            < (s.player.bound + env.BOUND) ^ 2)) := by
  constructor
  · intro a b d
    refine ⟨intersect_iff a b d, ?_⟩
    have := intersect_iff a b ((a.x - b.x) ^ 2 + (a.y - b.y) ^ 2)
    simpa using this
  · intro env s elapsed
    unfold ThorWar.updateEnemies
    by_cases hg : s.gameplay = true
    · rw [if_pos hg]
      rw [enemyLoop_gameplay env elapsed _ _ s.player.pos s.enemies [] s ⟨0, 0⟩ hg rfl]
      simp only [intersect_iff, hg, Bool.true_eq_false, false_or]
    · rw [if_neg hg]
      simp at hg
      simp [hg]

/-! ### Launcher -/

/-- The local `shoot` after one iteration: still set only if it was set and
the slot was already active. -/
theorem fireStep_shoot (env : Env) (pos direction : Point) (elapsed : Nat) (f : Fire)
    (sh : Bool) (a : Nat) :
    (Launcher.fireStep env pos direction elapsed f sh a).2.1 = (sh && f.active) := by
  unfold Launcher.fireStep
  cases sh <;> cases hf : f.active <;> simp [hf] <;> split <;> simp

/-- An iteration on an active slot advances or drops it, whatever `shoot`. -/
theorem fireStep_active (env : Env) (pos direction : Point) (elapsed : Nat) (f : Fire)
    (sh : Bool) (a : Nat) (hf : f.active = true) :
    (Launcher.fireStep env pos direction elapsed f sh a).1 = f.advance elapsed := by
  unfold Launcher.fireStep Fire.advance
  simp only [hf, Bool.not_true, Bool.and_false, Bool.false_eq_true, if_false, if_true]
  split <;> rfl

/-- An iteration on an inactive slot without a pending request leaves it. -/
theorem fireStep_idle (env : Env) (pos direction : Point) (elapsed : Nat) (f : Fire)
    (a : Nat) (hf : f.active = false) :
    (Launcher.fireStep env pos direction elapsed f false a).1 = f := by
  unfold Launcher.fireStep
  simp [hf]

/-- An iteration on an inactive slot with a pending request fires it. -/
theorem fireStep_fired (env : Env) (pos direction : Point) (elapsed : Nat) (f : Fire)
    (a : Nat) (hf : f.active = false) :
    (Launcher.fireStep env pos direction elapsed f true a).1 =
      { from_ := pos, to_ := extend env direction (FIREDISTANCE env) + pos, cur := pos,
        time := f32 (elapsed : ℚ), active := true } := by
  unfold Launcher.fireStep
  simp [hf, lerp, sinceF_self]

/-- Slot `i` after the loop is the result of one iteration on slot `i` before
the loop, run with `shoot` still set exactly when it was set at entry and all
earlier slots were active. -/
theorem fireLoop_getElem (env : Env) (pos direction : Point) (elapsed : Nat) :
    ∀ (l : List Fire) (sh : Bool) (a i : Nat) (f : Fire), l[i]? = some f →
      ∃ a', (Launcher.fireLoop env pos direction elapsed l sh a).1[i]? =
        some (Launcher.fireStep env pos direction elapsed f
          (sh && (l.take i).all (fun g => g.active)) a').1 := by
  intro l
  induction l with
  | nil => intro sh a i f h; simp at h
  | cons g rest ih =>
    intro sh a i f h
    cases i with
    | zero =>
      simp only [List.getElem?_cons_zero, Option.some.injEq] at h
      subst h
      exact ⟨a, by simp [Launcher.fireLoop]⟩
    | succ i =>
      simp only [List.getElem?_cons_succ] at h
      obtain ⟨a', ha'⟩ := ih (Launcher.fireStep env pos direction elapsed g sh a).2.1
        (Launcher.fireStep env pos direction elapsed g sh a).2.2 i f h
      refine ⟨a', ?_⟩
      rw [fireStep_shoot] at ha'
      simp only [Launcher.fireLoop, List.getElem?_cons_succ, fireStep_shoot,
        List.take_succ_cons, List.all_cons, Bool.and_assoc] at ha' ⊢
      exact ha'

/-- The loop keeps the number of slots. -/
theorem fireLoop_length (env : Env) (pos direction : Point) (elapsed : Nat) :
    ∀ (l : List Fire) (sh : Bool) (a : Nat),
      (Launcher.fireLoop env pos direction elapsed l sh a).1.length = l.length := by
  intro l
  induction l with
  | nil => intro sh a; simp [Launcher.fireLoop]
  | cons g rest ih => intro sh a; simp [Launcher.fireLoop, ih]

/-- The counter after the loop: modulo `2^64`, the counter at entry plus the
slots fired minus the slots dropped. -/
theorem fireLoop_actives (env : Env) (pos direction : Point) (elapsed : Nat) :
    ∀ (l : List Fire) (sh : Bool) (a : Nat),
      (((Launcher.fireLoop env pos direction elapsed l sh a).2 : Int)
          + (l.countP (Fire.expired elapsed) : Nat)) % 2 ^ 64
        = ((a : Int) + (firedCount sh l : Nat)) % 2 ^ 64 := by
  intro l
  induction l with
  | nil => intro sh a; simp [Launcher.fireLoop, firedCount]
  | cons g rest ih =>
    intro sh a
    have hi := ih (Launcher.fireStep env pos direction elapsed g sh a).2.1
      (Launcher.fireStep env pos direction elapsed g sh a).2.2
    simp only [Launcher.fireLoop]
    cases hg : g.active
    · -- inactive slot
      have hexp : Fire.expired elapsed g = false := by simp [Fire.expired, hg]
      rw [List.countP_cons_of_neg _ _ (by simp [hexp])]
      cases sh
      · have h2 : (Launcher.fireStep env pos direction elapsed g false a).2.2 = a := by
          simp [Launcher.fireStep, hg]
        simp only [fireStep_shoot, h2, hg, Bool.and_false, firedCount, Bool.false_and] at hi ⊢
        exact hi
      · have h2 : (Launcher.fireStep env pos direction elapsed g true a).2.2
            = usize ((a : Int) + 1) := by
          simp [Launcher.fireStep, hg, sinceF_self]
        simp only [fireStep_shoot, h2, hg, Bool.and_false, firedCount, Bool.false_and,
          List.any_cons, Bool.not_false, Bool.true_or, Bool.and_self, if_true,
          Bool.false_eq_true, if_false] at hi ⊢
        have hu : ((usize ((a : Int) + 1) : Nat) : Int) = ((a : Int) + 1) % 2 ^ 64 := by
          unfold usize; omega
        omega
    · -- active slot
      have hfc : firedCount sh (g :: rest) = firedCount (sh && true) rest := by
        simp [firedCount, hg]
      rw [hfc]
      by_cases hp : (sinceF elapsed g.time) / FIRESPEED ≤ 1
      · have hexp : Fire.expired elapsed g = false := by simp [Fire.expired, hg, hp]
        rw [List.countP_cons_of_neg _ _ (by simp [hexp])]
        have h2 : (Launcher.fireStep env pos direction elapsed g sh a).2.2 = a := by
          simp [Launcher.fireStep, hg, hp]
        simp only [fireStep_shoot, h2, hg] at hi ⊢
        exact hi
      · have hexp : Fire.expired elapsed g = true := by simp [Fire.expired, hg, hp]
        rw [List.countP_cons_of_pos _ _ hexp]
        have h2 : (Launcher.fireStep env pos direction elapsed g sh a).2.2
            = usize ((a : Int) - 1) := by
          simp [Launcher.fireStep, hg, hp]
        simp only [fireStep_shoot, h2, hg] at hi ⊢
        have hu : ((usize ((a : Int) - 1) : Nat) : Int) = ((a : Int) - 1) % 2 ^ 64 := by
          unfold usize; omega
        push_cast
        omega

/-- An iteration keeps the counter below `2^64`. -/
theorem fireStep_actives_lt (env : Env) (pos direction : Point) (elapsed : Nat) (f : Fire)
    (sh : Bool) (a : Nat) (ha : a < 2 ^ 64) :
    (Launcher.fireStep env pos direction elapsed f sh a).2.2 < 2 ^ 64 := by
  have h1 : usize ((a : Int) + 1) < 2 ^ 64 := by unfold usize; omega
  have h2 : usize ((a : Int) - 1) < 2 ^ 64 := by unfold usize; omega
  have h3 : usize (((usize ((a : Int) + 1) : Nat) : Int) - 1) < 2 ^ 64 := by unfold usize; omega
  unfold Launcher.fireStep
  simp only
  split <;> split <;> (try split) <;> simp_all

/-- The loop keeps the counter below `2^64`. -/
theorem fireLoop_actives_lt (env : Env) (pos direction : Point) (elapsed : Nat) :
    ∀ (l : List Fire) (sh : Bool) (a : Nat), a < 2 ^ 64 →
      (Launcher.fireLoop env pos direction elapsed l sh a).2 < 2 ^ 64 := by
  intro l
  induction l with
  | nil => intro sh a ha; simpa [Launcher.fireLoop] using ha
  | cons g rest ih =>
    intro sh a ha
    simp only [Launcher.fireLoop]
    exact ih _ _ (fireStep_actives_lt env pos direction elapsed g sh a ha)

/-- Below `2^24` ms the progress of a shot fired at `t0` is at most 1 exactly
up to `t0 + FIRESPEED`. -/
theorem progress_le_one_iff (elapsed t0 : Nat) (h0 : t0 ≤ elapsed) (hE : elapsed < 2 ^ 24) :
    sinceF elapsed (t0 : ℚ) / FIRESPEED ≤ 1 ↔ elapsed - t0 ≤ 500 := by
  unfold FIRESPEED
  rw [sinceF_natCast elapsed t0 h0 hE, div_le_one (by norm_num)]
  exact_mod_cast Iff.rfl

/-- Slot `i` is active after the loop although it was inactive before exactly
when the request was set at entry and every earlier slot was active. -/
theorem fireLoop_activated (env : Env) (pos direction : Point) (elapsed : Nat)
    (l : List Fire) (sh : Bool) (a i : Nat) (f f' : Fire)
    (h : l[i]? = some f) (hf : f.active = false)
    (h' : (Launcher.fireLoop env pos direction elapsed l sh a).1[i]? = some f') :
    (f'.active = true ↔ (sh = true ∧ (l.take i).all (fun g => g.active) = true)) ∧
    (f'.active = true →
      f' = { from_ := pos, to_ := extend env direction (FIREDISTANCE env) + pos, cur := pos,
             time := f32 (elapsed : ℚ), active := true }) := by
  obtain ⟨a', ha'⟩ := fireLoop_getElem env pos direction elapsed l sh a i f h
  rw [h'] at ha'
  simp only [Option.some.injEq] at ha'
  cases hs : (sh && (l.take i).all (fun g => g.active))
  · rw [hs, fireStep_idle env pos direction elapsed f a' hf] at ha'
    subst ha'
    have : ¬ (sh = true ∧ (l.take i).all (fun g => g.active) = true) := by
      intro hh; simp [hh.1, hh.2] at hs
    exact ⟨⟨fun h1 => by rw [hf] at h1; exact absurd h1 (by simp), fun h1 => absurd h1 this⟩,
      fun h1 => by rw [hf] at h1; exact absurd h1 (by simp)⟩
  · rw [hs, fireStep_fired env pos direction elapsed f a' hf] at ha'
    subst ha'
    have : sh = true ∧ (l.take i).all (fun g => g.active) = true := by
      simpa using hs
    simp [this]

/-- C8 as stated fails on long sessions: a launcher as initialised that is
asked to fire at `elapsed = 16777219` ms turns slot 0 on with `time = 16777220`,
the `float` nearest to the clock value, not `time = elapsed`. -/
theorem C8_fire_time_counterexample :
    (Launcher.init.missles[0]?).map (fun f => f.active) = some false ∧
    ((Launcher.init.update Env.upright ⟨1024, 576⟩ ⟨0, -1⟩ 16777219 true).missles[0]?).map
      (fun f => (f.active, f.from_, f.time)) = some (true, ⟨1024, 576⟩, 16777220) ∧
    (16777220 : ℚ) ≠ ((16777219 : Nat) : ℚ) := by
  decide!

/-- C8, amended in the time stamp: one call of `Launcher::update` (with a fire
rate below `2^24`; it is 150 in a launcher as initialised and never changed by
`update`) turns at most one slot from inactive to active; it does so only when
the fire request is set and `elapsed - lastshot > fireRate`; the slot it turns
on is the lowest-index slot inactive at entry (and that slot is turned on
whenever the gate passes), with `from` the player position and `time` the
`float` nearest to `elapsed`, which is `elapsed` itself for `elapsed < 2^24`;
`lastshot` becomes `elapsed` when the request is set and the gate passes and
is unchanged otherwise. -/
theorem C8_fire_gate_amended (env : Env) (l : Launcher) (pos direction : Point)
    (elapsed : Nat) (shoot : Bool) (hrate : l.fireRate < 2 ^ 24) :
    (∀ (i j : Nat) (f f' g g' : Fire),
      l.missles[i]? = some f → (l.update env pos direction elapsed shoot).missles[i]? = some f' →
      f.active = false → f'.active = true →
      l.missles[j]? = some g → (l.update env pos direction elapsed shoot).missles[j]? = some g' →
      g.active = false → g'.active = true → i = j) ∧
    (∀ (i : Nat) (f f' : Fire),
      l.missles[i]? = some f → (l.update env pos direction elapsed shoot).missles[i]? = some f' →
      f.active = false → f'.active = true →
      (shoot = true ∧ l.fireRate < ((u32 ((elapsed : Int) - l.lastshot) : Nat) : ℚ)) ∧
      (∀ (k : Nat) (g : Fire), k < i → l.missles[k]? = some g → g.active = true) ∧
      f'.from_ = pos ∧
      (f'.time = f32 (elapsed : ℚ) ∧ (elapsed < 2 ^ 24 → f'.time = (elapsed : ℚ))) ∧
      (env.sqrt (length2 direction) ≠ 0 →
        f'.to_ = extend env direction (FIREDISTANCE env) + pos)) ∧
    (shoot = true → l.fireRate < ((u32 ((elapsed : Int) - l.lastshot) : Nat) : ℚ) →
      ∀ (i : Nat) (f : Fire), l.missles[i]? = some f → f.active = false →
        (∀ (k : Nat) (g : Fire), k < i → l.missles[k]? = some g → g.active = true) →
        ∃ f', (l.update env pos direction elapsed shoot).missles[i]? = some f' ∧
          f'.active = true) ∧
    (l.update env pos direction elapsed shoot).lastshot
      = (if shoot = true ∧ l.fireRate < ((u32 ((elapsed : Int) - l.lastshot) : Nat) : ℚ)
          then elapsed else l.lastshot) ∧
    (l.update env pos direction elapsed shoot).fireRate = l.fireRate ∧
    Launcher.init.fireRate = 150 := by
  have hgate : l.gate elapsed shoot = true ↔
      (shoot = true ∧ l.fireRate < ((u32 ((elapsed : Int) - l.lastshot) : Nat) : ℚ)) := by
    simp [Launcher.gate, lt_f32_natCast_iff _ hrate]
  have hall : ∀ (i : Nat), (l.missles.take i).all (fun g => g.active) = true →
      ∀ (k : Nat) (g : Fire), k < i → l.missles[k]? = some g → g.active = true := by
    intro i hi k g hk hg
    rw [List.all_eq_true] at hi
    apply hi g
    rw [List.mem_iff_getElem?]
    exact ⟨k, by rw [List.getElem?_take_of_lt hk]; exact hg⟩
  have hact : ∀ (i : Nat) (f f' : Fire),
      l.missles[i]? = some f → (l.update env pos direction elapsed shoot).missles[i]? = some f' →
      f.active = false → f'.active = true →
      l.gate elapsed shoot = true ∧ (l.missles.take i).all (fun g => g.active) = true ∧
      f' = { from_ := pos, to_ := extend env direction (FIREDISTANCE env) + pos, cur := pos,
             time := f32 (elapsed : ℚ), active := true } := by
    intro i f f' h h' hf hf'
    have := fireLoop_activated env pos direction elapsed l.missles (l.gate elapsed shoot)
      l.actives i f f' h hf h'
    exact ⟨(this.1.mp hf').1, (this.1.mp hf').2, this.2 hf'⟩
  refine ⟨?_, ?_, ?_, ?_, rfl, rfl⟩
  · intro i j f f' g g' h h' hf hf' hg hg' hga hga'
    obtain ⟨_, hi, _⟩ := hact i f f' h h' hf hf'
    obtain ⟨_, hj, _⟩ := hact j g g' hg hg' hga hga'
    rcases Nat.lt_trichotomy i j with hlt | heq | hgt
    · have := hall j hj i f hlt h
      rw [hf] at this; exact absurd this (by simp)
    · exact heq
    · have := hall i hi j g hgt hg
      rw [hga] at this; exact absurd this (by simp)
  · intro i f f' h h' hf hf'
    obtain ⟨hg, hi, he⟩ := hact i f f' h h' hf hf'
    refine ⟨hgate.mp hg, hall i hi, ?_, ⟨?_, ?_⟩, ?_⟩
    · rw [he]
    · rw [he]
    · intro hE
      rw [he]
      exact f32_natCast_of_lt elapsed hE
    · intro _
      rw [he]
  · intro hs hr i f h hf hlow
    have hlen : i < l.missles.length := by
      by_contra hc
      rw [List.getElem?_eq_none (by omega)] at h
      exact absurd h (by simp)
    have hlen' : i < (l.update env pos direction elapsed shoot).missles.length := by
      show i < (Launcher.fireLoop env pos direction elapsed l.missles (l.gate elapsed shoot)
        l.actives).1.length
      rw [fireLoop_length]; exact hlen
    refine ⟨(l.update env pos direction elapsed shoot).missles[i], List.getElem?_eq_getElem hlen', ?_⟩
    have hprev : (l.missles.take i).all (fun g => g.active) = true := by
      rw [List.all_eq_true]
      intro g hg
      obtain ⟨k, hk⟩ := List.mem_iff_getElem?.mp hg
      have hki : k < i := by
        by_contra hc
        rw [List.getElem?_eq_none (by rw [List.length_take]; omega)] at hk
        exact absurd hk (by simp)
      rw [List.getElem?_take_of_lt hki] at hk
      exact hlow k g hki hk
    exact ((fireLoop_activated env pos direction elapsed l.missles (l.gate elapsed shoot)
      l.actives i f _ h hf (List.getElem?_eq_getElem hlen')).1).mpr ⟨hgate.mpr ⟨hs, hr⟩, hprev⟩
  · show (if l.gate elapsed shoot = true then elapsed else l.lastshot) = _
    by_cases hg : l.gate elapsed shoot = true
    · rw [if_pos hg, if_pos (hgate.mp hg)]
    · rw [if_neg hg, if_neg (fun h => hg (hgate.mpr h))]

/-! ### Enemy update -/

/-- The result of `Fire::hit`: the test, and the slot dropped when it holds. -/
theorem Fire.hit_eq (f : Fire) (target : Point) (range : ℚ) :
    f.hit target range =
      ((f.active && intersect f.cur target range),
        if (f.active && intersect f.cur target range) = true then f.inactivate else f) := by
  unfold Fire.hit
  split <;> simp_all

/-- The hit loop either finds no slot passing the test and changes nothing, or
drops the lowest-index slot passing the test and nothing else. -/
theorem hitLoop_spec (target : Point) (range : ℚ) :
    ∀ l : List Fire,
      ((∀ f ∈ l, (f.active && intersect f.cur target range) = false) ∧
        hitLoop target range l = (false, l)) ∨
      (∃ (i : Nat) (f : Fire), l[i]? = some f ∧
        (f.active && intersect f.cur target range) = true ∧
        (∀ (k : Nat) (g : Fire), k < i → l[k]? = some g →
          (g.active && intersect g.cur target range) = false) ∧
        hitLoop target range l = (true, l.set i f.inactivate)) := by
  intro l
  induction l with
  | nil => left; simp [hitLoop]
  | cons g rest ih =>
    cases hg : (g.active && intersect g.cur target range)
    · rcases ih with ⟨hn, hl⟩ | ⟨i, f, hi, hf, hlow, hl⟩
      · left
        refine ⟨?_, ?_⟩
        · intro f hf
          rcases List.mem_cons.mp hf with rfl | h
          · exact hg
          · exact hn f h
        · simp [hitLoop, Fire.hit_eq, hg, hl]
      · right
        refine ⟨i + 1, f, by simpa using hi, hf, ?_, ?_⟩
        · intro k g' hk hg'
          cases k with
          | zero =>
            simp only [List.getElem?_cons_zero, Option.some.injEq] at hg'
            subst hg'; exact hg
          | succ k =>
            simp only [List.getElem?_cons_succ] at hg'
            exact hlow k g' (by omega) hg'
        · simp [hitLoop, Fire.hit_eq, hg, hl]
    · right
      refine ⟨0, g, by simp, hg, ?_, ?_⟩
      · intro k g' hk; omega
      · simp [hitLoop, Fire.hit_eq, hg]

/-- For a duration as `Enemy::init` assigns it (positive, below `2^24`) the
expiry test of `Enemy::update` on the `float` quotient is the test on the exact
quotient, and while the enemy has not expired the `float` conversion of the
elapsed time is exact. -/
theorem Enemy.expired_iff (x : Nat) (d : ℚ) (h0 : 0 < d) (h24 : d < 2 ^ 24) :
    (((d = 0 ∧ 0 < f32 (x : ℚ)) ∨ 1 < f32 (x : ℚ) / d) ↔ 1 < (x : ℚ) / d) ∧
    (¬ 1 < (x : ℚ) / d → f32 (x : ℚ) = (x : ℚ)) := by
  constructor
  · rw [one_lt_div h0, one_lt_div h0, lt_f32_natCast_iff d h24 x]
    constructor
    · rintro (⟨hd, _⟩ | h)
      · exact absurd hd h0.ne'
      · exact h
    · intro h; exact Or.inr h
  · intro hn
    rw [one_lt_div h0] at hn
    apply f32_natCast_of_lt
    have : (x : ℚ) < ((2 ^ 24 : Nat) : ℚ) := by push_cast; linarith
    exact_mod_cast this

/-- Re-initialising an enemy keeps its address and its variant. -/
theorem Enemy.init_id_type (env : Env) (D : Nat) (e : Enemy) (rng : Rand) (elapsed : Nat) :
    (Enemy.init env D e rng elapsed).1.id = e.id ∧
    (Enemy.init env D e rng elapsed).1.type = e.type := by
  unfold Enemy.init
  simp

/-- Taking the head off one of the free lists removes exactly that element
from their concatenation. -/
theorem flatten_set_perm {α : Type} :
    ∀ (l : List (List α)) (k : Nat) (x : α) (rest : List α), l[k]? = some (x :: rest) →
      l.flatten.Perm (x :: (l.set k rest).flatten) := by
  intro l
  induction l with
  | nil => intro k x rest h; simp at h
  | cons h t ih =>
    intro k x rest hk
    cases k with
    | zero =>
      simp only [List.getElem?_cons_zero, Option.some.injEq] at hk
      subst hk
      simp
    | succ k =>
      simp only [List.getElem?_cons_succ] at hk
      have := ih k x rest hk
      simp only [List.flatten_cons, List.set_cons_succ]
      exact (List.Perm.append_left h this).trans List.perm_middle

/-- Writing back what a slot holds changes nothing. -/
theorem set_getD_self {α : Type} (d : α) :
    ∀ (l : List α) (k : Nat), l.set k (l.getD k d) = l := by
  intro l
  induction l with
  | nil => intro k; simp
  | cons h t ih =>
    intro k
    cases k with
    | zero => simp
    | succ k =>
      have := ih k
      rw [List.getD_eq_getElem?_getD] at this
      simp [this]

/-- A non-empty default lookup is a real entry. -/
theorem getD_cons_getElem? {α : Type} (l : List (List α)) (k : Nat) (x : α) (rest : List α)
    (h : l.getD k [] = x :: rest) : l[k]? = some (x :: rest) := by
  rw [List.getD_eq_getElem?_getD] at h
  cases hk : l[k]? with
  | none => rw [hk] at h; simp at h
  | some v => rw [hk] at h; simpa using h

/-- The pools as constructed are well formed. -/
theorem PoolRun.start_inv (rng : Rand) : (PoolRun.start rng).Inv := by
  have hids : (PoolRun.start rng).gc.freeIds ++ (PoolRun.start rng).usedIds
      = (List.range 300).reverse := by
    simp [PoolRun.start, GarbageCollector.new, GarbageCollector.freeIds, PoolRun.usedIds,
      Explosion.new, Function.comp_def]
  refine ⟨rfl, ?_, ?_, ?_, ?_⟩
  · intro k l hk e he
    have hl : l ∈ (PoolRun.start rng).gc.enemies := List.mem_iff_getElem?.mpr ⟨k, hk⟩
    simp [PoolRun.start, GarbageCollector.new] at hl
    rw [hl] at he; simp at he
  · intro e he; simp [PoolRun.start] at he
  · rw [hids]; exact List.nodup_reverse.mpr (List.nodup_range 300)
  · intro i hi
    rw [hids] at hi
    have := List.mem_range.mp (List.mem_reverse.mp hi)
    simpa [PoolRun.start, GarbageCollector.new] using this

/-- Well-formedness carries over to a state with the same addresses. -/
theorem PoolRun.Inv.of_perm {st st' : PoolRun} (h : st.Inv)
    (hpools : st'.gc.enemies.length = 4)
    (hsorted : ∀ (k : Nat) (l : List Enemy), st'.gc.enemies[k]? = some l → ∀ e ∈ l, e.type = k)
    (htypes : ∀ e ∈ st'.enemies, e.type < 4)
    (hfresh : st'.gc.fresh = st.gc.fresh)
    (hperm : (st'.gc.freeIds ++ st'.usedIds).Perm (st.gc.freeIds ++ st.usedIds)) : st'.Inv := by
  refine ⟨hpools, hsorted, htypes, hperm.nodup_iff.mpr h.nodup, ?_⟩
  intro i hi
  rw [hfresh]
  exact h.bound i (hperm.mem_iff.mp hi)

/-- Well-formedness carries over to a state with one more, fresh address. -/
theorem PoolRun.Inv.of_perm_fresh {st st' : PoolRun} (h : st.Inv)
    (hpools : st'.gc.enemies.length = 4)
    (hsorted : ∀ (k : Nat) (l : List Enemy), st'.gc.enemies[k]? = some l → ∀ e ∈ l, e.type = k)
    (htypes : ∀ e ∈ st'.enemies, e.type < 4)
    (hfresh : st'.gc.fresh = st.gc.fresh + 1)
    (hperm : (st'.gc.freeIds ++ st'.usedIds).Perm
      (st.gc.fresh :: (st.gc.freeIds ++ st.usedIds))) : st'.Inv := by
  refine ⟨hpools, hsorted, htypes,
    hperm.nodup_iff.mpr (List.nodup_cons.mpr ⟨?_, h.nodup⟩), ?_⟩
  · intro hmem
    exact absurd (h.bound _ hmem) (lt_irrefl _)
  · intro i hi
    rw [hfresh]
    rcases List.mem_cons.mp (hperm.mem_iff.mp hi) with rfl | hm
    · omega
    · have := h.bound i hm; omega

/-- Replacing free list `k` by a list of enemies of variant `k` keeps every
free list to its variant. -/
theorem sorted_set (l : List (List Enemy)) (k : Nat) (new : List Enemy)
    (hs : ∀ (j : Nat) (m : List Enemy), l[j]? = some m → ∀ e ∈ m, e.type = j)
    (hnew : ∀ e ∈ new, e.type = k) :
    ∀ (j : Nat) (m : List Enemy), (l.set k new)[j]? = some m → ∀ e ∈ m, e.type = j := by
  intro j m hj e he
  rw [List.getElem?_set] at hj
  split at hj
  · rename_i hkj
    split at hj
    · simp only [Option.some.injEq] at hj
      subst hj; subst hkj
      exact hnew e he
    · simp at hj
  · exact hs j m hj e he

/-- Every call keeps the pools well formed. -/
theorem PoolRun.step_inv (env : Env) (D : Nat) (st st' : PoolRun) (op : PoolOp)
    (h : st.Inv) (hs : st.step env D op = some st') : st'.Inv := by
  cases op with
  | getExplosion =>
    simp only [PoolRun.step, Option.some.injEq] at hs
    subst hs
    cases hx : st.gc.explosions with
    | nil =>
      refine h.of_perm_fresh (by simp [GarbageCollector.get, hx, h.pools])
        (by simpa [GarbageCollector.get, hx] using h.sorted) h.types
        (by simp [GarbageCollector.get, hx]) ?_
      rw [List.perm_iff_count]; intro a
      simp only [GarbageCollector.freeIds, PoolRun.usedIds, GarbageCollector.get, hx,
        Explosion.new, List.map_append, List.map_cons, List.map_nil, List.count_append,
        List.count_cons, List.count_nil]
      omega
    | cons x rest =>
      refine h.of_perm (by simp [GarbageCollector.get, hx, h.pools])
        (by simpa [GarbageCollector.get, hx] using h.sorted) h.types
        (by simp [GarbageCollector.get, hx]) ?_
      rw [List.perm_iff_count]; intro a
      simp only [GarbageCollector.freeIds, PoolRun.usedIds, GarbageCollector.get, hx,
        List.map_append, List.map_cons, List.map_nil, List.count_append,
        List.count_cons, List.count_nil]
      omega
  | retrieveExplosion e =>
    simp only [PoolRun.step] at hs
    split at hs
    · rename_i he
      simp only [Option.some.injEq] at hs
      subst hs
      refine h.of_perm h.pools h.sorted h.types rfl ?_
      have hp := List.perm_cons_erase he
      rw [List.perm_iff_count]; intro a
      have hc := hp.count_eq a
      simp only [GarbageCollector.freeIds, PoolRun.usedIds, GarbageCollector.retrieve,
        List.map_append, List.map_cons, List.map_nil, List.count_append,
        List.count_cons, List.count_nil] at hc ⊢
      omega
    · simp at hs
  | getEnemy type elapsed =>
    simp only [PoolRun.step, Option.some.injEq] at hs
    subst hs
    have hk : type.val < st.gc.enemies.length := by rw [h.pools]; exact type.isLt
    cases hx : st.gc.enemies.getD type.val [] with
    | nil =>
      have hg : st.gc.getEnemy env D type.val st.rng elapsed =
          ((Enemy.init env D (Enemy.new st.gc.fresh type.val) st.rng elapsed).1,
            { st.gc with fresh := st.gc.fresh + 1 },
            (Enemy.init env D (Enemy.new st.gc.fresh type.val) st.rng elapsed).2) := by
        unfold GarbageCollector.getEnemy; rw [hx]
      refine h.of_perm_fresh (by rw [hg]; exact h.pools) (by rw [hg]; exact h.sorted) ?_
        (by rw [hg]) ?_
      · intro e he
        rcases List.mem_append.mp he with hm | hm
        · exact h.types e hm
        · simp only [List.mem_singleton] at hm
          rw [hm]
          show (st.gc.getEnemy env D type.val st.rng elapsed).1.type < 4
          rw [hg, (Enemy.init_id_type env D _ _ _).2]
          exact type.isLt
      · rw [List.perm_iff_count]; intro a
        simp only [hg, GarbageCollector.freeIds, PoolRun.usedIds, Enemy.ref,
          (Enemy.init_id_type env D _ _ _).1, Enemy.new,
          List.map_append, List.map_cons, List.map_nil, List.count_append,
          List.count_cons, List.count_nil]
        omega
    | cons ret rest =>
      have hg : st.gc.getEnemy env D type.val st.rng elapsed =
          ((Enemy.init env D ret st.rng elapsed).1,
            { st.gc with enemies := st.gc.enemies.set type.val rest },
            (Enemy.init env D ret st.rng elapsed).2) := by
        unfold GarbageCollector.getEnemy; rw [hx]
      have hget := getD_cons_getElem? st.gc.enemies type.val ret rest hx
      have hp := (flatten_set_perm st.gc.enemies type.val ret rest hget).map (fun e => e.id)
      have hret : ∀ e ∈ ret :: rest, e.type = type.val := h.sorted type.val _ hget
      refine h.of_perm (by rw [hg]; simp [h.pools]) ?_ ?_ (by rw [hg]) ?_
      · rw [hg]
        exact sorted_set _ _ _ h.sorted (fun e he => hret e (List.mem_cons_of_mem _ he))
      · intro e he
        rcases List.mem_append.mp he with hm | hm
        · exact h.types e hm
        · simp only [List.mem_singleton] at hm
          rw [hm]
          show (st.gc.getEnemy env D type.val st.rng elapsed).1.type < 4
          rw [hg, (Enemy.init_id_type env D _ _ _).2, hret ret (List.mem_cons_self _ _)]
          exact type.isLt
      · rw [List.perm_iff_count]; intro a
        have hc := hp.count_eq a
        simp only [hg, GarbageCollector.freeIds, PoolRun.usedIds, Enemy.ref,
          (Enemy.init_id_type env D _ _ _).1,
          List.map_append, List.map_cons, List.map_nil, List.count_append,
          List.count_cons, List.count_nil] at hc ⊢
        omega
  | retrieveEnemy e =>
    simp only [PoolRun.step] at hs
    split at hs
    · rename_i he
      simp only [Option.some.injEq] at hs
      subst hs
      have hk : e.type < st.gc.enemies.length := by rw [h.pools]; exact h.types _ he
      have hget : (st.gc.enemies.set e.type (e :: st.gc.enemies.getD e.type []))[e.type]?
          = some (e :: st.gc.enemies.getD e.type []) := List.getElem?_set_self hk
      have hp := (flatten_set_perm _ e.type e _ hget).map (fun e => e.id)
      rw [List.set_set, set_getD_self] at hp
      have hq := ((List.perm_cons_erase he).map (fun e => e.id))
      refine h.of_perm (by simp [GarbageCollector.retrieveEnemy, h.pools]) ?_ ?_ rfl ?_
      · refine sorted_set _ _ _ h.sorted ?_
        intro x hx
        rcases List.mem_cons.mp hx with hxe | hm
        · rw [hxe]
        · have hget0 : st.gc.enemies[e.type]? = some (st.gc.enemies.getD e.type []) := by
            rw [List.getD_eq_getElem?_getD, List.getElem?_eq_getElem hk]; simp
          exact h.sorted e.type _ hget0 x hm
      · intro x hx
        exact h.types x (List.mem_of_mem_erase hx)
      · rw [List.perm_iff_count]; intro a
        have hc := hp.count_eq a
        have hd := hq.count_eq a
        simp only [GarbageCollector.freeIds, PoolRun.usedIds, GarbageCollector.retrieveEnemy,
          Enemy.ref, List.map_append, List.map_cons, List.map_nil, List.count_append,
          List.count_cons, List.count_nil] at hc hd ⊢
        omega
    · simp at hs

/-- Every sequence of calls keeps the pools well formed. -/
theorem PoolRun.run_inv (env : Env) (D : Nat) :
    ∀ (ops : List PoolOp) (st st' : PoolRun), st.Inv →
      PoolRun.run env D st ops = some st' → st'.Inv := by
  intro ops
  induction ops with
  | nil =>
    intro st st' h hr
    simp only [PoolRun.run, Option.some.injEq] at hr
    exact hr ▸ h
  | cons op ops ih =>
    intro st st' h hr
    simp only [PoolRun.run] at hr
    cases hs : st.step env D op with
    | none => rw [hs] at hr; simp at hr
    | some st1 =>
      rw [hs] at hr
      exact ih st1 st' (PoolRun.step_inv env D st st1 op h hs) hr

/-- The instance `get<T>` returns is of the variant asked for and is not in
use. -/
theorem PoolRun.Inv.getEnemy_fresh {st : PoolRun} (h : st.Inv) (env : Env) (D : Nat)
    (type : Fin 4) (rng : Rand) (elapsed : Nat) :
    (st.gc.getEnemy env D type.val rng elapsed).1.type = type.val ∧
    (st.gc.getEnemy env D type.val rng elapsed).1.id ∉ st.usedIds := by
  have hnd := List.nodup_append.mp h.nodup
  cases hx : st.gc.enemies.getD type.val [] with
  | nil =>
    have hg : (st.gc.getEnemy env D type.val rng elapsed).1 =
        (Enemy.init env D (Enemy.new st.gc.fresh type.val) rng elapsed).1 := by
      unfold GarbageCollector.getEnemy; rw [hx]
    rw [hg, (Enemy.init_id_type env D _ _ _).1, (Enemy.init_id_type env D _ _ _).2]
    refine ⟨rfl, fun hm => ?_⟩
    exact absurd (h.bound _ (List.mem_append_right _ hm)) (lt_irrefl _)
  | cons ret rest =>
    have hg : (st.gc.getEnemy env D type.val rng elapsed).1 =
        (Enemy.init env D ret rng elapsed).1 := by
      unfold GarbageCollector.getEnemy; rw [hx]
    have hget := getD_cons_getElem? st.gc.enemies type.val ret rest hx
    rw [hg, (Enemy.init_id_type env D _ _ _).1, (Enemy.init_id_type env D _ _ _).2]
    refine ⟨h.sorted type.val _ hget ret (List.mem_cons_self _ _), fun hm => ?_⟩
    have hfree : ret.id ∈ st.gc.freeIds := by
      unfold GarbageCollector.freeIds
      apply List.mem_append_right
      apply List.mem_map_of_mem
      exact List.mem_flatten.mpr ⟨ret :: rest, List.mem_iff_getElem?.mpr ⟨type.val, hget⟩,
        List.mem_cons_self _ _⟩
    exact hnd.2.2 hfree hm

/-- The instance `get()` returns is not in use. -/
theorem PoolRun.Inv.get_fresh {st : PoolRun} (h : st.Inv) : st.gc.get.1.id ∉ st.usedIds := by
  have hnd := List.nodup_append.mp h.nodup
  cases hx : st.gc.explosions with
  | nil =>
    intro hm
    simp only [GarbageCollector.get, hx, Explosion.new] at hm
    exact absurd (h.bound _ (List.mem_append_right _ hm)) (lt_irrefl _)
  | cons x rest =>
    intro hm
    simp only [GarbageCollector.get, hx] at hm
    have hfree : x.id ∈ st.gc.freeIds := by
      unfold GarbageCollector.freeIds
      apply List.mem_append_left
      rw [hx]; simp
    exact hnd.2.2 hfree hm

/-- The effect of one call on the number of instances in use, per pool. -/
theorem PoolRun.step_counts (env : Env) (D : Nat) (st st' : PoolRun) (op : PoolOp)
    (h : st.Inv) (hs : st.step env D op = some st') :
    (st'.explosions.length + (if op.isRetrieveExplosion = true then 1 else 0)
      = st.explosions.length + (if op.isGetExplosion = true then 1 else 0)) ∧
    (∀ k : Nat,
      st'.enemies.countP (fun e => e.type == k)
          + (if op.isRetrieveEnemy k = true then 1 else 0)
        = st.enemies.countP (fun e => e.type == k)
          + (if op.isGetEnemy k = true then 1 else 0)) := by
  cases op with
  | getExplosion =>
    simp only [PoolRun.step, Option.some.injEq] at hs
    subst hs
    simp [PoolOp.isRetrieveExplosion, PoolOp.isGetExplosion, PoolOp.isRetrieveEnemy,
      PoolOp.isGetEnemy]
  | retrieveExplosion e =>
    simp only [PoolRun.step] at hs
    split at hs
    · rename_i he
      simp only [Option.some.injEq] at hs
      subst hs
      have hl := List.length_erase_of_mem he
      have hpos : 0 < st.explosions.length := List.length_pos_of_mem he
      simp only [PoolOp.isRetrieveExplosion, PoolOp.isGetExplosion, PoolOp.isRetrieveEnemy,
        PoolOp.isGetEnemy, if_true, Bool.false_eq_true, if_false, hl]
      exact ⟨by omega, fun _ => trivial⟩
    · simp at hs
  | getEnemy type elapsed =>
    simp only [PoolRun.step, Option.some.injEq] at hs
    subst hs
    have ht := (h.getEnemy_fresh env D type st.rng elapsed).1
    refine ⟨by simp [PoolOp.isRetrieveExplosion, PoolOp.isGetExplosion], fun k => ?_⟩
    simp only [PoolOp.isRetrieveEnemy, PoolOp.isGetEnemy, List.countP_append,
      List.countP_cons, List.countP_nil, Enemy.ref, ht, Bool.false_eq_true, if_false]
    omega
  | retrieveEnemy e =>
    simp only [PoolRun.step] at hs
    split at hs
    · rename_i he
      simp only [Option.some.injEq] at hs
      subst hs
      refine ⟨by simp [PoolOp.isRetrieveExplosion, PoolOp.isGetExplosion], fun k => ?_⟩
      have hc := (List.perm_cons_erase he).countP_eq (fun e => e.type == k)
      simp only [List.countP_cons, Enemy.ref] at hc
      simp only [PoolOp.isRetrieveEnemy, PoolOp.isGetEnemy, Enemy.ref, Bool.false_eq_true,
        if_false]
      omega
    · simp at hs

/-- Over a sequence of calls from a well-formed state, the instances in use
change by the gets minus the retrieves, per pool. -/
theorem PoolRun.run_counts (env : Env) (D : Nat) :
    ∀ (ops : List PoolOp) (st st' : PoolRun), st.Inv →
      PoolRun.run env D st ops = some st' →
      (st'.explosions.length + ops.countP PoolOp.isRetrieveExplosion
        = st.explosions.length + ops.countP PoolOp.isGetExplosion) ∧
      (∀ k : Nat,
        st'.enemies.countP (fun e => e.type == k) + ops.countP (PoolOp.isRetrieveEnemy k)
          = st.enemies.countP (fun e => e.type == k) + ops.countP (PoolOp.isGetEnemy k)) := by
  intro ops
  induction ops with
  | nil =>
    intro st st' _ hr
    simp only [PoolRun.run, Option.some.injEq] at hr
    subst hr
    simp
  | cons op ops ih =>
    intro st st' h hr
    simp only [PoolRun.run] at hr
    cases hs : st.step env D op with
    | none => rw [hs] at hr; simp at hr
    | some st1 =>
      rw [hs] at hr
      obtain ⟨i1, i2⟩ := ih st1 st' (PoolRun.step_inv env D st st1 op h hs) hr
      obtain ⟨s1, s2⟩ := PoolRun.step_counts env D st st1 op h hs
      refine ⟨?_, fun k => ?_⟩
      · simp only [List.countP_cons]
        omega
      · have a := i2 k
        have b := s2 k
        simp only [List.countP_cons]
        omega

/-- C9: after any sequence of `get`/`retrieve` calls on the fresh pools in
which every `retrieve` is applied to an instance in use (one whose address
is in use, in whatever state its members are), for the explosion
pool and each enemy pool: the instances in use number the gets minus the
retrieves; no two instances in use share an address and a `get` returns an
instance that is not in use; a `get` that follows a `retrieve` returns the
instance just retrieved, and in general a `get` on a non-empty free list
returns its back (the most recently retrieved instance still free) without
allocating, while a `get` on an empty free list allocates an instance at an
address no instance holds. -/
theorem C9_pool_discipline (env : Env) (D : Nat) (rng : Rand) (ops : List PoolOp)
    (st : PoolRun) (hrun : PoolRun.run env D (PoolRun.start rng) ops = some st) :
    (st.explosions.length + ops.countP PoolOp.isRetrieveExplosion
      = ops.countP PoolOp.isGetExplosion) ∧
    (∀ k : Nat,
      st.enemies.countP (fun e => e.type == k) + ops.countP (PoolOp.isRetrieveEnemy k)
        = ops.countP (PoolOp.isGetEnemy k)) ∧
    st.usedIds.Nodup ∧
    st.gc.get.1.id ∉ st.usedIds ∧
    (∀ (type : Fin 4) (r : Rand) (elapsed : Nat),
      (st.gc.getEnemy env D type.val r elapsed).1.type = type.val ∧
      (st.gc.getEnemy env D type.val r elapsed).1.id ∉ st.usedIds) ∧
    (∀ e : Explosion, e.id ∈ st.explosions → (st.gc.retrieve e).get = (e, st.gc)) ∧
    (∀ e : Enemy, e.ref ∈ st.enemies → ∀ (r : Rand) (elapsed : Nat),
      (st.gc.retrieveEnemy e).getEnemy env D e.type r elapsed
        = ((Enemy.init env D e r elapsed).1, st.gc, (Enemy.init env D e r elapsed).2)) ∧
    (∀ (x : Explosion) (rest : List Explosion), st.gc.explosions = x :: rest →
      st.gc.get = (x, { st.gc with explosions := rest })) ∧
    (∀ (type : Fin 4) (x : Enemy) (rest : List Enemy) (r : Rand) (elapsed : Nat),
      st.gc.enemies.getD type.val [] = x :: rest →
      (st.gc.getEnemy env D type.val r elapsed).1 = (Enemy.init env D x r elapsed).1 ∧
      (st.gc.getEnemy env D type.val r elapsed).1.id = x.id ∧
      (st.gc.getEnemy env D type.val r elapsed).2.1
        = { st.gc with enemies := st.gc.enemies.set type.val rest }) ∧
    (st.gc.explosions = [] →
      st.gc.get = (Explosion.new st.gc.fresh, { st.gc with fresh := st.gc.fresh + 1 }) ∧
      st.gc.fresh ∉ st.gc.freeIds ++ st.usedIds) ∧
    (∀ (type : Fin 4) (r : Rand) (elapsed : Nat), st.gc.enemies.getD type.val [] = [] →
      (st.gc.getEnemy env D type.val r elapsed).1
        = (Enemy.init env D (Enemy.new st.gc.fresh type.val) r elapsed).1 ∧
      (st.gc.getEnemy env D type.val r elapsed).1.id = st.gc.fresh ∧
      (st.gc.getEnemy env D type.val r elapsed).2.1
        = { st.gc with fresh := st.gc.fresh + 1 } ∧
      st.gc.fresh ∉ st.gc.freeIds ++ st.usedIds) := by
  have hinv : st.Inv := PoolRun.run_inv env D ops _ st (PoolRun.start_inv rng) hrun
  have hcnt := PoolRun.run_counts env D ops _ st (PoolRun.start_inv rng) hrun
  have hfresh : st.gc.fresh ∉ st.gc.freeIds ++ st.usedIds :=
    fun hm => absurd (hinv.bound _ hm) (lt_irrefl _)
  refine ⟨?_, ?_, (List.nodup_append.mp hinv.nodup).2.1, hinv.get_fresh,
    fun type r elapsed => hinv.getEnemy_fresh env D type r elapsed, ?_, ?_, ?_, ?_, ?_, ?_⟩
  · simpa [PoolRun.start] using hcnt.1
  · intro k
    simpa [PoolRun.start] using hcnt.2 k
  · intro e _
    rfl
  · intro e he r elapsed
    have hk : e.type < st.gc.enemies.length := by rw [hinv.pools]; exact hinv.types _ he
    have hget : (st.gc.enemies.set e.type (e :: st.gc.enemies.getD e.type [])).getD e.type []
        = e :: st.gc.enemies.getD e.type [] := by
      rw [List.getD_eq_getElem?_getD, List.getElem?_set_self hk]; rfl
    unfold GarbageCollector.getEnemy GarbageCollector.retrieveEnemy
    simp only [hget, List.set_set, set_getD_self]
  · intro x rest hx
    unfold GarbageCollector.get
    rw [hx]
  · intro type x rest r elapsed hx
    have hg : st.gc.getEnemy env D type.val r elapsed =
        ((Enemy.init env D x r elapsed).1,
          { st.gc with enemies := st.gc.enemies.set type.val rest },
          (Enemy.init env D x r elapsed).2) := by
      unfold GarbageCollector.getEnemy; rw [hx]
    rw [hg]
    exact ⟨rfl, (Enemy.init_id_type env D x r elapsed).1, rfl⟩
  · intro hx
    refine ⟨?_, hfresh⟩
    simp [GarbageCollector.get, hx]
  · intro type r elapsed hx
    have hg : st.gc.getEnemy env D type.val r elapsed =
        ((Enemy.init env D (Enemy.new st.gc.fresh type.val) r elapsed).1,
          { st.gc with fresh := st.gc.fresh + 1 },
          (Enemy.init env D (Enemy.new st.gc.fresh type.val) r elapsed).2) := by
      unfold GarbageCollector.getEnemy; rw [hx]
    rw [hg]
    exact ⟨rfl, (Enemy.init_id_type env D _ r elapsed).1, rfl, hfresh⟩

/-- C9 at a concrete input: the calls `PoolOp.sampleOps` on the fresh pools
are a valid sequence although both instances are returned with members changed
since the `get` (two gets and two retrieves precede the last get), after which
no explosion and one Tripod are in use. -/
theorem C9_pool_discipline_witness :
    (Explosion.init Env.sample GarbageCollector.new.get.1 Rand.sample ⟨10, 20⟩ 120).1
      ≠ GarbageCollector.new.get.1 ∧
    ((GarbageCollector.new.get.2.getEnemy Env.sample 5500 1 Rand.sample 100).1.update
        Env.sample 150 Launcher.init ⟨0, 0⟩ ⟨0, 0⟩).2.1
      ≠ (GarbageCollector.new.get.2.getEnemy Env.sample 5500 1 Rand.sample 100).1 ∧
    ∃ st : PoolRun,
      PoolRun.run Env.sample 5500 (PoolRun.start Rand.sample) PoolOp.sampleOps = some st ∧
      st.explosions.length = 0 ∧
      st.enemies.countP (fun e => e.type == 1) = 1 ∧
      st.usedIds.Nodup := by
  have hsome : (PoolRun.run Env.sample 5500 (PoolRun.start Rand.sample)
      PoolOp.sampleOps).isSome = true := by decide!
  obtain ⟨st, hst⟩ := Option.isSome_iff_exists.mp hsome
  have h := C9_pool_discipline Env.sample 5500 Rand.sample PoolOp.sampleOps st hst
  have c1 : PoolOp.sampleOps.countP PoolOp.isRetrieveExplosion = 1 := by decide!
  have c2 : PoolOp.sampleOps.countP PoolOp.isGetExplosion = 1 := by decide!
  have c3 : PoolOp.sampleOps.countP (PoolOp.isRetrieveEnemy 1) = 1 := by decide!
  have c4 : PoolOp.sampleOps.countP (PoolOp.isGetEnemy 1) = 2 := by decide!
  refine ⟨by decide!, by decide!, st, hst, ?_, ?_, h.2.2.1⟩
  · have h1 := h.1
    rw [c1, c2] at h1
    omega
  · have h2 := h.2.1 1
    rw [c3, c4] at h2
    omega

/-! ### Concrete checks of the collision test and the fire gate -/

/-- The coordinates of a sum and of a difference of points. -/
theorem point_coords (a b : Point) :
    (a + b).x = a.x + b.x ∧ (a + b).y = a.y + b.y ∧
    (a - b).x = a.x - b.x ∧ (a - b).y = a.y - b.y :=
  ⟨rfl, rfl, rfl, rfl⟩

/-- C6 at a concrete input: an enemy on the player position triggers the
death, and a threshold equal to the squared distance does not pass the
test. -/
theorem C6_collision_exact_witness :
    (ThorWar.sampleCollide.updateEnemies Env.sample 3000).gameplay = false ∧
    intersect ⟨0, 0⟩ ⟨3, 4⟩ 25 = false := by
  refine ⟨(C6_collision_exact.2 Env.sample ThorWar.sampleCollide 3000).mpr (Or.inr ?_), ?_⟩
  · refine ⟨{ Enemy.sample with pos := ⟨⟨0, 0⟩, ⟨0, 1000⟩, ⟨1024, 576⟩⟩ }, ?_, ?_⟩
    · simp [ThorWar.sampleCollide]
    · have hp : ThorWar.sampleCollide.player.pos = ⟨1024, 576⟩ := by
        simp only [ThorWar.sampleCollide, ThorWar.sampleStart, ThorWar.start, Player.init]
        norm_num
      have ho : ThorWar.sampleCollide.origin = ⟨1024, 576⟩ := by
        simp only [ThorWar.sampleCollide, ThorWar.sampleStart, ThorWar.start, Env.S,
          Env.sample, WIDTH, HEIGHT]
        norm_num
      have hb : ThorWar.sampleCollide.player.bound = 64 / 3 := by
        simp only [ThorWar.sampleCollide, ThorWar.sampleStart, ThorWar.start, Player.init,
          Env.S, Env.sample]
        norm_num
      rw [hp, ho, hb]
      simp only [(point_coords _ _).1, (point_coords _ _).2.1, (point_coords _ _).2.2.1,
        (point_coords _ _).2.2.2]
      norm_num [Env.sample, Env.BOUND, Env.S]
  · have h := (C6_collision_exact.1 ⟨0, 0⟩ ⟨3, 4⟩ 25).2
    norm_num at h
    exact h

/-- C8 (amended) at a concrete input: `Launcher.sample` at 1600 ms with the
fire request set (last shot at 1400 ms); slot 2, the first inactive slot, is
fired. -/
theorem C8_fire_gate_amended_witness :
    ∃ f', (Launcher.sample.update Env.sample ⟨5, 5⟩ ⟨0, 1⟩ 1600 true).missles[2]? = some f' ∧
      f'.active = true ∧ f'.from_ = ⟨5, 5⟩ ∧ f'.time = 1600 ∧
      (Launcher.sample.update Env.sample ⟨5, 5⟩ ⟨0, 1⟩ 1600 true).lastshot = 1600 := by
  have hrate : Launcher.sample.fireRate < 2 ^ 24 := by norm_num [Launcher.sample]
  have h := C8_fire_gate_amended Env.sample Launcher.sample ⟨5, 5⟩ ⟨0, 1⟩ 1600 true hrate
  have hgate : Launcher.sample.fireRate
      < ((u32 (((1600 : Nat) : Int) - Launcher.sample.lastshot) : Nat) : ℚ) := by
    have hu : u32 (((1600 : Nat) : Int) - Launcher.sample.lastshot) = 200 := by decide
    rw [hu]
    norm_num [Launcher.sample]
  have hlow : ∀ (k : Nat) (g : Fire), k < 2 → Launcher.sample.missles[k]? = some g →
      g.active = true := by
    intro k g hk hg
    have hk' : k = 0 ∨ k = 1 := by omega
    rcases hk' with rfl | rfl
    · simp only [Launcher.sample, List.getElem?_cons_zero, Option.some.injEq] at hg
      rw [← hg]
    · simp only [Launcher.sample, List.getElem?_cons_succ, List.getElem?_cons_zero,
        Option.some.injEq] at hg
      rw [← hg]
  obtain ⟨f', hf', hact⟩ := h.2.2.1 rfl hgate 2 ⟨⟨0, 0⟩, ⟨0, 0⟩, ⟨0, 0⟩, 0, false⟩ rfl rfl hlow
  obtain ⟨_, _, hfrom, htime, _⟩ :=
    h.2.1 2 ⟨⟨0, 0⟩, ⟨0, 0⟩, ⟨0, 0⟩, 0, false⟩ f' rfl hf' rfl hact
  refine ⟨f', hf', hact, hfrom, by rw [htime.2 (by norm_num)]; norm_num, ?_⟩
  rw [h.2.2.2.1, if_pos ⟨rfl, hgate⟩]

/-! ### The death handler -/

/-- The fields the Ambient initialiser sets. -/
theorem Explosion.init_fields (env : Env) (x : Explosion) (rng : Rand) (pos : Point)
    (elapsed : Nat) :
    (Explosion.init env x rng pos elapsed).1.destroy = false ∧
    (Explosion.init env x rng pos elapsed).1.begin = elapsed ∧
    (Explosion.init env x rng pos elapsed).1.pos = pos ∧
    (Explosion.init env x rng pos elapsed).1.id = x.id := by
  simp [Explosion.init]

/-- The fields the Impact initialiser sets. -/
theorem Explosion.initImpact_fields (env : Env) (x : Explosion) (rng : Rand) (pos dir : Point)
    (elapsed : Nat) :
    (Explosion.initImpact env x rng pos dir elapsed).1.destroy = true ∧
    (Explosion.initImpact env x rng pos dir elapsed).1.begin = elapsed ∧
    (Explosion.initImpact env x rng pos dir elapsed).1.pos = pos ∧
    (Explosion.initImpact env x rng pos dir elapsed).1.id = x.id := by
  simp [Explosion.initImpact, Explosion.init]

/-- Taking an explosion from the pool leaves the enemy free lists alone. -/
theorem GarbageCollector.get_enemies (gc : GarbageCollector) :
    gc.get.2.enemies = gc.enemies := by
  unfold GarbageCollector.get
  split <;> rfl

/-- The enemy loop of `dead` appends one Impact explosion per enemy, in order,
at the enemy's current position. -/
theorem deadEnemies_explosions (env : Env) (elapsed : Nat) :
    ∀ (l : List Enemy) (s : ThorWar),
      ∃ new : List Explosion,
        (ThorWar.deadEnemies env elapsed l s).explosions = s.explosions ++ new ∧
        new.length = l.length ∧
        (∀ x ∈ new, x.destroy = true ∧ x.begin = elapsed) ∧
        new.map (fun x => x.pos) = l.map (fun e => e.pos.cur) := by
  intro l
  induction l with
  | nil => intro s; exact ⟨[], by simp [ThorWar.deadEnemies]⟩
  | cons e rest ih =>
    intro s
    simp only [ThorWar.deadEnemies]
    obtain ⟨new, h1, h2, h3, h4⟩ := ih
      { s.destroyEnemy env e s.player.direction elapsed with
        gc := (s.destroyEnemy env e s.player.direction elapsed).gc.retrieveEnemy e }
    have hf := Explosion.initImpact_fields env s.gc.get.1 s.rng e.pos.cur s.player.direction
      elapsed
    refine ⟨(Explosion.initImpact env s.gc.get.1 s.rng e.pos.cur s.player.direction
      elapsed).1 :: new, ?_, by simp [h2], ?_, ?_⟩
    · rw [h1]; simp [ThorWar.destroyEnemy]
    · intro x hx
      rcases List.mem_cons.mp hx with rfl | hm
      · exact ⟨hf.1, hf.2.1⟩
      · exact h3 x hm
    · simp [h4, hf.2.2.1]

/-- Reading free list `k` after free list `j` has been replaced. -/
theorem getD_set_lists (l : List (List Enemy)) (j k : Nat) (new : List Enemy)
    (hj : j < l.length) :
    (l.set j new).getD k [] = if j = k then new else l.getD k [] := by
  rw [List.getD_eq_getElem?_getD, List.getElem?_set, List.getD_eq_getElem?_getD]
  split
  · simp [hj]
  · rfl

/-- The enemy loop of `dead` pushes every enemy onto the free list of its
variant, in order, and onto no other. -/
theorem deadEnemies_pool (env : Env) (elapsed : Nat) :
    ∀ (l : List Enemy) (s : ThorWar), (∀ e ∈ l, e.type < s.gc.enemies.length) →
      (ThorWar.deadEnemies env elapsed l s).gc.enemies.length = s.gc.enemies.length ∧
      ∀ k : Nat, (ThorWar.deadEnemies env elapsed l s).gc.enemies.getD k []
        = (l.filter (fun e => e.type == k)).reverse ++ s.gc.enemies.getD k [] := by
  intro l
  induction l with
  | nil => intro s _; simp [ThorWar.deadEnemies]
  | cons e rest ih =>
    intro s ht
    simp only [ThorWar.deadEnemies]
    have he : e.type < s.gc.enemies.length := ht e (List.mem_cons_self _ _)
    have hlen : ({ s.destroyEnemy env e s.player.direction elapsed with
        gc := (s.destroyEnemy env e s.player.direction elapsed).gc.retrieveEnemy e }
        : ThorWar).gc.enemies.length = s.gc.enemies.length := by
      simp [ThorWar.destroyEnemy, GarbageCollector.retrieveEnemy,
        GarbageCollector.get_enemies]
    obtain ⟨h1, h2⟩ := ih
      { s.destroyEnemy env e s.player.direction elapsed with
        gc := (s.destroyEnemy env e s.player.direction elapsed).gc.retrieveEnemy e }
      (by intro x hx; rw [hlen]; exact ht x (List.mem_cons_of_mem _ hx))
    refine ⟨by rw [h1, hlen], fun k => ?_⟩
    rw [h2 k]
    simp only [ThorWar.destroyEnemy, GarbageCollector.retrieveEnemy,
      GarbageCollector.get_enemies]
    rw [getD_set_lists _ _ _ _ he]
    by_cases hk : e.type = k
    · simp [hk]
    · simp [hk]

/-- The projectile loop of `dead` drops every slot and clears the counter
when there is a slot at all. -/
theorem deadMissles_spec :
    ∀ (l : List Fire) (a : Nat),
      (deadMissles l a).1 = l.map Fire.inactivate ∧
      (l ≠ [] → (deadMissles l a).2 = 0) ∧ (l = [] → (deadMissles l a).2 = a) := by
  intro l
  induction l with
  | nil => intro a; simp [deadMissles]
  | cons f rest ih =>
    intro a
    obtain ⟨h1, h2, h3⟩ := ih 0
    refine ⟨by simp [deadMissles, h1], fun _ => ?_, fun h => by simp at h⟩
    simp only [deadMissles]
    by_cases hr : rest = []
    · exact h3 hr
    · exact h2 hr

/-- The player and the clock of the death effect after `dead`. -/
theorem dead_player_tick (env : Env) (s : ThorWar) (elapsed : Nat) :
    (s.dead env elapsed).player.launcher.missles
      = (deadMissles s.player.launcher.missles s.player.launcher.actives).1 ∧
    (s.dead env elapsed).player.launcher.actives
      = (deadMissles s.player.launcher.missles s.player.launcher.actives).2 ∧
    (s.dead env elapsed).tick.end_ = elapsed ∧
    (s.dead env elapsed).enemies = [] ∧
    (s.dead env elapsed).player.visible = false := by
  have h := (deadEnemies_frame env elapsed s.enemies { s with gameplay := false }).2.2.1
  simp only [ThorWar.dead]
  split <;> simp [h]

/-- The pools and the explosion list after `dead` are those the enemy loop
leaves. -/
theorem dead_gc_explosions (env : Env) (s : ThorWar) (elapsed : Nat) :
    (s.dead env elapsed).gc
      = (ThorWar.deadEnemies env elapsed s.enemies { s with gameplay := false }).gc ∧
    (s.dead env elapsed).explosions
      = (ThorWar.deadEnemies env elapsed s.enemies { s with gameplay := false }).explosions := by
  simp only [ThorWar.dead]
  split <;> simp

/-- C11: after `dead(elapsed)` on a session with `n` active enemies (of the
four variants, with the four free lists and the projectile slots in place):
the active enemy list is empty; free list `k` has gained exactly the active
enemies of variant `k`, each once; `n` Impact explosions (`destroy = true`,
`begin = elapsed`), one per enemy at its current position, have been appended
to the active explosions; every slot is inactive and `actives = 0`; gameplay
is off and `tick.end = elapsed`. -/
theorem C11_dead_effect (env : Env) (s : ThorWar) (elapsed : Nat)
    (hm : s.player.launcher.missles ≠ []) (hp : s.gc.enemies.length = 4)
    (ht : ∀ e ∈ s.enemies, e.type < 4) :
    (s.dead env elapsed).enemies = [] ∧
    ((s.dead env elapsed).gc.enemies.length = 4 ∧
      ∀ k : Nat, (s.dead env elapsed).gc.enemies.getD k []
        = (s.enemies.filter (fun e => e.type == k)).reverse ++ s.gc.enemies.getD k []) ∧
    (∃ new : List Explosion,
      (s.dead env elapsed).explosions = s.explosions ++ new ∧
      new.length = s.enemies.length ∧
      (∀ x ∈ new, x.destroy = true ∧ x.begin = elapsed) ∧
      new.map (fun x => x.pos) = s.enemies.map (fun e => e.pos.cur)) ∧
    ((s.dead env elapsed).player.launcher.missles.length = s.player.launcher.missles.length ∧
      ∀ f ∈ (s.dead env elapsed).player.launcher.missles, f.active = false) ∧
    (s.dead env elapsed).player.launcher.actives = 0 ∧
    (s.dead env elapsed).gameplay = false ∧
    (s.dead env elapsed).tick.end_ = elapsed := by
  obtain ⟨hmis, hact, htick, hen, _⟩ := dead_player_tick env s elapsed
  obtain ⟨hgc, hex⟩ := dead_gc_explosions env s elapsed
  obtain ⟨d1, d2, _⟩ := deadMissles_spec s.player.launcher.missles s.player.launcher.actives
  have hpool := deadEnemies_pool env elapsed s.enemies { s with gameplay := false }
    (by intro e he; show e.type < s.gc.enemies.length; rw [hp]; exact ht e he)
  refine ⟨hen, ⟨?_, ?_⟩, ?_, ⟨?_, ?_⟩, ?_, dead_gameplay env s elapsed, htick⟩
  · rw [hgc, hpool.1]; exact hp
  · intro k; rw [hgc, hpool.2 k]
  · rw [hex]; exact deadEnemies_explosions env elapsed s.enemies { s with gameplay := false }
  · rw [hmis, d1]; simp
  · intro f hf
    rw [hmis, d1] at hf
    obtain ⟨g, _, rfl⟩ := List.mem_map.mp hf
    rfl
  · rw [hact]; exact d2 hm

/-- C11 at a concrete input: the session `ThorWar.sampleBusy` (a Boxer and a
Hexen active, two shots in flight) dies at 7000 ms. -/
theorem C11_dead_effect_witness :
    ThorWar.sampleBusy.player.launcher.missles ≠ [] ∧
    ThorWar.sampleBusy.gc.enemies.length = 4 ∧
    (∀ e ∈ ThorWar.sampleBusy.enemies, e.type < 4) ∧
    (ThorWar.sampleBusy.dead Env.sample 7000).enemies = [] ∧
    (ThorWar.sampleBusy.dead Env.sample 7000).gc.enemies.getD 3 []
      = [{ Enemy.sample with id := 301, type := 3 }] ∧
    (ThorWar.sampleBusy.dead Env.sample 7000).player.launcher.actives = 0 := by
  have hm : ThorWar.sampleBusy.player.launcher.missles ≠ [] := by
    simp [ThorWar.sampleBusy, Launcher.sampleHit]
  have hp : ThorWar.sampleBusy.gc.enemies.length = 4 := rfl
  have ht : ∀ e ∈ ThorWar.sampleBusy.enemies, e.type < 4 := by
    intro e he
    simp only [ThorWar.sampleBusy, List.mem_cons, List.mem_singleton, List.not_mem_nil,
      or_false] at he
    rcases he with rfl | rfl <;> simp [Enemy.sample]
  have h := C11_dead_effect Env.sample ThorWar.sampleBusy 7000 hm hp ht
  refine ⟨hm, hp, ht, h.1, ?_, h.2.2.2.2.1⟩
  rw [h.2.1.2 3]
  simp [ThorWar.sampleBusy, Enemy.sample, ThorWar.sampleStart, ThorWar.start,
    GarbageCollector.new]

/-! ### Level, reset and start-up values -/

/-- The death handler leaves the difficulty variables and the wipe count. -/
theorem dead_levels (env : Env) (s : ThorWar) (elapsed : Nat) :
    (s.dead env elapsed).LEVEL = s.LEVEL ∧
    (s.dead env elapsed).respawnTime = s.respawnTime ∧
    (s.dead env elapsed).DURATION = s.DURATION ∧
    (s.dead env elapsed).wipesCnt = s.wipesCnt := by
  have h := deadEnemies_frame env elapsed s.enemies { s with gameplay := false }
  simp only [ThorWar.dead]
  split <;> simp [h.1, h.2.1, h.2.2.2.2.2.2.2.2.1, h.2.2.2.2.2.2.2.2.2.1]

/-- The level after `gamelevel`: unchanged, or one more and at most 9. -/
theorem gamelevel_level (s : ThorWar) :
    (s.gamelevel.LEVEL = s.LEVEL ∨ (s.gamelevel.LEVEL = s.LEVEL + 1 ∧ s.LEVEL < 9)) := by
  by_cases h : s.LEVEL < 9 ∧ s.LEVEL < s.wipesCnt / 100
  · right; exact ⟨(gamelevel_step s h).1, h.1⟩
  · left; simp [ThorWar.gamelevel, h]

/-- C13: with `D = 3000` when no life is left and `D = 1000` otherwise, and a
clock value `elapsed ≥ tick.end`: if `elapsed - tick.end < D`, `reset` returns
the session unchanged; if `elapsed - tick.end ≥ D`, it turns gameplay on, sets
`tick.end = elapsed` and the combo variant to -1, so that the next `trigger`
returns 1 for each enemy variant. -/
theorem C13_reset_effect (env : Env) (s : ThorWar) (elapsed : Nat)
    (h1 : s.tick.end_ ≤ elapsed) (h2 : elapsed < 2 ^ 32) :
    (elapsed - s.tick.end_ < (if s.lives.count = 0 then 3000 else 1000) →
      s.reset env elapsed = s) ∧
    ((if s.lives.count = 0 then 3000 else 1000) ≤ elapsed - s.tick.end_ →
      (s.reset env elapsed).gameplay = true ∧
      (s.reset env elapsed).tick.end_ = elapsed ∧
      (s.reset env elapsed).combo.type = -1 ∧
      ∀ (v : Nat) (pos : Point) (t : Nat),
        ((s.reset env elapsed).combo.trigger (v : Int) pos t).1 = 1) := by
  have hu : u32 ((elapsed : Int) - s.tick.end_) = elapsed - s.tick.end_ := by
    unfold u32; omega
  constructor
  · intro hlt
    unfold ThorWar.reset
    rw [hu, if_pos hlt]
  · intro hge
    have hn : ¬ (u32 ((elapsed : Int) - s.tick.end_)
        < (if s.lives.count = 0 then 3000 else 1000)) := by rw [hu]; omega
    have hfields : (s.reset env elapsed).gameplay = true ∧
        (s.reset env elapsed).tick.end_ = elapsed ∧
        (s.reset env elapsed).combo.type = -1 := by
      unfold ThorWar.reset
      rw [if_neg hn]
      exact ⟨rfl, rfl, rfl⟩
    refine ⟨hfields.1, hfields.2.1, hfields.2.2, ?_⟩
    intro v pos t
    have hv : ¬ ((s.reset env elapsed).combo.type = (v : Int)) := by
      rw [hfields.2.2]; omega
    simp [ComboMgr.trigger, hv]

/-- C13 at a concrete input: the session `ThorWar.sampleOver` (no life left,
`tick.end = 5000`) at 7999 ms and at 8000 ms. -/
theorem C13_reset_effect_witness :
    ThorWar.sampleOver.reset Env.sample 7999 = ThorWar.sampleOver ∧
    (ThorWar.sampleOver.reset Env.sample 8000).gameplay = true ∧
    (ThorWar.sampleOver.reset Env.sample 8000).tick.end_ = 8000 ∧
    ((ThorWar.sampleOver.reset Env.sample 8000).combo.trigger 2 ⟨0, 0⟩ 8100).1 = 1 := by
  have ha := C13_reset_effect Env.sample ThorWar.sampleOver 7999 (by decide) (by decide)
  have hb := C13_reset_effect Env.sample ThorWar.sampleOver 8000 (by decide) (by decide)
  have hb' := hb.2 (by decide)
  exact ⟨ha.1 (by decide), hb'.1, hb'.2.1, hb'.2.2.2 2 ⟨0, 0⟩ 8100⟩

/-- C16 (the code at a full reset): with no life left and the 3000 ms delay
elapsed, `reset` sets `respawnTime` to 1000, the value of the start-up
initialiser at level 0, but sets `Enemy::DURATION` to 10000, where the start-up
initialiser `9500 - LEVEL * ENEMY_DURATION_LEVEL` gives 9500 at level 0. -/
theorem C16_reset_duration (env : Env) (s : ThorWar) (elapsed : Nat)
    (h0 : s.lives.count = 0) (hd : 3000 ≤ u32 ((elapsed : Int) - s.tick.end_)) :
    (s.reset env elapsed).DURATION = 10000 ∧
    (s.reset env elapsed).respawnTime = 1000 ∧
    u32 (usize (9500 - ((0 * ENEMY_DURATION_LEVEL : Nat) : Int))) = 9500 ∧
    usize (1000 - ((0 * RESPAWN_LEVEL : Nat) : Int)) = 1000 ∧
    (s.reset env elapsed).DURATION
      ≠ u32 (usize (9500 - (((s.reset env elapsed).LEVEL * ENEMY_DURATION_LEVEL : Nat) : Int))) := by
  have hn : ¬ (u32 ((elapsed : Int) - s.tick.end_) < 3000) := by omega
  have hf : (s.reset env elapsed).DURATION = 10000 ∧ (s.reset env elapsed).respawnTime = 1000 ∧
      (s.reset env elapsed).LEVEL = 0 := by
    simp [ThorWar.reset, h0, hn]
  refine ⟨hf.1, hf.2.1, by decide, by decide, ?_⟩
  rw [hf.1, hf.2.2]
  decide

/-- C16 at a concrete input: `ThorWar.sampleOver` reset at 8000 ms. -/
theorem C16_reset_duration_witness :
    (ThorWar.sampleOver.reset Env.sample 8000).DURATION = 10000 ∧
    (ThorWar.sampleOver.reset Env.sample 8000).respawnTime = 1000 :=
  ⟨(C16_reset_duration Env.sample ThorWar.sampleOver 8000 (by decide) (by decide)).1,
   (C16_reset_duration Env.sample ThorWar.sampleOver 8000 (by decide) (by decide)).2.1⟩

/-! ### Enemy initialisation and the difficulty variables -/

/-- C17 (the code at `Enemy::init`): for an enemy of one of the variants the
initialiser accepts, `init` leaves `pos.cur` at (0, 0), the value-initialised
third member of `pos = {{..}, {..}}`, and with a positive `Enemy::BOUND` that is
not the new start point `pos.from`. -/
theorem C17_init_cur (env : Env) (D : Nat) (e : Enemy) (rng : Rand) (elapsed : Nat)
    (ht : e.type ≤ 4) (hb : 0 < env.BOUND) :
    (Enemy.init env D e rng elapsed).1.pos.cur = ⟨0, 0⟩ ∧
    (Enemy.init env D e rng elapsed).1.pos.from_
      ≠ (Enemy.init env D e rng elapsed).1.pos.cur := by
  have hW : (0 : ℚ) ≤ (env.SWIDTH : ℚ) := Nat.cast_nonneg _
  have hH : (0 : ℚ) ≤ (env.SHEIGHT : ℚ) := Nat.cast_nonneg _
  have hcases : e.type = 0 ∨ e.type = 1 ∨ e.type = 2 ∨ e.type = 3 ∨ e.type = 4 := by omega
  unfold Enemy.init
  rcases hcases with h | h | h | h | h <;>
    simp only [h] <;> norm_num <;> intro _ <;> linarith

/-- C17 at a concrete input: a Boxer taken from the fresh pool has
`pos.cur = (0, 0)` and `pos.from = (0, -256/3)`; with the player at (512, 288)
the collision test of the enemy block, which reads `pos.cur`, kills the player,
although the test at the start point `pos.from` fails. -/
theorem C17_init_cur_witness :
    (Enemy.init Env.sample 5500 (Enemy.new 300 0) Rand.sample 4000).1.pos.cur = ⟨0, 0⟩ ∧
    (Enemy.init Env.sample 5500 (Enemy.new 300 0) Rand.sample 4000).1.pos.from_
      ≠ (Enemy.init Env.sample 5500 (Enemy.new 300 0) Rand.sample 4000).1.pos.cur ∧
    ThorWar.sampleCorner.enemies
      = [(Enemy.init Env.sample 5500 (Enemy.new 300 0) Rand.sample 4000).1] ∧
    (ThorWar.sampleCorner.updateEnemies Env.sample 4016).gameplay = false ∧
    intersect ThorWar.sampleCorner.player.pos
      ((Enemy.init Env.sample 5500 (Enemy.new 300 0) Rand.sample 4000).1.pos.from_
        + (ThorWar.sampleCorner.origin - ThorWar.sampleCorner.player.pos))
      ((ThorWar.sampleCorner.player.bound + Env.sample.BOUND) ^ 2) = false := by
  have hB : (0 : ℚ) < Env.sample.BOUND := by norm_num [Env.sample, Env.BOUND, Env.S]
  have h := C17_init_cur Env.sample 5500 (Enemy.new 300 0) Rand.sample 4000 (by decide) hB
  have hen : ThorWar.sampleCorner.enemies
      = [(Enemy.init Env.sample 5500 (Enemy.new 300 0) Rand.sample 4000).1] := by
    simp [ThorWar.sampleCorner, GarbageCollector.getEnemy, GarbageCollector.new]
  have hp : ThorWar.sampleCorner.player.pos = ⟨512, 288⟩ := rfl
  have ho : ThorWar.sampleCorner.origin = ⟨1024, 576⟩ := by
    simp only [ThorWar.sampleCorner, ThorWar.sampleStart, ThorWar.start, Env.S,
      Env.sample, WIDTH, HEIGHT]
    norm_num
  have hbd : ThorWar.sampleCorner.player.bound = 64 / 3 := by
    simp only [ThorWar.sampleCorner, ThorWar.sampleStart, ThorWar.start, Player.init,
      Env.S, Env.sample]
    norm_num
  have hg : ThorWar.sampleCorner.gameplay = true := rfl
  have hfrom : (Enemy.init Env.sample 5500 (Enemy.new 300 0) Rand.sample 4000).1.pos.from_
      = ⟨0, -(256 / 3)⟩ := by
    simp [Enemy.init, Enemy.new, Rand.next, Rand.sample, Env.sample, Env.BOUND, Env.S]
    norm_num
  refine ⟨h.1, h.2, hen, ?_, ?_⟩
  · unfold ThorWar.updateEnemies
    rw [if_pos hg]
    rw [enemyLoop_gameplay Env.sample 4016 _ _ ThorWar.sampleCorner.player.pos
      ThorWar.sampleCorner.enemies [] ThorWar.sampleCorner ⟨0, 0⟩ hg rfl]
    refine ⟨_, by rw [hen]; exact List.mem_singleton.mpr rfl, ?_⟩
    rw [intersect_iff, h.1, hp, ho, hbd]
    simp only [(point_coords _ _).1, (point_coords _ _).2.1, (point_coords _ _).2.2.1,
      (point_coords _ _).2.2.2]
    norm_num [Env.sample, Env.BOUND, Env.S]
  · have hni : ¬ intersect ThorWar.sampleCorner.player.pos
        ((Enemy.init Env.sample 5500 (Enemy.new 300 0) Rand.sample 4000).1.pos.from_
          + (ThorWar.sampleCorner.origin - ThorWar.sampleCorner.player.pos))
        ((ThorWar.sampleCorner.player.bound + Env.sample.BOUND) ^ 2) = true := by
      rw [intersect_iff, hfrom, hp, ho, hbd]
      simp only [(point_coords _ _).1, (point_coords _ _).2.1, (point_coords _ _).2.2.1,
        (point_coords _ _).2.2.2]
      norm_num [Env.sample, Env.BOUND, Env.S]
    simpa using hni

/-- The bounds on the difficulty variables that every reachable session
satisfies. -/
theorem LevelReach.bounds {env : Env} {s : ThorWar} (h : LevelReach env s) :
    s.LEVEL ≤ 9 ∧ s.respawnTime + 100 * s.LEVEL = 1000 ∧
    9500 ≤ s.DURATION + 1000 * s.LEVEL ∧ s.DURATION + 1000 * s.LEVEL ≤ 10000 := by
  induction h with
  | start rng w h =>
    refine ⟨?_, ?_, ?_, ?_⟩ <;> simp only [ThorWar.start] <;> decide
  | @gamelevel s _ ih =>
    obtain ⟨h1, h2, h3, h4⟩ := ih
    by_cases hc : s.LEVEL < 9 ∧ s.LEVEL < s.wipesCnt / 100
    · have hl : usize ((s.LEVEL : Int) + 1) = s.LEVEL + 1 := by unfold usize; omega
      have hr : usize ((s.respawnTime : Int) - RESPAWN_LEVEL) = s.respawnTime - 100 := by
        unfold usize RESPAWN_LEVEL; omega
      have hd : u32 ((s.DURATION : Int) - ENEMY_DURATION_LEVEL) = s.DURATION - 1000 := by
        unfold u32 ENEMY_DURATION_LEVEL; omega
      simp only [ThorWar.gamelevel, hc, and_self, if_true, hl, hr, hd]
      omega
    · simp only [ThorWar.gamelevel, hc, if_false]
      exact ⟨h1, h2, h3, h4⟩
  | @reset s elapsed _ ih =>
    obtain ⟨h1, h2, h3, h4⟩ := ih
    by_cases hlt : u32 ((elapsed : Int) - s.tick.end_)
        < (if s.lives.count = 0 then 3000 else 1000)
    · have : s.reset env elapsed = s := by unfold ThorWar.reset; rw [if_pos hlt]
      rw [this]
      exact ⟨h1, h2, h3, h4⟩
    · by_cases h0 : s.lives.count = 0
      · have : (s.reset env elapsed).LEVEL = 0 ∧ (s.reset env elapsed).respawnTime = 1000 ∧
            (s.reset env elapsed).DURATION = 10000 := by
          unfold ThorWar.reset; rw [if_neg hlt]; simp [h0]
        rw [this.1, this.2.1, this.2.2]
        omega
      · have : (s.reset env elapsed).LEVEL = s.LEVEL ∧
            (s.reset env elapsed).respawnTime = s.respawnTime ∧
            (s.reset env elapsed).DURATION = s.DURATION := by
          unfold ThorWar.reset; rw [if_neg hlt]; simp [h0]
        rw [this.1, this.2.1, this.2.2]
        exact ⟨h1, h2, h3, h4⟩
  | other _ hl hr hd ih =>
    rw [hl, hr, hd]
    exact ih

/-- C19: in every session reachable from start-up through `gamelevel`,
`reset` and steps that do not write the difficulty variables: `LEVEL ≤ 9`,
`respawnTime = 1000 - 100 * LEVEL ≥ 100` and `Enemy::DURATION ≥ 500`; when
`gamelevel` subtracts (`LEVEL < 9`) both minuends are at least the amount
subtracted, so the results are exact; the divisor of `rand() % DURATION` is not
zero and the lifetime `Enemy::init` draws lies in `[BASETIME, BASETIME +
DURATION)`. -/
theorem C19_difficulty_bounds (env : Env) (s : ThorWar) (h : LevelReach env s) :
    s.LEVEL ≤ 9 ∧
    (s.respawnTime = 1000 - 100 * s.LEVEL ∧ 100 ≤ s.respawnTime) ∧
    500 ≤ s.DURATION ∧
    (s.LEVEL < 9 ∧ s.LEVEL < s.wipesCnt / 100 →
      RESPAWN_LEVEL ≤ s.respawnTime ∧ ENEMY_DURATION_LEVEL ≤ s.DURATION ∧
      s.gamelevel.respawnTime = s.respawnTime - RESPAWN_LEVEL ∧
      s.gamelevel.DURATION = s.DURATION - ENEMY_DURATION_LEVEL) ∧
    s.DURATION ≠ 0 ∧
    (∀ (e : Enemy) (rng : Rand) (elapsed : Nat),
      (BASETIME : ℚ) ≤ (Enemy.init env s.DURATION e rng elapsed).1.time.duration ∧
      (Enemy.init env s.DURATION e rng elapsed).1.time.duration
        < (BASETIME : ℚ) + (s.DURATION : ℚ)) := by
  obtain ⟨h1, h2, h3, h4⟩ := h.bounds
  refine ⟨h1, ⟨by omega, by omega⟩, by omega, ?_, by omega, ?_⟩
  · intro hc
    have hr : usize ((s.respawnTime : Int) - ((100 : Nat) : Int)) = s.respawnTime - 100 := by
      unfold usize; omega
    have hd : u32 ((s.DURATION : Int) - ((1000 : Nat) : Int)) = s.DURATION - 1000 := by
      unfold u32; omega
    refine ⟨by unfold RESPAWN_LEVEL; omega, by unfold ENEMY_DURATION_LEVEL; omega, ?_, ?_⟩
    · simp only [ThorWar.gamelevel, hc, and_self, if_true, RESPAWN_LEVEL, hr]
    · simp only [ThorWar.gamelevel, hc, and_self, if_true, ENEMY_DURATION_LEVEL, hd]
  · intro e rng elapsed
    have hpos : 0 < s.DURATION := by omega
    have hdur : ∀ r : Nat, (Enemy.init env s.DURATION e rng elapsed).1.time.duration
        = (((u32 ((BASETIME : Int) + ((r % s.DURATION : Nat) : Int)) : Nat) : ℚ)) →
        (BASETIME : ℚ) ≤ (Enemy.init env s.DURATION e rng elapsed).1.time.duration ∧
        (Enemy.init env s.DURATION e rng elapsed).1.time.duration
          < (BASETIME : ℚ) + (s.DURATION : ℚ) := by
      intro r hr
      have hm : r % s.DURATION < s.DURATION := Nat.mod_lt _ hpos
      have hu : u32 ((BASETIME : Int) + ((r % s.DURATION : Nat) : Int))
          = BASETIME + r % s.DURATION := by
        unfold u32 BASETIME; omega
      rw [hr, hu]
      constructor
      · exact_mod_cast Nat.le_add_right _ _
      · exact_mod_cast Nat.add_lt_add_left hm BASETIME
    unfold Enemy.init at hdur ⊢
    exact hdur _ rfl

/-- C19 at concrete inputs: from start-up (level 4, 400 wipes) the session
reaches 500 wipes, where `gamelevel` subtracts (level 5, `respawnTime` 500,
`DURATION` 4500); it then loses the last life, and the full reset at 8000 ms
writes level 0, `respawnTime` 1000 and `DURATION` 10000. -/
theorem C19_difficulty_bounds_witness :
    LevelReach Env.sample ThorWar.sample500 ∧
    (ThorWar.sample500.LEVEL < 9 ∧
      ThorWar.sample500.LEVEL < ThorWar.sample500.wipesCnt / 100) ∧
    (ThorWar.sample500.LEVEL = 4 ∧ ThorWar.sample500.respawnTime = 600 ∧
      ThorWar.sample500.DURATION = 5500) ∧
    (ThorWar.sample500.gamelevel.respawnTime = 600 - RESPAWN_LEVEL ∧
      ThorWar.sample500.gamelevel.DURATION = 5500 - ENEMY_DURATION_LEVEL ∧
      ThorWar.sample500.gamelevel.LEVEL = 5) ∧
    LevelReach Env.sample (ThorWar.sampleLast.reset Env.sample 8000) ∧
    ((ThorWar.sampleLast.reset Env.sample 8000).LEVEL = 0 ∧
      (ThorWar.sampleLast.reset Env.sample 8000).respawnTime = 1000 ∧
      (ThorWar.sampleLast.reset Env.sample 8000).DURATION = 10000) ∧
    (ThorWar.sampleLast.reset Env.sample 8000).LEVEL ≤ 9 ∧
    500 ≤ (ThorWar.sampleLast.reset Env.sample 8000).DURATION := by
  have r1 : LevelReach Env.sample ThorWar.sample500 :=
    LevelReach.other (LevelReach.start Rand.sample 2048 1152) rfl rfl rfl
  have r3 : LevelReach Env.sample ThorWar.sampleLast :=
    LevelReach.other (LevelReach.gamelevel r1) rfl rfl rfl
  have r4 : LevelReach Env.sample (ThorWar.sampleLast.reset Env.sample 8000) :=
    LevelReach.reset 8000 r3
  have hc : ThorWar.sample500.LEVEL < 9 ∧
      ThorWar.sample500.LEVEL < ThorWar.sample500.wipesCnt / 100 := by decide!
  have hv : ThorWar.sample500.LEVEL = 4 ∧ ThorWar.sample500.respawnTime = 600 ∧
      ThorWar.sample500.DURATION = 5500 := by decide!
  have h1 := C19_difficulty_bounds Env.sample ThorWar.sample500 r1
  have h4 := C19_difficulty_bounds Env.sample _ r4
  obtain ⟨_, _, hr, hd⟩ := h1.2.2.2.1 hc
  refine ⟨r1, hc, hv, ⟨?_, ?_, by decide!⟩, r4, by decide!, h4.1, h4.2.2.1⟩
  · rw [hr, hv.2.1]
  · rw [hd, hv.2.2]

/-! ### The wall pass -/

/-- What the wall pass leaves in a slot. -/
theorem wallLoop_missles (env : Env) (elapsed : Nat) (shift p2o : Point) :
    ∀ (l : List Fire) (s : ThorWar),
      (ThorWar.wallLoop env elapsed shift p2o l s).1
        = l.map (fun f => if (f.active && outsideWalls env shift f.cur) = true
            then f.inactivate else f) := by
  intro l
  induction l with
  | nil => intro s; simp [ThorWar.wallLoop]
  | cons f rest ih =>
    intro s
    simp only [ThorWar.wallLoop, List.map_cons]
    cases hf : f.active
    · simp [ih]
    · cases ho : outsideWalls env shift f.cur
      · simp [ih]
      · simp [ih]

/-- The wall pass touches only the pools, the random stream and the explosion
list of the session. -/
theorem wallLoop_frame (env : Env) (elapsed : Nat) (shift p2o : Point) :
    ∀ (l : List Fire) (s : ThorWar),
      (ThorWar.wallLoop env elapsed shift p2o l s).2.LEVEL = s.LEVEL ∧
      (ThorWar.wallLoop env elapsed shift p2o l s).2.DURATION = s.DURATION ∧
      (ThorWar.wallLoop env elapsed shift p2o l s).2.player = s.player ∧
      (ThorWar.wallLoop env elapsed shift p2o l s).2.enemies = s.enemies ∧
      (ThorWar.wallLoop env elapsed shift p2o l s).2.combo = s.combo ∧
      (ThorWar.wallLoop env elapsed shift p2o l s).2.tick = s.tick ∧
      (ThorWar.wallLoop env elapsed shift p2o l s).2.lives = s.lives ∧
      (ThorWar.wallLoop env elapsed shift p2o l s).2.origin = s.origin ∧
      (ThorWar.wallLoop env elapsed shift p2o l s).2.respawnTime = s.respawnTime ∧
      (ThorWar.wallLoop env elapsed shift p2o l s).2.wipesCnt = s.wipesCnt ∧
      (ThorWar.wallLoop env elapsed shift p2o l s).2.gameplay = s.gameplay := by
  intro l
  induction l with
  | nil => intro s; simp [ThorWar.wallLoop]
  | cons f rest ih =>
    intro s
    simp only [ThorWar.wallLoop]
    cases hf : f.active
    · simpa using ih s
    · cases ho : outsideWalls env shift f.cur
      · simpa using ih s
      · have := ih (s.destroy env (f.cur - p2o) elapsed)
        simpa [ThorWar.destroy] using this

/-- The wall pass appends one Ambient explosion per slot it drops, in slot
order, at the slot position moved back by `p2o`. -/
theorem wallLoop_explosions (env : Env) (elapsed : Nat) (shift p2o : Point) :
    ∀ (l : List Fire) (s : ThorWar),
      ∃ new : List Explosion,
        (ThorWar.wallLoop env elapsed shift p2o l s).2.explosions = s.explosions ++ new ∧
        new.length = l.countP (fun f => f.active && outsideWalls env shift f.cur) ∧
        (∀ x ∈ new, x.destroy = false ∧ x.begin = elapsed) ∧
        new.map (fun x => x.pos)
          = (l.filter (fun f => f.active && outsideWalls env shift f.cur)).map
              (fun f => f.cur - p2o) := by
  intro l
  induction l with
  | nil => intro s; exact ⟨[], by simp [ThorWar.wallLoop]⟩
  | cons f rest ih =>
    intro s
    simp only [ThorWar.wallLoop]
    cases hf : f.active
    · obtain ⟨new, h1, h2, h3, h4⟩ := ih s
      exact ⟨new, by simpa using h1, by simp [hf, h2], h3, by simp [hf, h4]⟩
    · cases ho : outsideWalls env shift f.cur
      · obtain ⟨new, h1, h2, h3, h4⟩ := ih s
        exact ⟨new, by simpa using h1, by simp [hf, ho, h2], h3, by simp [hf, ho, h4]⟩
      · obtain ⟨new, h1, h2, h3, h4⟩ := ih (s.destroy env (f.cur - p2o) elapsed)
        have hx := Explosion.init_fields env s.gc.get.1 s.rng (f.cur - p2o) elapsed
        refine ⟨(Explosion.init env s.gc.get.1 s.rng (f.cur - p2o) elapsed).1 :: new,
          ?_, by simp [hf, ho, h2], ?_, ?_⟩
        · simp only [Bool.not_true, Bool.false_eq_true, if_false, if_true]
          rw [h1]; simp [ThorWar.destroy]
        · intro x hm
          rcases List.mem_cons.mp hm with rfl | hm
          · exact ⟨hx.1, hx.2.1⟩
          · exact h3 x hm
        · simp [hf, ho, h4, hx.2.2.1]

/-- The slots the wall pass drops and the slots it leaves active add up to the
slots that were active. -/
theorem wall_count (env : Env) (shift : Point) :
    ∀ l : List Fire,
      l.countP (fun f => f.active && outsideWalls env shift f.cur)
        + activeCount (l.map (fun f =>
            if (f.active && outsideWalls env shift f.cur) = true then f.inactivate else f))
      = activeCount l := by
  intro l
  induction l with
  | nil => rfl
  | cons f rest ih =>
    unfold activeCount at ih ⊢
    rw [List.map_cons, List.countP_cons, List.countP_cons, List.countP_cons]
    cases hf : f.active
    · simp only [Bool.false_and, Bool.false_eq_true, if_false, hf]
      omega
    · cases ho : outsideWalls env shift f.cur
      · simp only [Bool.and_false, Bool.false_eq_true, if_false, hf, if_true]
        omega
      · have hia : f.inactivate.active = false := rfl
        simp only [Bool.and_self, if_true, hia, Bool.false_eq_true, if_false]
        omega

/-- The counter after one iteration of the launcher loop. -/
theorem fireStep_actives (env : Env) (pos direction : Point) (elapsed : Nat) (f : Fire)
    (sh : Bool) (a : Nat) :
    (Launcher.fireStep env pos direction elapsed f sh a).2.2 =
      if f.active = true then
        (if (sinceF elapsed f.time) / FIRESPEED ≤ 1 then a else usize ((a : Int) - 1))
      else (if sh = true then usize ((a : Int) + 1) else a) := by
  cases hf : f.active
  · cases sh <;> simp [Launcher.fireStep, hf, sinceF_self]
  · by_cases hp : (sinceF elapsed f.time) / FIRESPEED ≤ 1
    · simp [Launcher.fireStep, hf, hp]
    · simp [Launcher.fireStep, hf, hp]

/-- The active flag of a slot after one iteration of the launcher loop. -/
theorem fireStep_flag (env : Env) (pos direction : Point) (elapsed : Nat) (f : Fire)
    (sh : Bool) (a : Nat) :
    (Launcher.fireStep env pos direction elapsed f sh a).1.active =
      if f.active = true then decide ((sinceF elapsed f.time) / FIRESPEED ≤ 1) else sh := by
  cases hf : f.active
  · cases sh
    · rw [fireStep_idle env pos direction elapsed f a hf]; simp [hf]
    · rw [fireStep_fired env pos direction elapsed f a hf]; simp
  · rw [fireStep_active env pos direction elapsed f sh a hf]
    unfold Fire.advance
    by_cases hp : (sinceF elapsed f.time) / FIRESPEED ≤ 1
    · simp [hp, hf]
    · simp [hp, Fire.inactivate]

/-- The launcher loop keeps the counter at or above the number of active
slots (`c` counts the active slots the loop has already passed) and raises it
by at most one, as long as the counter cannot wrap. -/
theorem fireLoop_count (env : Env) (pos direction : Point) (elapsed : Nat) :
    ∀ (l : List Fire) (sh : Bool) (a c : Nat),
      activeCount l + c ≤ a → a + (if sh = true then 1 else 0) < 2 ^ 64 →
      activeCount (Launcher.fireLoop env pos direction elapsed l sh a).1 + c
        ≤ (Launcher.fireLoop env pos direction elapsed l sh a).2 ∧
      (Launcher.fireLoop env pos direction elapsed l sh a).2
        ≤ a + (if sh = true then 1 else 0) := by
  intro l
  induction l with
  | nil => intro sh a c h _; simp only [Launcher.fireLoop]; exact ⟨h, by omega⟩
  | cons g rest ih =>
    intro sh a c h hlt
    simp only [Launcher.fireLoop]
    have hcount : activeCount (g :: rest)
        = activeCount rest + (if g.active = true then 1 else 0) := by
      unfold activeCount; rw [List.countP_cons]
    have hres : ∀ (g' : Fire) (t : List Fire),
        activeCount (g' :: t) = activeCount t + (if g'.active = true then 1 else 0) := by
      intro g' t; unfold activeCount; rw [List.countP_cons]
    rw [hres, fireStep_flag, fireStep_shoot, fireStep_actives]
    rw [hcount] at h
    cases hg : g.active
    · rw [hg] at h
      cases sh
      · simp only [Bool.false_eq_true, if_false, Bool.false_and] at h hlt ⊢
        have := ih false a c (by omega) (by simpa using hlt)
        simpa using this
      · simp only [Bool.false_eq_true, if_false, if_true, Bool.and_false, hg] at h hlt ⊢
        have hu : usize ((a : Int) + 1) = a + 1 := by unfold usize; omega
        rw [hu]
        have := ih false (a + 1) (c + 1) (by omega) (by simpa using hlt)
        simp only [Bool.false_eq_true, if_false] at this
        omega
    · rw [hg] at h
      simp only [if_true, Bool.and_true, hg] at h ⊢
      by_cases hp : (sinceF elapsed g.time) / FIRESPEED ≤ 1
      · simp only [hp, if_true, decide_True]
        have := ih sh a (c + 1) (by omega) hlt
        omega
      · simp only [hp, if_false, decide_False, Bool.false_eq_true]
        have hu : usize ((a : Int) - 1) = a - 1 := by unfold usize; omega
        rw [hu]
        have := ih sh (a - 1) c (by omega) (by split at hlt <;> split <;> omega)
        split at this <;> omega

/-- Dropping an active slot lowers the number of active slots by one. -/
theorem activeCount_set_inactivate :
    ∀ (l : List Fire) (i : Nat) (f : Fire), l[i]? = some f → f.active = true →
      activeCount (l.set i f.inactivate) + 1 = activeCount l := by
  intro l
  induction l with
  | nil => intro i f h; simp at h
  | cons g rest ih =>
    intro i f h hf
    cases i with
    | zero =>
      simp only [List.getElem?_cons_zero, Option.some.injEq] at h
      subst h
      have hia : g.inactivate.active = false := rfl
      unfold activeCount
      rw [List.set_cons_zero, List.countP_cons, List.countP_cons]
      simp only [hia, hf, Bool.false_eq_true, if_false, if_true]
    | succ i =>
      simp only [List.getElem?_cons_succ] at h
      have := ih i f h hf
      unfold activeCount at this ⊢
      rw [List.set_cons_succ, List.countP_cons, List.countP_cons]
      omega

/-- The enemy update keeps the counter at or above the number of active slots
and never raises it; a hit lowers a positive counter by one. -/
theorem Enemy.update_count (env : Env) (e : Enemy) (elapsed : Nat) (l : Launcher)
    (p2o target : Point) (h : activeCount l.missles ≤ l.actives) (hr : l.actives < 2 ^ 64) :
    activeCount (e.update env elapsed l p2o target).2.2.1.missles
      ≤ (e.update env elapsed l p2o target).2.2.1.actives ∧
    (e.update env elapsed l p2o target).2.2.1.actives ≤ l.actives ∧
    ((e.update env elapsed l p2o target).1 = 2 →
      0 < l.actives ∧ (e.update env elapsed l p2o target).2.2.1.actives + 1 = l.actives) := by
  unfold Enemy.update
  simp only []
  split
  · exact ⟨h, le_refl _, fun h2 => by simp at h2⟩
  · by_cases hd : e.time.duration = 0
    · rw [if_pos hd]; exact ⟨h, le_refl _, fun h2 => by simp at h2⟩
    rw [if_neg hd]
    split
    · rename_i hpos
      rcases hitLoop_spec
          (⟨lerp e.pos.from_.x e.pos.to_.x
              (f32 ((u32 ((elapsed : Int) - e.time.at_) : Nat) : ℚ) / e.time.duration),
            lerp e.pos.from_.y e.pos.to_.y
              (f32 ((u32 ((elapsed : Int) - e.time.at_) : Nat) : ℚ) / e.time.duration)⟩ + p2o)
          ((env.BOUND + env.BOUND) ^ 2) l.missles with
        ⟨_, hl⟩ | ⟨i, f, hi, hf, _, hl⟩
      · rw [hl]
        simp only [Bool.false_eq_true, if_false]
        exact ⟨h, le_refl _, fun h2 => by simp at h2⟩
      · rw [hl]
        simp only [if_true]
        have hfa : f.active = true := by
          simp only [Bool.and_eq_true] at hf; exact hf.1
        have hc := activeCount_set_inactivate l.missles i f hi hfa
        have hu : usize ((l.actives : Int) - 1) = l.actives - 1 := by unfold usize; omega
        rw [hu]
        exact ⟨by omega, by omega, fun _ => ⟨hpos, by omega⟩⟩
    · exact ⟨h, le_refl _, fun h2 => by simp at h2⟩

/-- A property of the session that every step of the enemy loop keeps holds
after the loop. -/
theorem enemyLoop_induct (env : Env) (elapsed : Nat) (p2o : Point) (range : ℚ)
    (Q : ThorWar → Prop)
    (hdead : ∀ (s : ThorWar) (l : List Enemy), Q s →
      Q (ThorWar.dead env { s with enemies := l } elapsed))
    (hupd : ∀ (s : ThorWar) (e : Enemy) (target : Point), Q s →
      Q { s with player := { s.player with
            launcher := (e.update env elapsed s.player.launcher p2o target).2.2.1 } })
    (hscore : ∀ (s : ThorWar) (w : Nat) (c : ComboMgr), Q s →
      Q { s with wipesCnt := w, combo := c })
    (hdestroy : ∀ (s : ThorWar) (e : Enemy) (d : Point), Q s →
      Q (s.destroyEnemy env e d elapsed))
    (hlevel : ∀ s : ThorWar, Q s → Q s.gamelevel)
    (hret : ∀ (s : ThorWar) (e : Enemy), Q s → Q { s with gc := s.gc.retrieveEnemy e })
    (hen : ∀ (s : ThorWar) (l : List Enemy), Q s → Q { s with enemies := l }) :
    ∀ (todo done : List Enemy) (s : ThorWar) (target : Point), Q s →
      Q (ThorWar.enemyLoop env elapsed p2o range done todo s target) := by
  intro todo
  induction todo with
  | nil =>
    intro done s target hq
    simp only [ThorWar.enemyLoop]
    exact hen s done hq
  | cons e rest ih =>
    intro done s target hq
    simp only [ThorWar.enemyLoop]
    split
    · exact hdead s _ hq
    · have h1 := hupd s e target hq
      split
      · apply ih
        apply hret
        split
        · apply hlevel
          apply hdestroy
          exact hscore _ _ _ h1
        · exact h1
      · exact ih _ _ _ h1

/-- A property of the session that every stage of a frame keeps holds after
the frame: `Q` before the frame, `Q'` from the first stage on. -/
theorem update_induct (env : Env) (elapsed : Nat) (Q Q' : ThorWar → Prop)
    (hplay : ∀ (s : ThorWar) (keys : Option Keys), s.gameplay = true → Q s →
      Q' { s.input env elapsed keys with
            player := (s.input env elapsed keys).player.update env elapsed })
    (hreset : ∀ s : ThorWar, s.gameplay = false → Q s →
      Q' ((s.flash elapsed).reset env elapsed))
    (henemies : ∀ s : ThorWar, Q' s → Q' (s.updateEnemies env elapsed))
    (hwalls : ∀ (s : ThorWar) (shift p2o : Point), Q' s →
      Q' (s.hitWalls env elapsed shift p2o))
    (hexp : ∀ (s : ThorWar) (x : List Explosion) (g : GarbageCollector) (r : Rand), Q' s →
      Q' { s with explosions := x, gc := g, rng := r })
    (hcombo : ∀ (s : ThorWar) (c : ComboMgr), Q' s → Q' { s with combo := c })
    (hrespawn : ∀ s : ThorWar, Q' s → Q' (s.respawn env elapsed))
    (htick : ∀ (s : ThorWar) (t : Tick), Q' s → Q' { s with tick := t })
    (s : ThorWar) (keys : Option Keys) (hq : Q s) :
    Q' (s.update env elapsed keys) := by
  have key : Q' (if s.gameplay = true then
      { s.input env elapsed keys with
        player := (s.input env elapsed keys).player.update env elapsed }
      else (s.flash elapsed).reset env elapsed) := by
    split
    · rename_i hg
      exact hplay s keys hg hq
    · rename_i hg
      exact hreset s (by simpa using hg) hq
  unfold ThorWar.update
  exact htick _ _ (hrespawn _ (hcombo _ _ (hexp _ _ _ _ (hwalls _ _ _ (henemies _ key)))))

/-- No slot is active after all have been dropped. -/
theorem activeCount_map_inactivate (l : List Fire) :
    activeCount (l.map Fire.inactivate) = 0 := by
  unfold activeCount
  rw [List.countP_eq_zero]
  intro f hf
  obtain ⟨g, _, rfl⟩ := List.mem_map.mp hf
  simp [Fire.inactivate]

/-- The death handler keeps the counter covering the active slots. -/
theorem dead_covered (env : Env) (elapsed m : Nat) (s : ThorWar)
    (h : Launcher.Covered m s.player.launcher) :
    Launcher.Covered m (s.dead env elapsed).player.launcher := by
  obtain ⟨hmis, hact, _⟩ := dead_player_tick env s elapsed
  obtain ⟨d1, d2, d3⟩ := deadMissles_spec s.player.launcher.missles s.player.launcher.actives
  unfold Launcher.Covered at h ⊢
  rw [hmis, hact, d1, activeCount_map_inactivate]
  refine ⟨Nat.zero_le _, ?_⟩
  by_cases he : s.player.launcher.missles = []
  · rw [d3 he]; exact h.2
  · rw [d2 he]; exact Nat.zero_le _

/-- The enemy block of a frame keeps the counter covering the active slots. -/
theorem updateEnemies_covered (env : Env) (elapsed m : Nat) (hm : m < 2 ^ 64) (s : ThorWar)
    (h : Launcher.Covered m s.player.launcher) :
    Launcher.Covered m (s.updateEnemies env elapsed).player.launcher := by
  unfold ThorWar.updateEnemies
  split
  · apply enemyLoop_induct env elapsed _ _ (fun t => Launcher.Covered m t.player.launcher)
    · intro t l ht
      exact dead_covered env elapsed m { t with enemies := l } ht
    · intro t e target ht
      have := Enemy.update_count env e elapsed t.player.launcher
        (s.origin - s.player.pos) target ht.1 (lt_of_le_of_lt ht.2 hm)
      exact ⟨this.1, le_trans this.2.1 ht.2⟩
    · intro t w c ht; exact ht
    · intro t e d ht; exact ht
    · intro t ht
      show Launcher.Covered m t.gamelevel.player.launcher
      rw [(gamelevel_frame t).2]; exact ht
    · intro t e ht; exact ht
    · intro t l ht; exact ht
    · exact h
  · exact h

/-- The wall pass keeps the counter covering the active slots. -/
theorem hitWalls_covered (env : Env) (elapsed m : Nat) (shift p2o : Point) (s : ThorWar)
    (h : Launcher.Covered m s.player.launcher) :
    Launcher.Covered m (s.hitWalls env elapsed shift p2o).player.launcher := by
  have hp := (wallLoop_frame env elapsed shift p2o s.player.launcher.missles s).2.2.1
  have hmis := wallLoop_missles env elapsed shift p2o s.player.launcher.missles s
  have hc := wall_count env shift s.player.launcher.missles
  unfold Launcher.Covered at h ⊢
  simp only [ThorWar.hitWalls, hp, hmis]
  exact ⟨by omega, h.2⟩

/-- One spawn line leaves the player, the difficulty variables and the wipe
count. -/
theorem spawn_frame (env : Env) (elapsed type : Nat) (s : ThorWar) :
    (ThorWar.spawn env elapsed type s).player = s.player ∧
    (ThorWar.spawn env elapsed type s).LEVEL = s.LEVEL ∧
    (ThorWar.spawn env elapsed type s).respawnTime = s.respawnTime ∧
    (ThorWar.spawn env elapsed type s).DURATION = s.DURATION ∧
    (ThorWar.spawn env elapsed type s).gameplay = s.gameplay := by
  unfold ThorWar.spawn
  simp only []
  split <;> exact ⟨rfl, rfl, rfl, rfl, rfl⟩

/-- The respawn stage leaves the player, the difficulty variables and the
gameplay flag. -/
theorem respawn_frame (env : Env) (elapsed : Nat) (s : ThorWar) :
    (s.respawn env elapsed).player = s.player ∧
    (s.respawn env elapsed).LEVEL = s.LEVEL ∧
    (s.respawn env elapsed).respawnTime = s.respawnTime ∧
    (s.respawn env elapsed).DURATION = s.DURATION ∧
    (s.respawn env elapsed).gameplay = s.gameplay := by
  unfold ThorWar.respawn
  split
  · exact ⟨rfl, rfl, rfl, rfl, rfl⟩
  · have h0 := spawn_frame env elapsed 0 { s with tick := { s.tick with respawn := elapsed } }
    have h1 := spawn_frame env elapsed 1 (ThorWar.spawn env elapsed 0
      { s with tick := { s.tick with respawn := elapsed } })
    have h2 := spawn_frame env elapsed 2 (ThorWar.spawn env elapsed 1 (ThorWar.spawn env elapsed 0
      { s with tick := { s.tick with respawn := elapsed } }))
    have h3 := spawn_frame env elapsed 3 (ThorWar.spawn env elapsed 2 (ThorWar.spawn env elapsed 1
      (ThorWar.spawn env elapsed 0 { s with tick := { s.tick with respawn := elapsed } })))
    refine ⟨?_, ?_, ?_, ?_, ?_⟩
    · rw [h3.1, h2.1, h1.1, h0.1]
    · rw [h3.2.1, h2.2.1, h1.2.1, h0.2.1]
    · rw [h3.2.2.1, h2.2.2.1, h1.2.2.1, h0.2.2.1]
    · rw [h3.2.2.2.1, h2.2.2.2.1, h1.2.2.2.1, h0.2.2.2.1]
    · rw [h3.2.2.2.2, h2.2.2.2.2, h1.2.2.2.2, h0.2.2.2.2]

/-- Reading the input leaves the launcher and the difficulty variables. -/
theorem input_frame (env : Env) (elapsed : Nat) (keys : Option Keys) (s : ThorWar) :
    (s.input env elapsed keys).player.launcher = s.player.launcher ∧
    (s.input env elapsed keys).LEVEL = s.LEVEL ∧
    (s.input env elapsed keys).respawnTime = s.respawnTime ∧
    (s.input env elapsed keys).DURATION = s.DURATION := by
  unfold ThorWar.input
  cases keys with
  | none => exact ⟨rfl, rfl, rfl, rfl⟩
  | some k =>
    refine ⟨?_, rfl, rfl, rfl⟩
    simp only []
    cases k.a <;> cases k.right <;> cases k.left <;> cases k.up <;> rfl

/-- The flash effect and `reset` leave the launcher. -/
theorem flash_reset_launcher (env : Env) (elapsed : Nat) (s : ThorWar) :
    ((s.flash elapsed).reset env elapsed).player.launcher = s.player.launcher := by
  have hf : (s.flash elapsed).player = s.player := by
    unfold ThorWar.flash
    split
    · split <;> rfl
    · rfl
  have hr : ∀ t : ThorWar, (t.reset env elapsed).player.launcher = t.player.launcher := by
    intro t
    by_cases hlt : u32 ((elapsed : Int) - t.tick.end_)
        < (if t.lives.count = 0 then 3000 else 1000)
    · unfold ThorWar.reset; rw [if_pos hlt]
    · unfold ThorWar.reset; rw [if_neg hlt]
      by_cases h0 : t.lives.count = 0 <;> simp [h0]
  rw [hr, hf]

/-- The launcher update keeps the counter covering the active slots and
raises it by at most one. -/
theorem Launcher.update_covered (env : Env) (pos direction : Point) (elapsed : Nat)
    (shoot : Bool) (m : Nat) (hm : m + 1 < 2 ^ 64) (l : Launcher)
    (h : Launcher.Covered m l) :
    Launcher.Covered (m + 1) (l.update env pos direction elapsed shoot) := by
  have hlt : l.actives + (if l.gate elapsed shoot = true then 1 else 0) < 2 ^ 64 := by
    have := h.2
    split <;> omega
  have hc := fireLoop_count env pos direction elapsed l.missles (l.gate elapsed shoot)
    l.actives 0 (by simpa using h.1) hlt
  have h2 : (Launcher.fireLoop env pos direction elapsed l.missles (l.gate elapsed shoot)
      l.actives).2 ≤ m + 1 := by
    have := hc.2
    have := h.2
    split at hc <;> omega
  exact ⟨by simpa using hc.1, h2⟩

/-- A frame keeps the counter covering the active slots and raises it by at
most one. -/
theorem frame_covered (env : Env) (elapsed m : Nat) (hm : m + 1 < 2 ^ 64) (s : ThorWar)
    (keys : Option Keys) (h : Launcher.Covered m s.player.launcher) :
    Launcher.Covered (m + 1) (s.update env elapsed keys).player.launcher := by
  apply update_induct env elapsed (fun t => Launcher.Covered m t.player.launcher)
    (fun t => Launcher.Covered (m + 1) t.player.launcher)
  · intro t keys _ ht
    show Launcher.Covered (m + 1)
      ((t.input env elapsed keys).player.launcher.update env
        (t.input env elapsed keys).player.pos _ elapsed (t.input env elapsed keys).player.shoot)
    rw [(input_frame env elapsed keys t).1]
    exact Launcher.update_covered env _ _ elapsed _ m hm t.player.launcher ht
  · intro t _ ht
    show Launcher.Covered (m + 1) ((t.flash elapsed).reset env elapsed).player.launcher
    rw [flash_reset_launcher]
    exact ⟨ht.1, by have := ht.2; omega⟩
  · intro t ht
    exact updateEnemies_covered env elapsed (m + 1) hm t ht
  · intro t shift p2o ht
    exact hitWalls_covered env elapsed (m + 1) shift p2o t ht
  · intro t x g r ht; exact ht
  · intro t c ht; exact ht
  · intro t ht
    show Launcher.Covered (m + 1) (t.respawn env elapsed).player.launcher
    rw [(respawn_frame env elapsed t).1]; exact ht
  · intro t tk ht; exact ht
  · exact h

/-- Over a run of frames the counter keeps covering the active slots and
grows by at most one per frame. -/
theorem frames_covered (env : Env) :
    ∀ (fs : List (Nat × Option Keys)) (s : ThorWar) (m : Nat),
      Launcher.Covered m s.player.launcher → m + fs.length < 2 ^ 64 →
      Launcher.Covered (m + fs.length) (ThorWar.frames env s fs).player.launcher := by
  intro fs
  induction fs with
  | nil => intro s m h _; simpa [ThorWar.frames] using h
  | cons f rest ih =>
    intro s m h hlt
    simp only [ThorWar.frames, List.length_cons] at hlt ⊢
    have h1 := frame_covered env f.1 m (by omega) s f.2 h
    have := ih (s.update env f.1 f.2) (m + 1) h1 (by omega)
    have he : m + (rest.length + 1) = m + 1 + rest.length := by omega
    rw [he]; exact this

/-- The hit test of an enemy keeps the number of slots. -/
theorem Enemy.update_slots (env : Env) (e : Enemy) (elapsed : Nat) (l : Launcher)
    (p2o target : Point) :
    (e.update env elapsed l p2o target).2.2.1.missles.length = l.missles.length := by
  unfold Enemy.update
  simp only []
  split
  · rfl
  · by_cases hd : e.time.duration = 0
    · rw [if_pos hd]
    rw [if_neg hd]
    split
    · rcases hitLoop_spec
          (⟨lerp e.pos.from_.x e.pos.to_.x
              (f32 ((u32 ((elapsed : Int) - e.time.at_) : Nat) : ℚ) / e.time.duration),
            lerp e.pos.from_.y e.pos.to_.y
              (f32 ((u32 ((elapsed : Int) - e.time.at_) : Nat) : ℚ) / e.time.duration)⟩ + p2o)
          ((env.BOUND + env.BOUND) ^ 2) l.missles with
        ⟨_, hl⟩ | ⟨i, f, _, _, _, hl⟩
      · rw [hl]
        simp only [Bool.false_eq_true, if_false]
      · rw [hl]
        simp only [if_true, List.length_set]
    · rfl

/-- A frame keeps the number of projectile slots. -/
theorem frame_slots (env : Env) (elapsed n : Nat) (s : ThorWar) (keys : Option Keys)
    (h : s.player.launcher.missles.length = n) :
    (s.update env elapsed keys).player.launcher.missles.length = n := by
  apply update_induct env elapsed (fun t => t.player.launcher.missles.length = n)
    (fun t => t.player.launcher.missles.length = n)
  · intro t keys _ ht
    show ((t.input env elapsed keys).player.launcher.update env
        (t.input env elapsed keys).player.pos _ elapsed
        (t.input env elapsed keys).player.shoot).missles.length = n
    rw [(input_frame env elapsed keys t).1]
    show (Launcher.fireLoop env _ _ elapsed t.player.launcher.missles _ _).1.length = n
    rw [fireLoop_length]; exact ht
  · intro t _ ht
    show ((t.flash elapsed).reset env elapsed).player.launcher.missles.length = n
    rw [flash_reset_launcher]; exact ht
  · intro t ht
    unfold ThorWar.updateEnemies
    split
    · apply enemyLoop_induct env elapsed _ _ (fun u => u.player.launcher.missles.length = n)
      · intro u l hu
        obtain ⟨hmis, _⟩ := dead_player_tick env { u with enemies := l } elapsed
        obtain ⟨d1, _⟩ := deadMissles_spec u.player.launcher.missles u.player.launcher.actives
        rw [hmis]
        show (deadMissles u.player.launcher.missles u.player.launcher.actives).1.length = n
        rw [d1, List.length_map]; exact hu
      · intro u e target hu
        show (e.update env elapsed u.player.launcher _ target).2.2.1.missles.length = n
        rw [Enemy.update_slots]; exact hu
      · intro u w c hu; exact hu
      · intro u e d hu; exact hu
      · intro u hu
        show u.gamelevel.player.launcher.missles.length = n
        rw [(gamelevel_frame u).2]; exact hu
      · intro u e hu; exact hu
      · intro u l hu; exact hu
      · exact ht
    · exact ht
  · intro t shift p2o ht
    have hp := (wallLoop_frame env elapsed shift p2o t.player.launcher.missles t).2.2.1
    have hmis := wallLoop_missles env elapsed shift p2o t.player.launcher.missles t
    simp only [ThorWar.hitWalls, hp, hmis, List.length_map]
    exact ht
  · intro t x g r ht; exact ht
  · intro t c ht; exact ht
  · intro t ht
    show (t.respawn env elapsed).player.launcher.missles.length = n
    rw [(respawn_frame env elapsed t).1]; exact ht
  · intro t tk ht; exact ht
  · exact h

/-- A run of frames keeps the number of projectile slots. -/
theorem frames_slots (env : Env) (n : Nat) :
    ∀ (fs : List (Nat × Option Keys)) (s : ThorWar),
      s.player.launcher.missles.length = n →
      (ThorWar.frames env s fs).player.launcher.missles.length = n := by
  intro fs
  induction fs with
  | nil => intro s h; simpa [ThorWar.frames] using h
  | cons f rest ih =>
    intro s h
    simp only [ThorWar.frames]
    exact ih _ (frame_slots env f.1 n s f.2 h)

/-- A slot the launcher update drops was active. -/
theorem expired_le_active (elapsed : Nat) (l : List Fire) :
    l.countP (Fire.expired elapsed) ≤ activeCount l := by
  unfold activeCount
  apply List.countP_mono_left
  intro f _ hf
  simp only [Fire.expired, Bool.and_eq_true] at hf
  exact hf.1

/-- When the counter covers the active slots and cannot wrap, the launcher
loop changes it by exactly the slots fired minus the slots dropped. -/
theorem fireLoop_exact (env : Env) (pos direction : Point) (elapsed : Nat) :
    ∀ (l : List Fire) (sh : Bool) (a c : Nat),
      activeCount l + c ≤ a → a + (if sh = true then 1 else 0) < 2 ^ 64 →
      (Launcher.fireLoop env pos direction elapsed l sh a).2 + l.countP (Fire.expired elapsed)
        = a + firedCount sh l := by
  intro l
  induction l with
  | nil => intro sh a c _ _; simp [Launcher.fireLoop, firedCount]
  | cons g rest ih =>
    intro sh a c h hlt
    simp only [Launcher.fireLoop]
    have hcount : activeCount (g :: rest)
        = activeCount rest + (if g.active = true then 1 else 0) := by
      unfold activeCount; rw [List.countP_cons]
    rw [fireStep_shoot, fireStep_actives, List.countP_cons]
    rw [hcount] at h
    cases hg : g.active
    · rw [hg] at h
      have hexp : Fire.expired elapsed g = false := by simp [Fire.expired, hg]
      cases sh
      · simp only [Bool.false_eq_true, if_false, Bool.false_and, hexp] at h hlt ⊢
        have := ih false a c (by omega) (by simpa using hlt)
        simp only [firedCount, Bool.false_and, Bool.false_eq_true, if_false] at this ⊢
        omega
      · simp only [Bool.false_eq_true, if_false, if_true, Bool.and_false, hexp] at h hlt ⊢
        have hu : usize ((a : Int) + 1) = a + 1 := by unfold usize; omega
        rw [hu]
        have := ih false (a + 1) (c + 1) (by omega) (by simpa using hlt)
        simp only [firedCount, Bool.false_and, Bool.false_eq_true, if_false, List.any_cons, hg,
          Bool.not_false, Bool.true_or, Bool.and_self, if_true] at this ⊢
        omega
    · rw [hg] at h
      have hfc : firedCount sh (g :: rest) = firedCount (sh && true) rest := by
        simp [firedCount, hg]
      rw [hfc]
      simp only [if_true, Bool.and_true] at h ⊢
      by_cases hp : (sinceF elapsed g.time) / FIRESPEED ≤ 1
      · have hexp : Fire.expired elapsed g = false := by simp [Fire.expired, hg, hp]
        simp only [hp, if_true, hexp, Bool.false_eq_true, if_false]
        have := ih sh a (c + 1) (by omega) hlt
        omega
      · have hexp : Fire.expired elapsed g = true := by simp [Fire.expired, hg, hp]
        simp only [hp, if_false, hexp, if_true]
        have hu : usize ((a : Int) - 1) = a - 1 := by unfold usize; omega
        rw [hu]
        have := ih sh (a - 1) c (by omega) (by split at hlt <;> split <;> omega)
        omega

/-- C18: in every session reached from start-up through fewer than `2^64`
update frames, `launcher.actives` is at least the number of slots whose
`active` flag is set (and at most the number of frames), so it is positive
whenever a slot is active.  From any launcher in which the counter covers the
active slots: `Launcher::update` keeps that, drops no more slots than the
counter holds and changes the counter by exactly the slots fired minus the
slots dropped; `Enemy::update` keeps that, and a hit decrements a positive
counter. -/
theorem C18_actives_covers (env : Env) (rng : Rand) (w h : Nat)
    (fs : List (Nat × Option Keys)) (hlen : fs.length < 2 ^ 64) :
    (activeCount (ThorWar.frames env (ThorWar.start env rng w h) fs).player.launcher.missles
        ≤ (ThorWar.frames env (ThorWar.start env rng w h) fs).player.launcher.actives ∧
      (ThorWar.frames env (ThorWar.start env rng w h) fs).player.launcher.actives
        ≤ fs.length) ∧
    ((∃ f ∈ (ThorWar.frames env (ThorWar.start env rng w h) fs).player.launcher.missles,
        f.active = true) →
      0 < (ThorWar.frames env (ThorWar.start env rng w h) fs).player.launcher.actives) ∧
    (∀ (l : Launcher) (m : Nat), Launcher.Covered m l → m + 1 < 2 ^ 64 →
      ∀ (pos direction : Point) (elapsed : Nat) (shoot : Bool),
        Launcher.Covered (m + 1) (l.update env pos direction elapsed shoot) ∧
        l.missles.countP (Fire.expired elapsed) ≤ l.actives ∧
        (l.update env pos direction elapsed shoot).actives
            + l.missles.countP (Fire.expired elapsed)
          = l.actives + firedCount (l.gate elapsed shoot) l.missles) ∧
    (∀ (l : Launcher) (m : Nat), Launcher.Covered m l → m < 2 ^ 64 →
      ∀ (e : Enemy) (elapsed : Nat) (p2o target : Point),
        Launcher.Covered m (e.update env elapsed l p2o target).2.2.1 ∧
        ((∃ f ∈ l.missles, f.active = true) → 0 < l.actives) ∧
        ((e.update env elapsed l p2o target).1 = 2 →
          0 < l.actives ∧ (e.update env elapsed l p2o target).2.2.1.actives + 1 = l.actives)) := by
  have hpos : ∀ l : Launcher, activeCount l.missles ≤ l.actives →
      (∃ f ∈ l.missles, f.active = true) → 0 < l.actives := by
    intro l hc ⟨f, hf, ha⟩
    have : 0 < activeCount l.missles := by
      unfold activeCount
      exact List.countP_pos_iff.mpr ⟨f, hf, ha⟩
    omega
  have hstart : Launcher.Covered 0 (ThorWar.start env rng w h).player.launcher := by
    unfold Launcher.Covered
    simp [ThorWar.start, Player.init, Launcher.init, activeCount, MISSLE_MAX]
  have hcov := frames_covered env fs (ThorWar.start env rng w h) 0 hstart (by omega)
  rw [Nat.zero_add] at hcov
  refine ⟨hcov, hpos _ hcov.1, ?_, ?_⟩
  · intro l m hl hm pos direction elapsed shoot
    have hlt : l.actives + (if l.gate elapsed shoot = true then 1 else 0) < 2 ^ 64 := by
      have := hl.2
      split <;> omega
    refine ⟨Launcher.update_covered env pos direction elapsed shoot m hm l hl, ?_, ?_⟩
    · exact le_trans (expired_le_active elapsed l.missles) hl.1
    · exact fireLoop_exact env pos direction elapsed l.missles (l.gate elapsed shoot)
        l.actives 0 (by simpa using hl.1) hlt
  · intro l m hl hm e elapsed p2o target
    have := Enemy.update_count env e elapsed l p2o target hl.1 (lt_of_le_of_lt hl.2 hm)
    exact ⟨⟨this.1, le_trans this.2.1 hl.2⟩, hpos l hl.1, this.2.2⟩

/-- C18 at a concrete input: after the six frames `wallShots` the counter (at
most 6) covers the active slots. -/
theorem C18_actives_covers_witness :
    activeCount (ThorWar.frames Env.upright (ThorWar.start Env.upright Rand.zero 2048 1152)
        wallShots).player.launcher.missles
      ≤ (ThorWar.frames Env.upright (ThorWar.start Env.upright Rand.zero 2048 1152)
        wallShots).player.launcher.actives ∧
    (ThorWar.frames Env.upright (ThorWar.start Env.upright Rand.zero 2048 1152)
        wallShots).player.launcher.actives ≤ 6 :=
  (C18_actives_covers Env.upright Rand.zero 2048 1152 wallShots (by decide)).1

/-- C14 (the code on six shots into the wall): in every session reached from
start-up through update frames at most `MISSLE_MAX` slots are active, but the
counter `actives` is not bounded by it: the wall pass drops slots and leaves
`actives` as it is; from start-up, six frames 300 ms apart with the fire
key held, each firing a shot that leaves the playfield before the next frame,
end with one slot active and `actives = 6`, above `MISSLE_MAX = 5`. -/
theorem C14_actives_exceeds :
    (∀ (env : Env) (rng : Rand) (w h : Nat) (fs : List (Nat × Option Keys)),
      activeCount (ThorWar.frames env (ThorWar.start env rng w h) fs).player.launcher.missles
        ≤ MISSLE_MAX) ∧
    (∀ (env : Env) (s : ThorWar) (elapsed : Nat) (shift p2o : Point),
      (s.hitWalls env elapsed shift p2o).player.launcher.actives
        = s.player.launcher.actives) ∧
    (ThorWar.frames Env.upright (ThorWar.start Env.upright Rand.zero 2048 1152)
      wallShots).player.launcher.actives = 6 ∧
    activeCount (ThorWar.frames Env.upright (ThorWar.start Env.upright Rand.zero 2048 1152)
      wallShots).player.launcher.missles = 1 ∧
    MISSLE_MAX = 5 := by
  refine ⟨?_, ?_, by decide!, by decide!, rfl⟩
  · intro env rng w h fs
    have hstart : (ThorWar.start env rng w h).player.launcher.missles.length = MISSLE_MAX := by
      simp [ThorWar.start, Player.init, Launcher.init, MISSLE_MAX]
    have hlen := frames_slots env MISSLE_MAX fs _ hstart
    unfold activeCount
    rw [← hlen]
    exact List.countP_le_length _
  intro env s elapsed shift p2o
  have hp := (wallLoop_frame env elapsed shift p2o s.player.launcher.missles s).2.2.1
  simp only [ThorWar.hitWalls, hp]

/-! ### The level across frames -/

/-- The flash effect leaves the level, the lives and the clocks. -/
theorem flash_frame (s : ThorWar) (elapsed : Nat) :
    (s.flash elapsed).LEVEL = s.LEVEL ∧ (s.flash elapsed).lives.count = s.lives.count ∧
    (s.flash elapsed).tick = s.tick := by
  unfold ThorWar.flash
  split
  · split <;> exact ⟨rfl, rfl, rfl⟩
  · exact ⟨rfl, rfl, rfl⟩

/-- A call of `reset` leaves the level, or is a full reset and sets it to 0. -/
theorem reset_level (env : Env) (s : ThorWar) (elapsed : Nat) :
    (s.reset env elapsed).LEVEL = s.LEVEL ∨
    (s.lives.count = 0 ∧ 3000 ≤ u32 ((elapsed : Int) - s.tick.end_) ∧
      (s.reset env elapsed).LEVEL = 0) := by
  unfold ThorWar.reset
  by_cases h0 : s.lives.count = 0
  · by_cases hd : u32 ((elapsed : Int) - s.tick.end_) < 3000
    · left; simp [h0, hd]
    · right; simp [h0, hd]; omega
  · left
    simp only [h0, if_false]
    split <;> rfl

/-- Destroying an enemy leaves the level. -/
theorem destroyEnemy_level (env : Env) (s : ThorWar) (e : Enemy) (d : Point) (elapsed : Nat) :
    (s.destroyEnemy env e d elapsed).LEVEL = s.LEVEL := by
  unfold ThorWar.destroyEnemy
  rfl

/-- The enemy block of a frame does not lower the level and keeps it at most
9. -/
theorem updateEnemies_level (env : Env) (elapsed : Nat) (s : ThorWar) :
    s.LEVEL ≤ (s.updateEnemies env elapsed).LEVEL ∧
    (s.LEVEL ≤ 9 → (s.updateEnemies env elapsed).LEVEL ≤ 9) := by
  unfold ThorWar.updateEnemies
  split
  · apply enemyLoop_induct env elapsed _ _
      (fun u => s.LEVEL ≤ u.LEVEL ∧ (s.LEVEL ≤ 9 → u.LEVEL ≤ 9))
    · intro u l hu
      have hd : (ThorWar.dead env { u with enemies := l } elapsed).LEVEL = u.LEVEL :=
        (dead_levels env { u with enemies := l } elapsed).1
      rw [hd]; exact hu
    · intro u e target hu; exact hu
    · intro u w c hu; exact hu
    · intro u e d hu
      rw [destroyEnemy_level]; exact hu
    · intro u hu
      rcases gamelevel_level u with h | h
      · rw [h]; exact hu
      · rw [h.1]
        exact ⟨by have := hu.1; omega, fun _ => by have := h.2; omega⟩
    · intro u e hu; exact hu
    · intro u l hu; exact hu
    · exact ⟨le_refl _, fun h => h⟩
  · exact ⟨le_refl _, fun h => h⟩

/-- A frame does not lower the level unless it runs a full reset, and keeps it
at most 9. -/
theorem frame_level (env : Env) (elapsed : Nat) (s : ThorWar) (keys : Option Keys) :
    (s.LEVEL ≤ (s.update env elapsed keys).LEVEL ∨
      (s.gameplay = false ∧ s.lives.count = 0 ∧
        3000 ≤ u32 ((elapsed : Int) - s.tick.end_))) ∧
    (s.LEVEL ≤ 9 → (s.update env elapsed keys).LEVEL ≤ 9) := by
  apply update_induct env elapsed (fun t => t = s)
    (fun t => (s.LEVEL ≤ t.LEVEL ∨
      (s.gameplay = false ∧ s.lives.count = 0 ∧
        3000 ≤ u32 ((elapsed : Int) - s.tick.end_))) ∧
      (s.LEVEL ≤ 9 → t.LEVEL ≤ 9))
  · intro t keys _ ht
    subst ht
    have hl : (t.input env elapsed keys).LEVEL = t.LEVEL := (input_frame env elapsed keys t).2.1
    show (t.LEVEL ≤ (t.input env elapsed keys).LEVEL ∨ _) ∧
      (t.LEVEL ≤ 9 → (t.input env elapsed keys).LEVEL ≤ 9)
    rw [hl]
    exact ⟨Or.inl (le_refl _), fun h => h⟩
  · intro t hg ht
    subst ht
    obtain ⟨f1, f2, f3⟩ := flash_frame t elapsed
    rcases reset_level env (t.flash elapsed) elapsed with h | ⟨h0, hd, hz⟩
    · rw [h, f1]
      exact ⟨Or.inl (le_refl _), fun h => h⟩
    · rw [hz]
      rw [f2] at h0
      rw [f3] at hd
      exact ⟨Or.inr ⟨hg, h0, hd⟩, fun _ => by omega⟩
  · intro t ht
    obtain ⟨h1, h2⟩ := updateEnemies_level env elapsed t
    refine ⟨?_, fun h9 => h2 (ht.2 h9)⟩
    rcases ht.1 with h | h
    · exact Or.inl (le_trans h h1)
    · exact Or.inr h
  · intro t shift p2o ht
    have hl : (t.hitWalls env elapsed shift p2o).LEVEL = t.LEVEL := by
      have := (wallLoop_frame env elapsed shift p2o t.player.launcher.missles t).1
      simp only [ThorWar.hitWalls]
      exact this
    rw [hl]; exact ht
  · intro t x g r ht; exact ht
  · intro t c ht; exact ht
  · intro t ht
    rw [(respawn_frame env elapsed t).2.1]; exact ht
  · intro t tk ht; exact ht
  · rfl

/-- A run of frames keeps the level at most 9. -/
theorem frames_level (env : Env) :
    ∀ (fs : List (Nat × Option Keys)) (s : ThorWar), s.LEVEL ≤ 9 →
      (ThorWar.frames env s fs).LEVEL ≤ 9 := by
  intro fs
  induction fs with
  | nil => intro s h; simpa [ThorWar.frames] using h
  | cons f rest ih =>
    intro s h
    simp only [ThorWar.frames]
    exact ih _ ((frame_level env f.1 s f.2).2 h)

/-- C12: across a frame of the session (`ThorWar::update`) `LEVEL` does not
decrease unless the frame runs a full game-over reset (gameplay off, no life
left, 3000 ms since the death), and stays at most 9, also over any run of
frames; within the frame: `gamelevel` leaves `LEVEL` or raises it by one, never
lowers it and never takes it above 9; `dead` does not change `LEVEL`; `reset`
changes `LEVEL` only when `lives.count = 0` and the 3000 ms delay has elapsed,
and then to 0; a `reset` with lives remaining leaves `LEVEL` and `wipesCnt` as
they are. -/
theorem C12_level_monotone (env : Env) (s : ThorWar) (elapsed : Nat) (keys : Option Keys) :
    (((s.update env elapsed keys).LEVEL < s.LEVEL →
        s.gameplay = false ∧ s.lives.count = 0 ∧
          3000 ≤ u32 ((elapsed : Int) - s.tick.end_)) ∧
      (s.LEVEL ≤ 9 → (s.update env elapsed keys).LEVEL ≤ 9) ∧
      (∀ fs : List (Nat × Option Keys), s.LEVEL ≤ 9 → (ThorWar.frames env s fs).LEVEL ≤ 9)) ∧
    ((s.gamelevel.LEVEL = s.LEVEL ∨ s.gamelevel.LEVEL = s.LEVEL + 1) ∧
      s.LEVEL ≤ s.gamelevel.LEVEL ∧
      (s.LEVEL ≤ 9 → s.gamelevel.LEVEL ≤ 9)) ∧
    (s.dead env elapsed).LEVEL = s.LEVEL ∧
    ((s.reset env elapsed).LEVEL ≠ s.LEVEL →
      s.lives.count = 0 ∧ 3000 ≤ u32 ((elapsed : Int) - s.tick.end_) ∧
      (s.reset env elapsed).LEVEL = 0) ∧
    (s.lives.count ≠ 0 →
      (s.reset env elapsed).LEVEL = s.LEVEL ∧ (s.reset env elapsed).wipesCnt = s.wipesCnt) := by
  refine ⟨⟨?_, (frame_level env elapsed s keys).2, fun fs h => frames_level env fs s h⟩,
    ⟨?_, ?_, ?_⟩, (dead_levels env s elapsed).1, ?_, ?_⟩
  · intro hlt
    rcases (frame_level env elapsed s keys).1 with h | h
    · omega
    · exact h
  · rcases gamelevel_level s with h | h
    · exact Or.inl h
    · exact Or.inr h.1
  · rcases gamelevel_level s with h | h <;> omega
  · intro h9
    rcases gamelevel_level s with h | h <;> omega
  · intro hne
    rcases reset_level env s elapsed with h | h
    · exact absurd h hne
    · exact h
  · intro h0
    unfold ThorWar.reset
    simp only [h0, if_false]
    split <;> exact ⟨rfl, rfl⟩

/-- C12 at concrete inputs: the frame at 8000 ms on `ThorWar.sampleOver`
(gameplay off, no life left, dead since 5000 ms) is a full reset and takes the
level from 6 to 0; the same frame at 7000 ms leaves the level at 6. -/
theorem C12_level_monotone_witness :
    ThorWar.sampleOver.LEVEL = 6 ∧
    (ThorWar.sampleOver.update Env.sample 8000 none).LEVEL = 0 ∧
    (ThorWar.sampleOver.gameplay = false ∧ ThorWar.sampleOver.lives.count = 0 ∧
      3000 ≤ u32 (((8000 : Nat) : Int) - ThorWar.sampleOver.tick.end_)) ∧
    (ThorWar.sampleOver.update Env.sample 7000 none).LEVEL = 6 ∧
    (ThorWar.sampleOver.update Env.sample 7000 none).LEVEL ≤ 9 := by
  have h8 : (ThorWar.sampleOver.update Env.sample 8000 none).LEVEL = 0 := by decide!
  have h7 : (ThorWar.sampleOver.update Env.sample 7000 none).LEVEL = 6 := by decide!
  have hl : ThorWar.sampleOver.LEVEL = 6 := by decide!
  refine ⟨hl, h8, ?_, h7, ?_⟩
  · exact (C12_level_monotone Env.sample ThorWar.sampleOver 8000 none).1.1
      (by rw [h8, hl]; decide)
  · exact (C12_level_monotone Env.sample ThorWar.sampleOver 7000 none).1.2.1
      (by rw [hl]; decide)

end Janitor
